import Mathlib

/-!
# go-structured-query: row materialization, DELETE compilation, boolean fields, CTEs

A shallow embedding of `mysql/row.go`, `mysql/delete_query.go` (with the flags of
`mysql/base_query.go`), `postgres/boolean_field.go` and `postgres/cte2.go`.

* Go methods with a pointer receiver (`func (r *Row) ...`) become functions that
  return the new receiver state next to their result; a Go panic is an
  `Except.error`.
* Go methods with a value receiver (`func (q DeleteQuery) ...`) receive a copy;
  what they can change for the caller is only what lives behind a pointer, so the
  `int64` behind `LimitValue` lives in an explicit `Heap`.
* `int64` values are `Int`s, negation wraps modulo `2 ^ 64`.
* A component whose source is not among the embedded files (tables, predicates,
  fields) is represented by what its rendering method appends: a `Fragment`.
-/

namespace Sq

/-! ## Values and fragments -/

/-- A value of Go type `interface{}` as it occurs in an argument list. -/
inductive Value where
  | nil
  | bool (b : Bool)
  | int (i : Int)
  | int64 (i : Int)
  | string (s : String)
  | other (tag : Nat)
deriving DecidableEq, Repr

/-- What one call of an `AppendSQL` / `AppendSQLExclude` method contributes: the
text it writes to the buffer and the values it appends to the args slice. -/
structure Fragment where
  text : String
  args : List Value
deriving DecidableEq, Repr

/-- The `Predicate` interface, as far as rendering goes: `AppendSQLExclude` called
with a list of excluded table qualifiers. -/
structure Predicate where
  AppendSQLExclude : List String → Fragment

/-- A typed column descriptor (`NumberField`, `StringField`, `TimeField` or any
other implementation of the `Field` interface): what its three interface methods
answer. -/
structure FieldDesc where
  AppendSQLExclude : List String → Fragment
  GetAlias : String
  GetName : String

abbrev NumberField := FieldDesc
abbrev StringField := FieldDesc
abbrev TimeField := FieldDesc

/-- A value of the `Field` interface as stored in `Row.fields`: a descriptor
handed in by the caller, or the `CustomPredicate` that `NullBool` builds. -/
inductive Field where
  | desc (f : FieldDesc)
  | CustomPredicate (Format : String) (Values : List Value)

/-! ## database/sql wrappers

The value field is declared after `Valid` (Go declares it first) because a field
named like its own type hides the type for the fields that follow. -/

/-- Go `time.Time`: wall clock word, monotonic extension, location. -/
structure Time where
  wall : Nat
  ext : Int
  loc : Nat
deriving DecidableEq, Repr

/-- The zero `time.Time`. -/
def Time.zero : Time := ⟨0, 0, 0⟩

/-- Type `sql.NullBool`. -/
structure NullBool where
  Valid : Bool
  Bool : Bool
deriving DecidableEq, Repr

/-- Type `sql.NullFloat64`; the float is kept as its IEEE-754 bit pattern, so the
zero value `+0.0` is the pattern `0`. -/
structure NullFloat64 where
  Valid : Bool
  Float64 : Nat
deriving DecidableEq, Repr

/-- Type `sql.NullInt32`. -/
structure NullInt32 where
  Valid : Bool
  Int32 : Int
deriving DecidableEq, Repr

/-- Type `sql.NullInt64`. -/
structure NullInt64 where
  Valid : Bool
  Int64 : Int
deriving DecidableEq, Repr

/-- Type `sql.NullString`. -/
structure NullString where
  Valid : Bool
  String : String
deriving DecidableEq, Repr

/-- Type `sql.NullTime`. -/
structure NullTime where
  Valid : Bool
  Time : Time
deriving DecidableEq, Repr

/-- Composite literal `sql.NullBool{}`. -/
def NullBool.zero : NullBool := ⟨false, false⟩
/-- Composite literal `sql.NullFloat64{}`. -/
def NullFloat64.zero : NullFloat64 := ⟨false, 0⟩
/-- Composite literal `sql.NullInt32{}`. -/
def NullInt32.zero : NullInt32 := ⟨false, 0⟩
/-- Composite literal `sql.NullInt64{}`. -/
def NullInt64.zero : NullInt64 := ⟨false, 0⟩
/-- Composite literal `sql.NullString{}`. -/
def NullString.zero : NullString := ⟨false, ""⟩
/-- Composite literal `sql.NullTime{}`. -/
def NullTime.zero : NullTime := ⟨false, Time.zero⟩

/-! ## Row -/

/-- The dynamic type of the `dest interface{}` argument of `ScanInto`, one
constructor per case of its type switch; `other` is every type that reaches
`default`, told apart by a tag. -/
inductive ScanDest where
  | bool | NullBool
  | float64 | NullFloat64
  | int | int32 | NullInt32
  | int64 | NullInt64
  | string | NullString
  | Time | NullTime
  | other (tag : Nat)
deriving DecidableEq, Repr

/-- An element of `Row.dest`: a pointer to one of the six wrappers (with the
wrapper it points to), or the destination the caller passed. -/
inductive Dest where
  | NullBool (v : NullBool)
  | NullFloat64 (v : NullFloat64)
  | NullInt32 (v : NullInt32)
  | NullInt64 (v : NullInt64)
  | NullString (v : NullString)
  | NullTime (v : NullTime)
  | caller (dest : ScanDest)
deriving DecidableEq, Repr

/-- An element of `Row.tmpdest`: the discard sink `&nothing` or a destination of
the caller. -/
inductive TmpSlot where
  | nothing
  | dest (d : ScanDest)
deriving DecidableEq, Repr

/-- The cursor `*sql.Rows`, as far as `Row` uses it: `Scan` on a destination
array answers `none` (nil error) or an error text. -/
structure Rows where
  Scan : List TmpSlot → Option String

/-- A Go panic: the three a `Row` method can raise, and the call of a method on a
nil interface value. -/
inductive Panic where
  | indexOutOfRange
  | typeAssertion
  | scanFailed (sourcefile : String) (linenbr : Nat) (err : String)
  | nilPointer
deriving DecidableEq, Repr

/-- The value a `ScanInto` call stores through the caller's pointer
(`*ptr = ...`); `none` when nothing is stored by `ScanInto` itself. -/
inductive Stored where
  | none
  | bool (v : Bool)
  | NullBool (v : NullBool)
  | float64 (v : Nat)
  | NullFloat64 (v : NullFloat64)
  | int (v : Int)
  | int32 (v : Int)
  | NullInt32 (v : NullInt32)
  | int64 (v : Int)
  | NullInt64 (v : NullInt64)
  | string (v : String)
  | NullString (v : NullString)
  | Time (v : Time)
  | NullTime (v : NullTime)
deriving DecidableEq, Repr

/-- Type `Row` of row.go. `rows = none` is the nil cursor of the declare phase. -/
structure Row where
  rows : Option Rows
  index : Int
  fields : List Field
  dest : List Dest
  tmpdest : List TmpSlot

/-- The zero `Row{}`. -/
def Row.empty : Row := ⟨none, 0, [], [], []⟩

/-- Slice indexing `s[i]` with an `int` index: a panic outside `0 ≤ i < len(s)`. -/
def sliceIndex {α : Type} (s : List α) (i : Int) : Except Panic α :=
  if i < 0 then .error .indexOutOfRange
  else match s[i.toNat]? with
    | some a => .ok a
    | none => .error .indexOutOfRange

/-- The caller position that `runtime.Caller(1)` reports in `ScanInto`. -/
structure CallerInfo where
  sourcefile : String
  linenbr : Nat
deriving DecidableEq, Repr

/-- The function `(r *Row) ScanInto(dest, field)`. The result is what was stored
through `dest`, or the panic, together with the receiver after the call. -/
def Row.ScanInto (r : Row) (dest : ScanDest) (field : Field)
    (caller : CallerInfo) : Except Panic Stored × Row :=
  match r.rows with
  | none =>
    let r := { r with fields := r.fields ++ [field] }
    let r :=
      match dest with
      | .bool | .NullBool => { r with dest := r.dest ++ [Dest.NullBool NullBool.zero] }
      | .float64 | .NullFloat64 => { r with dest := r.dest ++ [Dest.NullFloat64 NullFloat64.zero] }
      | .int32 | .NullInt32 => { r with dest := r.dest ++ [Dest.NullInt32 NullInt32.zero] }
      | .int | .int64 | .NullInt64 => { r with dest := r.dest ++ [Dest.NullInt64 NullInt64.zero] }
      | .string | .NullString => { r with dest := r.dest ++ [Dest.NullString NullString.zero] }
      | .Time | .NullTime => { r with dest := r.dest ++ [Dest.NullTime NullTime.zero] }
      | .other _ => { r with dest := r.dest ++ [Dest.caller dest] }
    (.ok .none, r)
  | some rows =>
    let typed (want : Dest → Option Stored) : Except Panic Stored × Row :=
      match sliceIndex r.dest r.index with
      | .error e => (.error e, r)
      | .ok d =>
        match want d with
        | some s => (.ok s, { r with index := r.index + 1 })
        | none => (.error .typeAssertion, r)
    match dest with
    | .bool => typed fun d => match d with
        | .NullBool nullbool => some (.bool nullbool.Bool) | _ => none
    | .NullBool => typed fun d => match d with
        | .NullBool nullbool => some (.NullBool nullbool) | _ => none
    | .float64 => typed fun d => match d with
        | .NullFloat64 nullfloat64 => some (.float64 nullfloat64.Float64) | _ => none
    | .NullFloat64 => typed fun d => match d with
        | .NullFloat64 nullfloat64 => some (.NullFloat64 nullfloat64) | _ => none
    | .int => typed fun d => match d with
        | .NullInt64 nullint64 => some (.int nullint64.Int64) | _ => none
    | .int32 => typed fun d => match d with
        | .NullInt32 nullint32 => some (.int32 nullint32.Int32) | _ => none
    | .NullInt32 => typed fun d => match d with
        | .NullInt32 nullint32 => some (.NullInt32 nullint32) | _ => none
    | .int64 => typed fun d => match d with
        | .NullInt64 nullint64 => some (.int64 nullint64.Int64) | _ => none
    | .NullInt64 => typed fun d => match d with
        | .NullInt64 nullint64 => some (.NullInt64 nullint64) | _ => none
    | .string => typed fun d => match d with
        | .NullString nullstring => some (.string nullstring.String) | _ => none
    | .NullString => typed fun d => match d with
        | .NullString nullstring => some (.NullString nullstring) | _ => none
    | .Time => typed fun d => match d with
        | .NullTime nulltime => some (.Time nulltime.Time) | _ => none
    | .NullTime => typed fun d => match d with
        | .NullTime nulltime => some (.NullTime nulltime) | _ => none
    | .other _ =>
      let tmpdest :=
        if r.tmpdest.length ≠ r.dest.length then List.replicate r.dest.length TmpSlot.nothing
        else r.tmpdest
      if r.index < 0 ∨ (tmpdest.length : Int) ≤ r.index then
        (.error .indexOutOfRange, { r with tmpdest := tmpdest })
      else
        let tmpdest := tmpdest.set r.index.toNat (TmpSlot.dest dest)
        match rows.Scan tmpdest with
        | some err =>
          (.error (.scanFailed caller.sourcefile caller.linenbr err), { r with tmpdest := tmpdest })
        | none =>
          let tmpdest := tmpdest.set r.index.toNat TmpSlot.nothing
          (.ok .none, { r with tmpdest := tmpdest, index := r.index + 1 })

/-! ### bool -/

/-- The function `(r *Row) NullBool(predicate)`. -/
def Row.NullBool (r : Row) (predicate : Predicate) : Except Panic NullBool × Row :=
  match r.rows with
  | none =>
    let out := predicate.AppendSQLExclude []
    (.ok NullBool.zero,
      { r with
        fields := r.fields ++ [Field.CustomPredicate out.text out.args]
        dest := r.dest ++ [Dest.NullBool NullBool.zero] })
  | some _ =>
    match sliceIndex r.dest r.index with
    | .error e => (.error e, r)
    | .ok (.NullBool nullbool) => (.ok nullbool, { r with index := r.index + 1 })
    | .ok _ => (.error .typeAssertion, r)

/-- The function `(r *Row) BoolValid(predicate)`. -/
def Row.BoolValid (r : Row) (predicate : Predicate) : Except Panic Bool × Row :=
  ((r.NullBool predicate).1.map (·.Valid), (r.NullBool predicate).2)

/-! ### float64 -/

/-- The function `(r *Row) NullFloat64(field)`. -/
def Row.NullFloat64 (r : Row) (field : NumberField) : Except Panic NullFloat64 × Row :=
  match r.rows with
  | none =>
    (.ok NullFloat64.zero,
      { r with
        fields := r.fields ++ [Field.desc field]
        dest := r.dest ++ [Dest.NullFloat64 NullFloat64.zero] })
  | some _ =>
    match sliceIndex r.dest r.index with
    | .error e => (.error e, r)
    | .ok (.NullFloat64 nullfloat64) => (.ok nullfloat64, { r with index := r.index + 1 })
    | .ok _ => (.error .typeAssertion, r)

/-- The function `(r *Row) Float64(field)`. -/
def Row.Float64 (r : Row) (field : NumberField) : Except Panic Nat × Row :=
  ((r.NullFloat64 field).1.map (·.Float64), (r.NullFloat64 field).2)

/-- The function `(r *Row) Float64Valid(field)`. -/
def Row.Float64Valid (r : Row) (field : NumberField) : Except Panic Bool × Row :=
  ((r.NullFloat64 field).1.map (·.Valid), (r.NullFloat64 field).2)

/-! ### int, int64 -/

/-- The function `(r *Row) NullInt64(field)`. -/
def Row.NullInt64 (r : Row) (field : NumberField) : Except Panic NullInt64 × Row :=
  match r.rows with
  | none =>
    (.ok NullInt64.zero,
      { r with
        fields := r.fields ++ [Field.desc field]
        dest := r.dest ++ [Dest.NullInt64 NullInt64.zero] })
  | some _ =>
    match sliceIndex r.dest r.index with
    | .error e => (.error e, r)
    | .ok (.NullInt64 nullint64) => (.ok nullint64, { r with index := r.index + 1 })
    | .ok _ => (.error .typeAssertion, r)

/-- The function `(r *Row) IntValid(field)`. -/
def Row.IntValid (r : Row) (field : NumberField) : Except Panic Bool × Row :=
  ((r.NullInt64 field).1.map (·.Valid), (r.NullInt64 field).2)

/-- The function `(r *Row) Int64(field)`. -/
def Row.Int64 (r : Row) (field : NumberField) : Except Panic Int × Row :=
  ((r.NullInt64 field).1.map (·.Int64), (r.NullInt64 field).2)

/-- The function `(r *Row) Int64Valid(field)`. -/
def Row.Int64Valid (r : Row) (field : NumberField) : Except Panic Bool × Row :=
  ((r.NullInt64 field).1.map (·.Valid), (r.NullInt64 field).2)

/-! ### string -/

/-- The function `(r *Row) NullString(field)`. -/
def Row.NullString (r : Row) (field : StringField) : Except Panic NullString × Row :=
  match r.rows with
  | none =>
    (.ok NullString.zero,
      { r with
        fields := r.fields ++ [Field.desc field]
        dest := r.dest ++ [Dest.NullString NullString.zero] })
  | some _ =>
    match sliceIndex r.dest r.index with
    | .error e => (.error e, r)
    | .ok (.NullString nullstring) => (.ok nullstring, { r with index := r.index + 1 })
    | .ok _ => (.error .typeAssertion, r)

/-- The function `(r *Row) StringValid(field)`. -/
def Row.StringValid (r : Row) (field : StringField) : Except Panic Bool × Row :=
  ((r.NullString field).1.map (·.Valid), (r.NullString field).2)

/-! ### time.Time -/

/-- The function `(r *Row) NullTime(field)`. -/
def Row.NullTime (r : Row) (field : TimeField) : Except Panic NullTime × Row :=
  match r.rows with
  | none =>
    (.ok NullTime.zero,
      { r with
        fields := r.fields ++ [Field.desc field]
        dest := r.dest ++ [Dest.NullTime NullTime.zero] })
  | some _ =>
    match sliceIndex r.dest r.index with
    | .error e => (.error e, r)
    | .ok (.NullTime nulltime) => (.ok nulltime, { r with index := r.index + 1 })
    | .ok _ => (.error .typeAssertion, r)

/-- The function `(r *Row) TimeValid(field)`. -/
def Row.TimeValid (r : Row) (field : TimeField) : Except Panic Bool × Row :=
  ((r.NullTime field).1.map (·.Valid), (r.NullTime field).2)

/-! ### the accessors named like a Go type

`Bool`, `Int`, `String` and `Time` come last: inside the `Row` namespace their
names hide the types of the same name. -/

/-- The function `(r *Row) Bool(predicate)`. -/
def Row.Bool (r : Row) (predicate : Predicate) : Except Panic Bool × Row :=
  ((r.NullBool predicate).1.map (·.Bool), (r.NullBool predicate).2)

/-- The function `(r *Row) Int(field)`; `int` is taken as 64 bits wide, so the
conversion `int(...)` of an `int64` is the identity. -/
def Row.Int (r : Row) (field : NumberField) : Except Panic Int × Row :=
  ((r.NullInt64 field).1.map (·.Int64), (r.NullInt64 field).2)

/-- The function `(r *Row) String(field)`. -/
def Row.String (r : Row) (field : StringField) : Except Panic String × Row :=
  ((r.NullString field).1.map (·.String), (r.NullString field).2)

/-- The function `(r *Row) Time(field)`. -/
def Row.Time (r : Row) (field : TimeField) : Except Panic Time × Row :=
  ((r.NullTime field).1.map (·.Time), (r.NullTime field).2)

/-! ### a callback as a sequence of accessor calls -/

/-- One accessor call made by a row callback, with its arguments. -/
inductive Call where
  | ScanInto (dest : ScanDest) (field : Field) (caller : CallerInfo)
  | NullBool (predicate : Predicate)
  | Bool (predicate : Predicate)
  | BoolValid (predicate : Predicate)
  | NullFloat64 (field : NumberField)
  | Float64 (field : NumberField)
  | Float64Valid (field : NumberField)
  | NullInt64 (field : NumberField)
  | Int (field : NumberField)
  | IntValid (field : NumberField)
  | Int64 (field : NumberField)
  | Int64Valid (field : NumberField)
  | NullString (field : StringField)
  | String (field : StringField)
  | StringValid (field : StringField)
  | NullTime (field : TimeField)
  | Time (field : TimeField)
  | TimeValid (field : TimeField)

/-- What an accessor call hands back to the callback. -/
inductive Ret where
  | stored (s : Stored)
  | bool (v : Bool)
  | float64 (v : Nat)
  | int (v : Int)
  | int64 (v : Int)
  | string (v : String)
  | time (v : Time)
  | NullBool (v : NullBool)
  | NullFloat64 (v : NullFloat64)
  | NullInt64 (v : NullInt64)
  | NullString (v : NullString)
  | NullTime (v : NullTime)
deriving DecidableEq, Repr

/-- Performs one accessor call on the row. -/
def runCall (r : Row) : Call → Except Panic Ret × Row
  | .ScanInto dest field caller =>
      ((r.ScanInto dest field caller).1.map Ret.stored, (r.ScanInto dest field caller).2)
  | .NullBool p => ((r.NullBool p).1.map Ret.NullBool, (r.NullBool p).2)
  | .Bool p => ((r.Bool p).1.map Ret.bool, (r.Bool p).2)
  | .BoolValid p => ((r.BoolValid p).1.map Ret.bool, (r.BoolValid p).2)
  | .NullFloat64 f => ((r.NullFloat64 f).1.map Ret.NullFloat64, (r.NullFloat64 f).2)
  | .Float64 f => ((r.Float64 f).1.map Ret.float64, (r.Float64 f).2)
  | .Float64Valid f => ((r.Float64Valid f).1.map Ret.bool, (r.Float64Valid f).2)
  | .NullInt64 f => ((r.NullInt64 f).1.map Ret.NullInt64, (r.NullInt64 f).2)
  | .Int f => ((r.Int f).1.map Ret.int, (r.Int f).2)
  | .IntValid f => ((r.IntValid f).1.map Ret.bool, (r.IntValid f).2)
  | .Int64 f => ((r.Int64 f).1.map Ret.int64, (r.Int64 f).2)
  | .Int64Valid f => ((r.Int64Valid f).1.map Ret.bool, (r.Int64Valid f).2)
  | .NullString f => ((r.NullString f).1.map Ret.NullString, (r.NullString f).2)
  | .String f => ((r.String f).1.map Ret.string, (r.String f).2)
  | .StringValid f => ((r.StringValid f).1.map Ret.bool, (r.StringValid f).2)
  | .NullTime f => ((r.NullTime f).1.map Ret.NullTime, (r.NullTime f).2)
  | .Time f => ((r.Time f).1.map Ret.time, (r.Time f).2)
  | .TimeValid f => ((r.TimeValid f).1.map Ret.bool, (r.TimeValid f).2)

/-- Runs the calls of a callback in order; a panic stops the callback and leaves
the row as the panicking call left it. -/
def runCalls (r : Row) : List Call → Except Panic Unit × Row
  | [] => (.ok (), r)
  | c :: cs =>
    match (runCall r c).1 with
    | .error e => (.error e, (runCall r c).2)
    | .ok _ => runCalls (runCall r c).2 cs

/-- The field a call declares: the field it was given, or for the bool accessors
the `CustomPredicate` holding the rendering of the predicate. -/
def Call.declared : Call → Field
  | .ScanInto _ field _ => field
  | .NullBool p | .Bool p | .BoolValid p =>
      Field.CustomPredicate (p.AppendSQLExclude []).text (p.AppendSQLExclude []).args
  | .NullFloat64 f | .Float64 f | .Float64Valid f => Field.desc f
  | .NullInt64 f | .Int f | .IntValid f | .Int64 f | .Int64Valid f => Field.desc f
  | .NullString f | .String f | .StringValid f => Field.desc f
  | .NullTime f | .Time f | .TimeValid f => Field.desc f

/-- The zero value of the result type of a call (`ScanInto` has no result and
stores nothing). -/
def Call.zeroRet : Call → Ret
  | .ScanInto _ _ _ => .stored .none
  | .NullBool _ => .NullBool NullBool.zero
  | .Bool _ | .BoolValid _ | .Float64Valid _ | .IntValid _ | .Int64Valid _
  | .StringValid _ | .TimeValid _ => .bool false
  | .NullFloat64 _ => .NullFloat64 NullFloat64.zero
  | .Float64 _ => .float64 0
  | .NullInt64 _ => .NullInt64 NullInt64.zero
  | .Int _ => .int 0
  | .Int64 _ => .int64 0
  | .NullString _ => .NullString NullString.zero
  | .String _ => .string ""
  | .NullTime _ => .NullTime NullTime.zero
  | .Time _ => .time Time.zero

/-- The element a call appends to `dest` in the declare phase. -/
def Call.placeholder : Call → Dest
  | .ScanInto dest _ _ =>
      match dest with
      | .bool | .NullBool => Dest.NullBool NullBool.zero
      | .float64 | .NullFloat64 => Dest.NullFloat64 NullFloat64.zero
      | .int32 | .NullInt32 => Dest.NullInt32 NullInt32.zero
      | .int | .int64 | .NullInt64 => Dest.NullInt64 NullInt64.zero
      | .string | .NullString => Dest.NullString NullString.zero
      | .Time | .NullTime => Dest.NullTime NullTime.zero
      | .other _ => Dest.caller dest
  | .NullBool _ | .Bool _ | .BoolValid _ => Dest.NullBool NullBool.zero
  | .NullFloat64 _ | .Float64 _ | .Float64Valid _ => Dest.NullFloat64 NullFloat64.zero
  | .NullInt64 _ | .Int _ | .IntValid _ | .Int64 _ | .Int64Valid _ =>
      Dest.NullInt64 NullInt64.zero
  | .NullString _ | .String _ | .StringValid _ => Dest.NullString NullString.zero
  | .NullTime _ | .Time _ | .TimeValid _ => Dest.NullTime NullTime.zero

/-- Two elements of `dest` have the same dynamic Go type: the same wrapper type,
whatever the wrappers hold, or both a destination of the caller. -/
def Dest.sameType : Dest → Dest → Bool
  | .NullBool _, .NullBool _ => true
  | .NullFloat64 _, .NullFloat64 _ => true
  | .NullInt32 _, .NullInt32 _ => true
  | .NullInt64 _, .NullInt64 _ => true
  | .NullString _, .NullString _ => true
  | .NullTime _, .NullTime _ => true
  | .caller _, .caller _ => true
  | _, _ => false

/-- A call that takes the `default` branch of `ScanInto`'s type switch. -/
def isFallback : Call → Bool
  | .ScanInto (.other _) _ _ => true
  | _ => false

/-- The temporary destination array the fallback of `ScanInto` scans into, before
position `index` is pointed at the caller's destination. -/
def Row.freshTmpdest (r : Row) : List TmpSlot :=
  if r.tmpdest.length ≠ r.dest.length then List.replicate r.dest.length TmpSlot.nothing
  else r.tmpdest

/-! ## database/sql: what Scan leaves in a wrapper -/

/-- A column value as database/sql offers it to the `Scan` method of a wrapper
whose value field has type `α`: `null` is the driver value `nil` of an SQL NULL;
`value converted` is any other driver value, with the outcome of `convertAssign`
into the value field, `none` when the conversion fails and the field stays as it
was. -/
inductive Column (α : Type) where
  | null
  | value (converted : Option α)
deriving DecidableEq, Repr

/-- Method `Scan` of `*sql.NullBool` (database/sql): on `nil` it assigns
`n.Bool, n.Valid = false, false`; otherwise it sets `n.Valid = true` and converts
into `n.Bool`. -/
def scanNullBool (n : NullBool) : Column Bool → NullBool
  | .null => ⟨false, false⟩
  | .value (some v) => ⟨true, v⟩
  | .value none => ⟨true, n.Bool⟩

/-- Method `Scan` of `*sql.NullFloat64`. -/
def scanNullFloat64 (n : NullFloat64) : Column Nat → NullFloat64
  | .null => ⟨false, 0⟩
  | .value (some v) => ⟨true, v⟩
  | .value none => ⟨true, n.Float64⟩

/-- Method `Scan` of `*sql.NullInt32`. -/
def scanNullInt32 (n : NullInt32) : Column Int → NullInt32
  | .null => ⟨false, 0⟩
  | .value (some v) => ⟨true, v⟩
  | .value none => ⟨true, n.Int32⟩

/-- Method `Scan` of `*sql.NullInt64`. -/
def scanNullInt64 (n : NullInt64) : Column Int → NullInt64
  | .null => ⟨false, 0⟩
  | .value (some v) => ⟨true, v⟩
  | .value none => ⟨true, n.Int64⟩

/-- Method `Scan` of `*sql.NullString`. -/
def scanNullString (n : NullString) : Column String → NullString
  | .null => ⟨false, ""⟩
  | .value (some v) => ⟨true, v⟩
  | .value none => ⟨true, n.String⟩

/-- Method `Scan` of `*sql.NullTime`. -/
def scanNullTime (n : NullTime) : Column Time → NullTime
  | .null => ⟨false, Time.zero⟩
  | .value (some v) => ⟨true, v⟩
  | .value none => ⟨true, n.Time⟩

/-- The elements `Row.dest` can hold in the value phase. The field is unexported
and row.go writes it in the declare phase only, where every wrapper is created as
the zero value; afterwards `dest` is what `rows.Scan` fills for each row fetched
(the destinations are "pre-populated" when the value phase reads them), so a
wrapper is written by nothing but the `Scan` method database/sql calls on it. -/
inductive Scanned : Dest → Prop where
  | declared (c : Call) : Scanned (Call.placeholder c)
  | bool (n : NullBool) (v : Column Bool) :
      Scanned (.NullBool n) → Scanned (.NullBool (scanNullBool n v))
  | float64 (n : NullFloat64) (v : Column Nat) :
      Scanned (.NullFloat64 n) → Scanned (.NullFloat64 (scanNullFloat64 n v))
  | int32 (n : NullInt32) (v : Column Int) :
      Scanned (.NullInt32 n) → Scanned (.NullInt32 (scanNullInt32 n v))
  | int64 (n : NullInt64) (v : Column Int) :
      Scanned (.NullInt64 n) → Scanned (.NullInt64 (scanNullInt64 n v))
  | string (n : NullString) (v : Column String) :
      Scanned (.NullString n) → Scanned (.NullString (scanNullString n v))
  | time (n : NullTime) (v : Column Time) :
      Scanned (.NullTime n) → Scanned (.NullTime (scanNullTime n v))

/-! ## int64 and the heap -/

/-- Reduction of an integer to the `int64` range, two's complement. -/
def wrapInt64 (x : Int) : Int := (x + 2 ^ 63) % 2 ^ 64 - 2 ^ 63

/-- The `int64` range. -/
def isInt64 (x : Int) : Prop := -2 ^ 63 ≤ x ∧ x < 2 ^ 63

instance (x : Int) : Decidable (isInt64 x) := by
  unfold isInt64
  infer_instance

/-- The smallest `int64`. -/
def minInt64 : Int := -2 ^ 63

/-- Go's unary minus on `int64` (and on a 64-bit `int`). -/
def negInt64 (x : Int) : Int := wrapInt64 (-x)

/-- Go's `x += 1` on a 64-bit `int`. -/
def incInt (x : Int) : Int := wrapInt64 (x + 1)

/-- An address of an `int64` variable. -/
abbrev Ptr := Nat

/-- The `int64` variables that queries point to: the value at each address and
the next unused address. -/
structure Heap where
  cells : Ptr → Int
  next : Ptr

/-- Reads `*p`. -/
def Heap.load (h : Heap) (p : Ptr) : Int := h.cells p

/-- The assignment `*p = v`. -/
def Heap.store (h : Heap) (p : Ptr) (v : Int) : Heap :=
  { h with cells := fun a => if a = p then v else h.cells a }

/-- A new variable holding `v`; its address is the former `next`. -/
def Heap.alloc (h : Heap) (v : Int) : Ptr × Heap :=
  (h.next, { cells := fun a => if a = h.next then v else h.cells a, next := h.next + 1 })

/-! ## DeleteQuery -/

/-- A value behind the `BaseTable` or `CTE` interface: what its methods answer. -/
structure TableDesc where
  AppendSQL : Fragment
  GetAlias : String
  GetName : String

abbrev BaseTable := TableDesc
abbrev CTE := TableDesc

/-- A non-nil value of the `Table` interface. Its dynamic type either implements
`Query` too, and then `nested` is what `NestThis().AppendSQL` appends, or it does
not. A nested query that is a `DeleteQuery` negates its own negative limit while
it renders, as every `DeleteQuery` does; that variable belongs to the nested
query, and the heap here follows the variable behind the `LimitValue` of the
enclosing query only. -/
inductive Table where
  | query (nested : Fragment) (alias' : String) (name : String)
  | table (t : TableDesc)

/-- Method `GetAlias` of a table. -/
def Table.GetAlias : Table → String
  | .query _ alias' _ => alias'
  | .table t => t.GetAlias

/-- The operator of a `VariadicPredicate`. -/
inductive Operator where
  | AND
  | OR
deriving DecidableEq, Repr

/-- Type `VariadicPredicate`. -/
structure VariadicPredicate where
  Toplevel : Bool
  Operator : Operator
  Predicates : List Predicate

/-- A composite literal `VariadicPredicate{Predicates: predicates}`, and with
`predicates = []` the zero value. -/
def VariadicPredicate.ofPredicates (predicates : List Predicate) : VariadicPredicate :=
  ⟨false, .AND, predicates⟩

/-- Type `JoinTable`. -/
structure JoinTable where
  JoinType : String
  Table : Option Table
  OnPredicates : VariadicPredicate

/-- A non-nil `Logger`: the standard `*log.Logger` or any other implementation. -/
inductive Logger where
  | stdLogger
  | custom (tag : Nat)
deriving DecidableEq, Repr

/-- Type `LogFlag` and its constants (base_query.go). -/
abbrev LogFlag := Int
def Linterpolate : LogFlag := 1
def Lstats : LogFlag := 2
def Lresults : LogFlag := 4
def Lparse : LogFlag := 8
def Lverbose : LogFlag := Int.lor Lstats Lresults

/-- Type `ExecFlag` and its constants (base_query.go). -/
abbrev ExecFlag := Int
def ElastInsertID : ExecFlag := 1
def ErowsAffected : ExecFlag := 2

/-- Type `DeleteQuery`. `LimitValue` is a pointer into the heap, `DB` is kept as
a tag. -/
structure DeleteQuery where
  Nested : Bool
  Alias : String
  CTEs : List CTE
  FromTables : List (Option BaseTable)
  UsingTable : Option Table
  JoinTables : List JoinTable
  WherePredicate : VariadicPredicate
  OrderByFields : List Field
  LimitValue : Option Ptr
  DB : Option Nat
  Log : Option Logger
  LogFlag : LogFlag
  LogSkip : Int

/-- The methods and helpers that `AppendSQL` calls and whose source is in other
files of the package: the renderers of the clause containers `CTEs`, `JoinTables`
and `Fields`, `QuestionInterpolate`, and `fmt.Sprint` of the argument list. -/
structure Deps where
  CTEsAppendSQL : List CTE → Fragment
  JoinTablesAppendSQL : List JoinTable → Fragment
  FieldsAppendSQLExclude : List Field → List String → Fragment
  QuestionInterpolate : String → List Value → String
  Sprint : List Value → String

/-- Modelled from the spec: `VariadicPredicate.AppendSQLExclude`, whose source file
is not present. Section 4.2: render each child predicate in order, joined by
`" <KEYWORD> "`; wrap the whole sequence in parentheses unless `toplevel` is true
or the sequence has at most one member; an empty list renders nothing. -/
def VariadicPredicate.AppendSQLExclude (p : VariadicPredicate)
    (excludedTableQualifiers : List String) : Fragment :=
  let keyword := match p.Operator with
    | .AND => " AND "
    | .OR => " OR "
  let parts := p.Predicates.map fun child => child.AppendSQLExclude excludedTableQualifiers
  let text := keyword.intercalate (parts.map (·.text))
  let args := (parts.map (·.args)).flatten
  if p.Toplevel ∨ p.Predicates.length ≤ 1 then ⟨text, args⟩
  else ⟨"(" ++ text ++ ")", args⟩

/-- The pair `(buf, args)` that a rendering method writes to. -/
structure Out where
  buf : String
  args : List Value
deriving DecidableEq, Repr

/-- The call `buf.WriteString(s)`. -/
def Out.WriteString (o : Out) (s : String) : Out := { o with buf := o.buf ++ s }

/-- A call `x.AppendSQL(buf, args)` of a component that appends `f`. -/
def Out.call (o : Out) (f : Fragment) : Out := ⟨o.buf ++ f.text, o.args ++ f.args⟩

/-- The loop `for i, table := range q.FromTables` of `AppendSQL`, from index `i`. -/
def DeleteQuery.rangeFromTables : List (Option BaseTable) → Nat → Out → Out
  | [], _, o => o
  | table :: rest, i, o =>
    let o := if i > 0 then o.WriteString ", " else o
    match table with
    | none => rangeFromTables rest (i + 1) (o.WriteString "NULL")
    | some table =>
      let alias' := table.GetAlias
      let o := if alias' ≠ "" then o.WriteString alias' else o.call table.AppendSQL
      rangeFromTables rest (i + 1) o

/-- One call `Log.Output(calldepth, s)`. -/
structure LogCall where
  calldepth : Int
  s : String
deriving DecidableEq, Repr

/-- What a call of `AppendSQL` leaves behind: the buffer and args slice, the heap,
the calls made to the logger, and the callee's own copy `q` of the receiver as it
is when the method returns. -/
structure Rendered where
  out : Out
  heap : Heap
  log : List LogCall
  q : DeleteQuery

/-- `AppendSQL`, the block under `// WITH`. -/
def appendWITH (x : Deps) (CTEs : List CTE) (o : Out) : Out :=
  if CTEs.length > 0 then (o.call (x.CTEsAppendSQL CTEs)).WriteString " "
  else o

/-- `AppendSQL`, the block under `// DELETE FROM`. -/
def appendDELETEFROM (FromTables : List (Option BaseTable)) (o : Out) : Out :=
  let o := o.WriteString "DELETE FROM "
  if FromTables.length = 0 then o.WriteString "NULL"
  else DeleteQuery.rangeFromTables FromTables 0 o

/-- `AppendSQL`, the block under `// USING`. A sub-query is given by what its
`NestThis().AppendSQL` appends between the parentheses. -/
def appendUSING (UsingTable : Option Table) (o : Out) : Out :=
  match UsingTable with
  | some usingTable =>
    let o := o.WriteString " USING "
    let o :=
      match usingTable with
      | .query nested _ _ => ((o.WriteString "(").call nested).WriteString ")"
      | .table t => o.call t.AppendSQL
    let alias' := usingTable.GetAlias
    if alias' ≠ "" then (o.WriteString " AS ").WriteString alias' else o
  | none => o

/-- `AppendSQL`, the block under `// JOIN`. -/
def appendJOIN (x : Deps) (JoinTables : List JoinTable) (o : Out) : Out :=
  if JoinTables.length > 0 then (o.WriteString " ").call (x.JoinTablesAppendSQL JoinTables)
  else o

/-- `AppendSQL`, the block under `// WHERE`. The assignment
`q.WherePredicate.Toplevel = true` is to the callee's copy of the receiver, which
is returned next to the output. -/
def appendWHERE (WherePredicate : VariadicPredicate) (o : Out) : Out × VariadicPredicate :=
  if WherePredicate.Predicates.length > 0 then
    let o := o.WriteString " WHERE "
    let WherePredicate := { WherePredicate with Toplevel := true }
    (o.call (WherePredicate.AppendSQLExclude []), WherePredicate)
  else (o, WherePredicate)

/-- `AppendSQL`, the block under `// ORDER BY`. -/
def appendORDERBY (x : Deps) (OrderByFields : List Field) (o : Out) : Out :=
  if OrderByFields.length > 0 then
    (o.WriteString " ORDER BY ").call (x.FieldsAppendSQLExclude OrderByFields [])
  else o

/-- `AppendSQL`, the block under `// LIMIT`. The assignment
`*q.LimitValue = -*q.LimitValue` is to the heap. -/
def appendLIMIT (LimitValue : Option Ptr) (h : Heap) (o : Out) : Out × Heap :=
  match LimitValue with
  | some p =>
    let o := o.WriteString " LIMIT ?"
    let h := if h.load p < 0 then h.store p (negInt64 (h.load p)) else h
    ({ o with args := o.args ++ [Value.int64 (h.load p)] }, h)
  | none => (o, h)

/-- `AppendSQL`, the block `if !q.Nested` at its end: the calls to the logger. -/
def appendLog (x : Deps) (Nested : Bool) (Log : Option Logger) (LogFlag : LogFlag)
    (LogSkip : Int) (o : Out) : List LogCall :=
  if !Nested then
    match Log with
    | some logger =>
      let query := o.buf
      let logOutput :=
        if Int.land Lstats LogFlag ≠ 0 then
          "\n----[ Executing query ]----\n" ++ query ++ " " ++ x.Sprint o.args ++
            "\n----[ with bind values ]----\n" ++ x.QuestionInterpolate query o.args
        else if Int.land Linterpolate LogFlag ≠ 0 then
          "Executing query: " ++ x.QuestionInterpolate query o.args
        else
          "Executing query: " ++ query ++ " " ++ x.Sprint o.args
      match logger with
      | .stdLogger => [LogCall.mk (wrapInt64 (LogSkip + 2)) logOutput]
      | .custom _ => [LogCall.mk (wrapInt64 (LogSkip + 1)) logOutput]
    | none => []
  else []

/-- The function `(q DeleteQuery) AppendSQL(buf, args)`: its blocks in order. -/
def DeleteQuery.AppendSQL (x : Deps) (h : Heap) (q : DeleteQuery) (o : Out) : Rendered :=
  let o := appendWITH x q.CTEs o
  let o := appendDELETEFROM q.FromTables o
  let o := appendUSING q.UsingTable o
  let o := appendJOIN x q.JoinTables o
  let w := appendWHERE q.WherePredicate o
  let q := { q with WherePredicate := w.2 }
  let o := appendORDERBY x q.OrderByFields w.1
  let l := appendLIMIT q.LimitValue h o
  { out := l.1, heap := l.2, log := appendLog x q.Nested q.Log q.LogFlag q.LogSkip l.1, q := q }

/-- What `ToSQL` returns, with the heap and the logger calls it leaves behind. -/
structure Compiled where
  sql : String
  args : List Value
  heap : Heap
  log : List LogCall

/-- The function `(q DeleteQuery) ToSQL()`. -/
def DeleteQuery.ToSQL (x : Deps) (h : Heap) (q : DeleteQuery) : Compiled :=
  let q := { q with LogSkip := incInt q.LogSkip }
  let r := q.AppendSQL x h ⟨"", []⟩
  { sql := r.out.buf, args := r.out.args, heap := r.heap, log := r.log }

/-- The function `DeleteFrom(tables...)`; `alias'` is the outcome of
`RandomString(8)`. -/
def DeleteFrom (alias' : String) (tables : List (Option BaseTable)) : DeleteQuery :=
  { Nested := false, Alias := alias', CTEs := [], FromTables := tables, UsingTable := none,
    JoinTables := [], WherePredicate := VariadicPredicate.ofPredicates [], OrderByFields := [],
    LimitValue := none, DB := none, Log := none, LogFlag := 0, LogSkip := 0 }

/-- The function `(q DeleteQuery) NestThis()`. -/
def DeleteQuery.NestThis (q : DeleteQuery) : DeleteQuery := { q with Nested := true }

/-- The function `(q DeleteQuery) Where(predicates...)`. -/
def DeleteQuery.Where (q : DeleteQuery) (predicates : List Predicate) : DeleteQuery :=
  { q with WherePredicate :=
      { q.WherePredicate with Predicates := q.WherePredicate.Predicates ++ predicates } }

/-- The function `(q DeleteQuery) OrderBy(fields...)`. -/
def DeleteQuery.OrderBy (q : DeleteQuery) (fields : List Field) : DeleteQuery :=
  { q with OrderByFields := q.OrderByFields ++ fields }

/-- The function `(q DeleteQuery) Limit(limit)`: `num := int64(limit)` is a new
variable on the heap and `LimitValue` its address. `limit` is a 64-bit `int`. -/
def DeleteQuery.Limit (h : Heap) (q : DeleteQuery) (limit : Int) : DeleteQuery × Heap :=
  let (num, h) := h.alloc limit
  ({ q with LimitValue := some num }, h)

/-- The `int64` that the `// LIMIT` block binds when the stored limit is `v`: `v`
itself, or its Go negation when `v < 0`. -/
def boundLimit (v : Int) : Int := if v < 0 then negInt64 v else v

/-- The limit the caller reads through its own query value: `*q.LimitValue`, when
the pointer is not nil. -/
def DeleteQuery.storedLimit (q : DeleteQuery) (h : Heap) : Option Int :=
  q.LimitValue.map h.load

/-- Sample collaborators for evaluating the model: containers render their element
count, the two log helpers answer fixed texts. -/
def sampleDeps : Deps :=
  { CTEsAppendSQL := fun ctes => ⟨"WITH ", List.replicate ctes.length Value.nil⟩
    JoinTablesAppendSQL := fun js => ⟨"JOIN ", List.replicate js.length Value.nil⟩
    FieldsAppendSQLExclude := fun fs _ => ⟨"fields", List.replicate fs.length Value.nil⟩
    QuestionInterpolate := fun query _ => query
    Sprint := fun _ => "[]" }

/-- A heap with every variable at zero and nothing allocated. -/
def Heap.empty : Heap := ⟨fun _ => 0, 0⟩

/-- The buffer and args of `AppendSQL` when control reaches `// LIMIT`: the blocks
from `// WITH` to `// ORDER BY` applied in order. -/
def DeleteQuery.beforeLIMIT (x : Deps) (q : DeleteQuery) (o : Out) : Out :=
  appendORDERBY x q.OrderByFields
    (appendWHERE q.WherePredicate
      (appendJOIN x q.JoinTables
        (appendUSING q.UsingTable
          (appendDELETEFROM q.FromTables (appendWITH x q.CTEs o))))).1

/-- A sample base table `t` without alias. -/
def sampleTable : BaseTable := ⟨⟨"t", []⟩, "", "t"⟩

/-- A sample predicate rendering as `t.id = ?` with the argument `1`. -/
def samplePredicate : Predicate := ⟨fun _ => ⟨"t.id = ?", [Value.int 1]⟩⟩

/-- The sample query `DeleteFrom(t)`. -/
def sampleDelete : DeleteQuery := DeleteFrom "" [some sampleTable]

/-- A sample cursor whose `Scan` always succeeds. -/
def sampleRows : Rows := ⟨fun _ => none⟩

/-- A sample column descriptor `t.id`. -/
def sampleField : FieldDesc := ⟨fun _ => ⟨"t.id", []⟩, "", "id"⟩

/-! ## The clauses of a DELETE, as the specification lists them -/

/-- The fragment that contributes nothing. -/
def Fragment.empty : Fragment := ⟨"", []⟩

/-- One fragment after another: texts and argument lists concatenated. -/
def Fragment.append (a b : Fragment) : Fragment := ⟨a.text ++ b.text, a.args ++ b.args⟩

/-- Specification of one entry of the delete target list: the token `NULL` for a nil
entry, the alias when the table has one, otherwise the table's own rendering. -/
def specFromItem : Option BaseTable → Fragment
  | none => ⟨"NULL", []⟩
  | some t => if t.GetAlias ≠ "" then ⟨t.GetAlias, []⟩ else t.AppendSQL

/-- Specification of the WITH fragment: the CTEs and a blank, when there are CTEs. -/
def specWITH (x : Deps) (q : DeleteQuery) : Fragment :=
  if q.CTEs.length = 0 then Fragment.empty
  else ⟨(x.CTEsAppendSQL q.CTEs).text ++ " ", (x.CTEsAppendSQL q.CTEs).args⟩

/-- Specification of the head: `DELETE FROM ` and the entries joined by `", "`, or
`NULL` when there is no entry. -/
def specDELETEFROM (q : DeleteQuery) : Fragment :=
  if q.FromTables.length = 0 then ⟨"DELETE FROM NULL", []⟩
  else
    ⟨"DELETE FROM " ++ ", ".intercalate (q.FromTables.map fun t => (specFromItem t).text),
      (q.FromTables.map fun t => (specFromItem t).args).flatten⟩

/-- Specification of the USING fragment: present when `UsingTable` is not nil; a
query is wrapped in parentheses, an alias follows after ` AS `. -/
def specUSING (q : DeleteQuery) : Fragment :=
  match q.UsingTable with
  | none => Fragment.empty
  | some t =>
    let body : Fragment :=
      match t with
      | .query nested _ _ => ⟨"(" ++ nested.text ++ ")", nested.args⟩
      | .table d => d.AppendSQL
    let suffix := if t.GetAlias ≠ "" then " AS " ++ t.GetAlias else ""
    ⟨" USING " ++ body.text ++ suffix, body.args⟩

/-- Specification of the JOIN fragment: a blank and the joins, when there are joins. -/
def specJOIN (x : Deps) (q : DeleteQuery) : Fragment :=
  if q.JoinTables.length = 0 then Fragment.empty
  else ⟨" " ++ (x.JoinTablesAppendSQL q.JoinTables).text, (x.JoinTablesAppendSQL q.JoinTables).args⟩

/-- Specification of the WHERE fragment: ` WHERE ` and the predicates rendered as a
top-level list, when there are predicates. -/
def specWHERE (q : DeleteQuery) : Fragment :=
  if q.WherePredicate.Predicates.length = 0 then Fragment.empty
  else
    ⟨" WHERE " ++
        (VariadicPredicate.AppendSQLExclude { q.WherePredicate with Toplevel := true } []).text,
      (VariadicPredicate.AppendSQLExclude { q.WherePredicate with Toplevel := true } []).args⟩

/-- Specification of the ORDER BY fragment: ` ORDER BY ` and the fields, when there
are fields. -/
def specORDERBY (x : Deps) (q : DeleteQuery) : Fragment :=
  if q.OrderByFields.length = 0 then Fragment.empty
  else
    ⟨" ORDER BY " ++ (x.FieldsAppendSQLExclude q.OrderByFields []).text,
      (x.FieldsAppendSQLExclude q.OrderByFields []).args⟩

/-- Specification of the LIMIT fragment: ` LIMIT ?` with one argument, when
`LimitValue` is not nil. -/
def specLIMIT (h : Heap) (q : DeleteQuery) : Fragment :=
  match q.LimitValue with
  | none => Fragment.empty
  | some p => ⟨" LIMIT ?", [Value.int64 (boundLimit (h.load p))]⟩

/-- Specification of the whole statement: the fragments in clause order. -/
def specDELETE (x : Deps) (h : Heap) (q : DeleteQuery) : Fragment :=
  (specWITH x q).append <| (specDELETEFROM q).append <| (specUSING q).append <|
    (specJOIN x q).append <| (specWHERE q).append <| (specORDERBY x q).append (specLIMIT h q)

/-- A sample CTE entry. -/
def sampleCTE : CTE := ⟨⟨"cte", []⟩, "", "cte"⟩

/-- Specification of what follows the head of the statement: the fragments from
USING to LIMIT in clause order. -/
def specAfterHead (x : Deps) (h : Heap) (q : DeleteQuery) : Fragment :=
  (specUSING q).append <| (specJOIN x q).append <| (specWHERE q).append <|
    (specORDERBY x q).append (specLIMIT h q)

/-! ## Exec -/

/-- A Go `error` value as `ExecContext` returns it: one made inside the package by
`errors.New`, which is a fresh value equal to no other error, or one handed back
by the driver or by its result and passed on as it is. -/
inductive Error where
  | new (text : String)
  | driver (text : String)
deriving DecidableEq, Repr

/-- The interface `sql.Result`, as far as `ExecContext` uses it: what
`RowsAffected()` answers, a count and an error text or nil. -/
structure SqlResult where
  RowsAffected : Int × Option String
deriving DecidableEq, Repr

/-- A non-nil `DB`: what its `Exec` and `ExecContext` answer, a result or nil and an
error text or nil. A context is a tag. -/
structure DB where
  Exec : String → List Value → Option SqlResult × Option String
  ExecContext : Nat → String → List Value → Option SqlResult × Option String

/-- What lies outside an `ExecContext` call: the `DB` value behind each tag, and the
text `time.Since(start).String()` of the elapsed time. -/
structure ExecEnv where
  db : Nat → DB
  elapsed : String

/-- A call that `ExecContext` makes to a collaborator: `Log.Output`, `Exec` or
`ExecContext` on a `DB`, `RowsAffected` on the result of that `DB`. -/
inductive Event where
  | log (c : LogCall)
  | exec (db : Nat) (ctx : Option Nat) (query : String) (args : List Value)
  | rowsAffected (db : Nat)
deriving DecidableEq, Repr

/-- What `ExecContext` returns, with the heap and the calls it leaves behind. -/
structure ExecResult where
  rowsAffected : Int
  err : Option Error
  heap : Heap
  events : List Event

/-- The deferred function of `ExecContext`, run with the final `rowsAffected`: the
calls it makes to the logger. -/
def deferredLog (Log : Option Logger) (LogFlag : LogFlag) (LogSkip : Int) (flag : ExecFlag)
    (elapsed : String) (rowsAffected : Int) : List LogCall :=
  match Log with
  | none => []
  | some logger =>
    let logBuf :=
      if Int.land Lstats LogFlag ≠ 0 ∧ Int.land ErowsAffected flag ≠ 0 then
        "\n(Deleted " ++ toString rowsAffected ++ " rows in " ++ elapsed ++ ")"
      else ""
    if logBuf.length > 0 then
      match logger with
      | .stdLogger => [LogCall.mk (wrapInt64 (LogSkip + 2)) logBuf]
      | .custom _ => [LogCall.mk (wrapInt64 (LogSkip + 1)) logBuf]
    else []

/-- The function `ExecContext` from `logBuf := &strings.Builder{}` on, once `db` is
known not to be nil. -/
def DeleteQuery.execOn (x : Deps) (env : ExecEnv) (h : Heap) (q : DeleteQuery)
    (ctx : Option Nat) (db : Nat) (flag : ExecFlag) : ExecResult :=
  let q := { q with LogSkip := incInt q.LogSkip }
  let r := q.AppendSQL x h ⟨"", []⟩
  let answer :=
    match ctx with
    | none => (env.db db).Exec r.out.buf r.out.args
    | some c => (env.db db).ExecContext c r.out.buf r.out.args
  let events := r.log.map Event.log ++ [Event.exec db ctx r.out.buf r.out.args]
  let finish (rowsAffected : Int) (err : Option Error) (events : List Event) : ExecResult :=
    ⟨rowsAffected, err, r.heap,
      events ++ (deferredLog q.Log q.LogFlag q.LogSkip flag env.elapsed rowsAffected).map Event.log⟩
  match answer.2 with
  | some err => finish 0 (some (.driver err)) events
  | none =>
    match answer.1 with
    | some res =>
      if Int.land ErowsAffected flag ≠ 0 then
        match res.RowsAffected.2 with
        | some err =>
          finish res.RowsAffected.1 (some (.driver err)) (events ++ [Event.rowsAffected db])
        | none => finish res.RowsAffected.1 none (events ++ [Event.rowsAffected db])
      else finish 0 none events
    | none => finish 0 none events

/-- The function `(q DeleteQuery) ExecContext(ctx, db, flag)`. -/
def DeleteQuery.ExecContext (x : Deps) (env : ExecEnv) (h : Heap) (q : DeleteQuery)
    (ctx : Option Nat) (db : Option Nat) (flag : ExecFlag) : ExecResult :=
  match db with
  | none =>
    match q.DB with
    | none => ⟨0, some (.new "DB cannot be nil"), h, []⟩
    | some db => q.execOn x env h ctx db flag
  | some db => q.execOn x env h ctx db flag

/-- The function `(q DeleteQuery) Exec(db, flag)`. -/
def DeleteQuery.Exec (x : Deps) (env : ExecEnv) (h : Heap) (q : DeleteQuery)
    (db : Option Nat) (flag : ExecFlag) : ExecResult :=
  let q := { q with LogSkip := incInt q.LogSkip }
  q.ExecContext x env h none db flag

/-- The `DB` tags that received an `Exec` or `ExecContext` call, in order. -/
def driverCalls : List Event → List Nat
  | [] => []
  | .exec db _ _ _ :: rest => db :: driverCalls rest
  | _ :: rest => driverCalls rest

/-- A sample driver: every statement affects three rows. -/
def sampleEnv : ExecEnv :=
  { db := fun _ => ⟨fun _ _ => (some ⟨(3, none)⟩, none), fun _ _ _ => (some ⟨(3, none)⟩, none)⟩
    elapsed := "1ms" }

/-- The driver call of `ExecContext`: `db.Exec` when `ctx` is nil, `db.ExecContext`
otherwise, on the compiled statement. -/
def driverAnswer (env : ExecEnv) (ctx : Option Nat) (db : Nat) (query : String)
    (args : List Value) : Option SqlResult × Option String :=
  match ctx with
  | none => (env.db db).Exec query args
  | some c => (env.db db).ExecContext c query args

/-! ## BooleanField (package postgres) -/

/-- Type `BooleanField`. `value`, `descending` and `nullsfirst` are pointers to a
`bool`, nil or not; `table` is a value of the `Table` interface, nil or not. -/
structure BooleanField where
  value : Option Bool
  alias' : String
  table : Option TableDesc
  name : String
  descending : Option Bool
  negative : Bool
  nullsfirst : Option Bool

/-- Go's `strings.ContainsAny(s, chars)`. -/
def ContainsAny (s chars : String) : Bool := s.data.any fun c => chars.data.contains c

/-- The loop `for _, excludedTableQualifier := range excludedTableQualifiers` of
`AppendSQLExclude`: the qualifier, emptied at the first excluded qualifier equal
to it. -/
def rangeExcluded (tableQualifier : String) : List String → String
  | [] => tableQualifier
  | excludedTableQualifier :: rest =>
    if tableQualifier = excludedTableQualifier then ""
    else rangeExcluded tableQualifier rest

/-- The function `(f BooleanField) AppendSQLExclude(buf, args,
excludedTableQualifiers)`: the buffer and args it leaves, and the panic if it does
not return. -/
def BooleanField.AppendSQLExclude (f : BooleanField) (o : Out)
    (excludedTableQualifiers : List String) : Except Panic Unit × Out :=
  let o := if f.negative then o.WriteString "NOT " else o
  let body : Except Panic Unit × Out :=
    match f.value with
    | some value =>
      -- 1) Literal bool value
      let o := o.WriteString "?"
      (.ok (), { o with args := o.args ++ [Value.bool value] })
    | none =>
      -- 3) Boolean column
      match f.table with
      | none => (.error .nilPointer, o)
      | some table =>
        let tableQualifier := table.GetAlias
        let tableQualifier := if tableQualifier = "" then table.GetName else tableQualifier
        let tableQualifier := rangeExcluded tableQualifier excludedTableQualifiers
        let o :=
          if tableQualifier ≠ "" then
            if ContainsAny tableQualifier " \t" then
              ((o.WriteString "\"").WriteString tableQualifier).WriteString "\"."
            else (o.WriteString tableQualifier).WriteString "."
          else o
        let o :=
          if ContainsAny f.name " \t" then
            ((o.WriteString "\"").WriteString f.name).WriteString "\""
          else o.WriteString f.name
        (.ok (), o)
  match body.1 with
  | .error e => (.error e, body.2)
  | .ok _ =>
    let o := body.2
    let o :=
      match f.descending with
      | some true => o.WriteString " DESC"
      | some false => o.WriteString " ASC"
      | none => o
    let o :=
      match f.nullsfirst with
      | some true => o.WriteString " NULLS FIRST"
      | some false => o.WriteString " NULLS LAST"
      | none => o
    (.ok (), o)

/-- The function `NewBooleanField(name, table)`. -/
def NewBooleanField (name : String) (table : Option TableDesc) : BooleanField :=
  { value := none, alias' := "", table := table, name := name, descending := none,
    negative := false, nullsfirst := none }

/-- The function `Bool(b)` of package postgres; the name `Bool` is Lean's type. -/
def Bool' (b : Bool) : BooleanField :=
  { value := some b, alias' := "", table := none, name := "", descending := none,
    negative := false, nullsfirst := none }

/-- The function `(f BooleanField) As(alias)`. -/
def BooleanField.As (f : BooleanField) (alias' : String) : BooleanField :=
  { f with alias' := alias' }

/-- The function `(f BooleanField) Asc()`. -/
def BooleanField.Asc (f : BooleanField) : BooleanField := { f with descending := some false }

/-- The function `(f BooleanField) Desc()`. -/
def BooleanField.Desc (f : BooleanField) : BooleanField := { f with descending := some true }

/-- The function `(f BooleanField) NullsFirst()`. -/
def BooleanField.NullsFirst (f : BooleanField) : BooleanField :=
  { f with nullsfirst := some true }

/-- The function `(f BooleanField) NullsLast()`. -/
def BooleanField.NullsLast (f : BooleanField) : BooleanField :=
  { f with nullsfirst := some false }

/-- The function `(f BooleanField) Not()`. -/
def BooleanField.Not (f : BooleanField) : BooleanField := { f with negative := !f.negative }

/-- The function `(f BooleanField) GetAlias()`. -/
def BooleanField.GetAlias (f : BooleanField) : String := f.alias'

/-- The function `(f BooleanField) GetName()`. -/
def BooleanField.GetName (f : BooleanField) : String := f.name

/-! ### the rendering of a BooleanField, as the specification describes it -/

/-- Specification of the table qualifier of a column: the alias of its table when
that is not empty, the name of the table otherwise. -/
def specQualifier (table : TableDesc) : String :=
  if table.GetAlias ≠ "" then table.GetAlias else table.GetName

/-- An identifier as `AppendSQLExclude` writes it: between double quotes when it
contains a space or a tab, bare otherwise. -/
def quoteIdent (s : String) : String :=
  if ContainsAny s " \t" then "\"" ++ s ++ "\"" else s

/-- Specification of the ordering suffix: ` ASC` or ` DESC` when a direction is set,
then ` NULLS FIRST` or ` NULLS LAST` when a placement is set. -/
def specOrdering (f : BooleanField) : String :=
  (match f.descending with
    | some true => " DESC"
    | some false => " ASC"
    | none => "") ++
  (match f.nullsfirst with
    | some true => " NULLS FIRST"
    | some false => " NULLS LAST"
    | none => "")

/-- The text `NOT ` when the field is negated. -/
def specNot (f : BooleanField) : String := if f.negative then "NOT " else ""

/-- Specification of the column reference without negation and ordering: the
qualifier, a dot and the name when the qualifier is not empty and not excluded,
the name alone otherwise; each identifier quoted as `quoteIdent` says. -/
def specColumn (table : TableDesc) (name : String) (excluded : List String) : String :=
  if specQualifier table ≠ "" ∧ specQualifier table ∉ excluded then
    quoteIdent (specQualifier table) ++ "." ++ quoteIdent name
  else quoteIdent name

/-- A sample table `public.users` aliased `u`. -/
def sampleUsers : TableDesc := ⟨⟨"public.users", []⟩, "u", "users"⟩

/-- The field without its ordering modifiers: neither direction nor nulls placement
set, every other component as it is. -/
def BooleanField.base (f : BooleanField) : BooleanField :=
  { f with descending := none, nullsfirst := none }

/-! ## CTE2 (package postgres) -/

/-- A `SelectQuery` of package postgres, whose declaration is outside the embedded
files: what its methods `GetAlias` and `AppendSQL` answer. -/
structure SelectQuery where
  Alias : String
  AppendSQL : Fragment
deriving DecidableEq, Repr

/-- A non-nil value of the `Query` interface: a `SelectQuery` or a query of another
type. -/
inductive Query where
  | select (q : SelectQuery)
  | other (tag : Nat)
deriving DecidableEq, Repr

/-- A value of Go type `interface{}` as it occurs in `CustomField.Values`. -/
inductive Any where
  | nil
  | string (s : String)
  | query (q : Query)
  | other (tag : Nat)
deriving DecidableEq, Repr

/-- Type `CustomField`, with the two fields that cte2.go sets. -/
structure CustomField where
  Format : String
  Values : List Any
deriving DecidableEq, Repr

/-- Type `CTE2`: `func(string) CustomField`. -/
abbrev CTE2 := String → CustomField

/-- The constant `secret`: `string(rune(27))`, the ASCII escape character. -/
def secret : String := String.singleton (Char.ofNat 27)

/-- A `Query` interface value, nil or not, stored in an `interface{}`. -/
def Any.ofQuery : Option Query → Any
  | none => .nil
  | some q => .query q

/-- The function `(cte CTE2) GetQuery()`. -/
def CTE2.GetQuery (cte : CTE2) : Option Query :=
  let field := cte secret
  match field.Values with
  | .query q :: _ => some q
  | _ => none

/-- The function `(cte CTE2) GetAlias()`. -/
def CTE2.GetAlias (cte : CTE2) : String :=
  let field := cte (secret ++ "alias")
  match field.Values with
  | .string alias' :: _ => alias'
  | _ => ""

/-- The function `(cte CTE2) GetName()`. -/
def CTE2.GetName (cte : CTE2) : String :=
  let field := cte (secret ++ "name")
  match field.Values with
  | .string name :: _ => name
  | _ => ""

/-- The function `(q SelectQuery) CTE(name)`. -/
def SelectQuery.CTE (q : SelectQuery) (name : String) : CTE2 :=
  fun column =>
    if column = secret then { Format := "", Values := [Any.query (.select q)] }
    else if column = secret ++ "alias" then { Format := "", Values := [Any.string ""] }
    else if column = secret ++ "name" then { Format := "", Values := [Any.string name] }
    else { Format := name ++ "." ++ column, Values := [] }

/-- The function `(cte CTE2) As(alias)`. -/
def CTE2.As (cte : CTE2) (alias' : String) : CTE2 :=
  fun column =>
    if column = secret then { Format := "", Values := [Any.ofQuery cte.GetQuery] }
    else if column = secret ++ "alias" then { Format := "", Values := [Any.string alias'] }
    else if column = secret ++ "name" then { Format := "", Values := [Any.string cte.GetName] }
    else { Format := cte.GetName ++ "." ++ column, Values := [] }

/-- The function `(cte CTE2) AppendSQL(buf, args)`. -/
def CTE2.AppendSQL (cte : CTE2) (o : Out) : Out :=
  if cte.GetAlias ≠ "" then o.WriteString cte.GetAlias
  else if cte.GetName ≠ "" then o.WriteString cte.GetName
  else o

/-- A column string that is none of the three sentinel keys. -/
def isColumn (column : String) : Prop :=
  column ≠ secret ∧ column ≠ secret ++ "alias" ∧ column ≠ secret ++ "name"

instance (column : String) : Decidable (isColumn column) := by
  unfold isColumn
  infer_instance

/-- The handles that the package builds: `q.CTE(name)` and `h.As(alias)` of a handle
`h`. -/
inductive CTE2.Built : CTE2 → Prop where
  | cte (q : SelectQuery) (name : String) : CTE2.Built (q.CTE name)
  | as (h : CTE2) (alias' : String) : CTE2.Built h → CTE2.Built (h.As alias')

/-- The sample query behind the CTE of the tests. -/
def sampleSelect : SelectQuery :=
  ⟨"", ⟨"SELECT u.user_id, u.displayname, u.email FROM public.users AS u WHERE u.user_id < $1",
    [Value.int 5]⟩⟩

/-- The zero value `BooleanField{}`. -/
def BooleanField.zero : BooleanField :=
  { value := none, alias' := "", table := none, name := "", descending := none,
    negative := false, nullsfirst := none }

/-- A cursor whose `Scan` fails with `driver: bad type` exactly on the destination
array it is given as `expected`. -/
def rowsFailingOn (expected : List TmpSlot) : Rows :=
  ⟨fun t => if t = expected then some "driver: bad type" else none⟩

/-! ## Lemmas on Row -/

theorem sliceIndex_at {α : Type} (pre : List α) (d : α) (post : List α) :
    sliceIndex (pre ++ d :: post) (pre.length : Int) = .ok d := by
  have hneg : ¬ ((pre.length : Int) < 0) := by omega
  have hget : (pre ++ d :: post)[pre.length]? = some d := by
    rw [List.getElem?_append_right (Nat.le_refl _)]
    simp
  simp only [sliceIndex, hneg, if_false, Int.toNat_ofNat, hget]

theorem sliceIndex_ok_bounds {α : Type} {s : List α} {i : Int} {a : α}
    (h : sliceIndex s i = .ok a) : 0 ≤ i ∧ i < (s.length : Int) := by
  unfold sliceIndex at h
  split at h
  · cases h
  · rename_i hi
    cases hg : s[i.toNat]? with
    | none => simp [hg] at h
    | some b =>
      have hlt : i.toNat < s.length := by
        rcases List.getElem?_eq_some.mp hg with ⟨hlt, _⟩
        exact hlt
      omega

theorem runCall_declare (r : Row) (h : r.rows = none) (c : Call) :
    runCall r c =
      (.ok c.zeroRet,
        { r with fields := r.fields ++ [c.declared], dest := r.dest ++ [c.placeholder] }) := by
  obtain ⟨rows, index, fields, dest, tmpdest⟩ := r
  simp only at h
  subst h
  cases c with
  | ScanInto d f cl => cases d <;> rfl
  | _ => rfl

theorem runCalls_declare (cs : List Call) (r : Row) (h : r.rows = none) :
    runCalls r cs =
      (.ok (),
        { r with
          fields := r.fields ++ cs.map Call.declared
          dest := r.dest ++ cs.map Call.placeholder }) := by
  induction cs generalizing r with
  | nil => simp [runCalls]
  | cons c cs ih =>
    rw [runCalls, runCall_declare r h c]
    have hnext := ih ⟨r.rows, r.index, r.fields ++ [c.declared],
      r.dest ++ [c.placeholder], r.tmpdest⟩ h
    simp only [hnext]
    simp

theorem runCall_value_typed (r : Row) (rows : Rows) (h : r.rows = some rows) (c : Call)
    (hc : isFallback c = false) :
    (∀ e, sliceIndex r.dest r.index = .error e → runCall r c = (.error e, r)) ∧
    (∀ d, sliceIndex r.dest r.index = .ok d →
      (Dest.sameType c.placeholder d = false → runCall r c = (.error .typeAssertion, r)) ∧
      (Dest.sameType c.placeholder d = true →
        ∃ ret, runCall r c = (.ok ret, { r with index := r.index + 1 }))) := by
  obtain ⟨rows', index, fields, dest, tmpdest⟩ := r
  simp only at h
  subst h
  refine ⟨?_, ?_⟩
  · intro e he
    cases c with
    | ScanInto d f cl =>
      cases d <;> first
        | (simp [isFallback] at hc; done)
        | simp [runCall, Row.ScanInto, he, Except.map]
    | _ => simp [runCall, Row.NullBool, Row.Bool, Row.BoolValid, Row.NullFloat64, Row.Float64,
        Row.Float64Valid, Row.NullInt64, Row.Int, Row.IntValid, Row.Int64, Row.Int64Valid,
        Row.NullString, Row.String, Row.StringValid, Row.NullTime, Row.Time, Row.TimeValid, he,
        Except.map]
  · intro d hd
    cases c with
    | ScanInto sd f cl =>
      cases sd <;> first
        | (simp [isFallback] at hc; done)
        | (cases d <;>
            simp [runCall, Row.ScanInto, hd, Call.placeholder, Dest.sameType, Except.map])
    | _ =>
      cases d <;>
        simp [runCall, Row.NullBool, Row.Bool, Row.BoolValid, Row.NullFloat64, Row.Float64,
          Row.Float64Valid, Row.NullInt64, Row.Int, Row.IntValid, Row.Int64, Row.Int64Valid,
          Row.NullString, Row.String, Row.StringValid, Row.NullTime, Row.Time, Row.TimeValid, hd,
          Call.placeholder, Dest.sameType, Except.map]

theorem freshTmpdest_length (r : Row) : r.freshTmpdest.length = r.dest.length := by
  unfold Row.freshTmpdest
  split
  · simp
  · rename_i h
    simpa using h

theorem runCall_value_fallback (r : Row) (rows : Rows) (h : r.rows = some rows)
    (tag : Nat) (f : Field) (cl : CallerInfo) :
    runCall r (.ScanInto (.other tag) f cl) =
      if r.index < 0 ∨ (r.dest.length : Int) ≤ r.index then
        (.error .indexOutOfRange, { r with tmpdest := r.freshTmpdest })
      else
        match rows.Scan (r.freshTmpdest.set r.index.toNat (TmpSlot.dest (.other tag))) with
        | some err =>
          (.error (.scanFailed cl.sourcefile cl.linenbr err),
            { r with tmpdest := r.freshTmpdest.set r.index.toNat (TmpSlot.dest (.other tag)) })
        | none =>
          (.ok (.stored .none),
            { r with
              tmpdest := (r.freshTmpdest.set r.index.toNat
                (TmpSlot.dest (.other tag))).set r.index.toNat TmpSlot.nothing
              index := r.index + 1 }) := by
  have hlen := freshTmpdest_length r
  obtain ⟨rows', index, fields, dest, tmpdest⟩ := r
  simp only at h
  subst h
  simp only [runCall, Row.ScanInto]
  simp only [Row.freshTmpdest] at hlen ⊢
  simp only [hlen]
  split
  · simp [Except.map]
  · split <;> simp_all [Except.map]

theorem runCall_value_ok (r : Row) (rows : Rows) (h : r.rows = some rows) (c : Call) (ret : Ret)
    (hret : (runCall r c).1 = .ok ret) :
    (runCall r c).2.index = r.index + 1 ∧ (runCall r c).2.fields = r.fields ∧
    (runCall r c).2.dest = r.dest ∧ (runCall r c).2.rows = r.rows ∧
    0 ≤ r.index ∧ r.index < (r.dest.length : Int) := by
  cases hc : isFallback c with
  | false =>
    obtain ⟨herr, hok⟩ := runCall_value_typed r rows h c hc
    cases hs : sliceIndex r.dest r.index with
    | error e =>
      rw [herr e hs] at hret
      cases hret
    | ok d =>
      obtain ⟨hbad, hgood⟩ := hok d hs
      have hb := sliceIndex_ok_bounds hs
      cases hty : Dest.sameType c.placeholder d with
      | false =>
        rw [hbad hty] at hret
        cases hret
      | true =>
        obtain ⟨ret', hr⟩ := hgood hty
        rw [hr]
        exact ⟨rfl, rfl, rfl, rfl, hb.1, hb.2⟩
  | true =>
    cases c with
    | ScanInto d f cl =>
      cases d with
      | other tag =>
        rw [runCall_value_fallback r rows h tag f cl] at hret ⊢
        split at hret
        · cases hret
        · rename_i hrange
          rw [if_neg hrange]
          split at hret
          · cases hret
          · rename_i hscan
            simp only [hscan, true_and]
            constructor <;> omega
      | _ => simp [isFallback] at hc
    | _ => simp [isFallback] at hc

theorem runCall_value_step (v : Row) (rows : Rows) (h : v.rows = some rows)
    (hscan : ∀ t, rows.Scan t = none) (c : Call) (d : Dest)
    (hd : sliceIndex v.dest v.index = .ok d) (hty : Dest.sameType c.placeholder d = true) :
    ∃ ret tmp, runCall v c = (.ok ret, { v with index := v.index + 1, tmpdest := tmp }) := by
  cases hc : isFallback c with
  | false =>
    obtain ⟨ret, hr⟩ := ((runCall_value_typed v rows h c hc).2 d hd).2 hty
    exact ⟨ret, v.tmpdest, hr⟩
  | true =>
    cases c with
    | ScanInto sd f cl =>
      cases sd with
      | other tag =>
        have hb := sliceIndex_ok_bounds hd
        have hrange : ¬ (v.index < 0 ∨ (v.dest.length : Int) ≤ v.index) := by omega
        rw [runCall_value_fallback v rows h tag f cl, if_neg hrange]
        simp only [hscan]
        exact ⟨_, _, rfl⟩
      | _ => simp [isFallback] at hc
    | _ => simp [isFallback] at hc

theorem runCalls_value (cs : List Call) (rows : Rows) (hscan : ∀ t, rows.Scan t = none) :
    ∀ (v : Row) (pre filled post : List Dest), v.rows = some rows →
      v.dest = pre ++ filled ++ post → v.index = (pre.length : Int) →
      List.Forall₂ (fun c d => Dest.sameType (Call.placeholder c) d = true) cs filled →
      (runCalls v cs).1 = .ok () ∧ (runCalls v cs).2.index = v.index + (cs.length : Int) ∧
      (runCalls v cs).2.dest = v.dest ∧ (runCalls v cs).2.fields = v.fields ∧
      (runCalls v cs).2.rows = v.rows := by
  induction cs with
  | nil =>
    intro v pre filled post _ _ _ _
    simp [runCalls]
  | cons c cs ih =>
    intro v pre filled post hrows hdest hidx hall
    cases hall with
    | cons hcd htail =>
      rename_i d filled'
      have hd : sliceIndex v.dest v.index = .ok d := by
        rw [hdest, hidx]
        simpa using sliceIndex_at pre d (filled' ++ post)
      obtain ⟨ret, tmp, hr⟩ := runCall_value_step v rows hrows hscan c d hd hcd
      have hnext := ih ⟨v.rows, v.index + 1, v.fields, v.dest, tmp⟩ (pre ++ [d]) filled' post
        hrows (by simp [hdest]) (by simp [hidx]) htail
      rw [runCalls, hr]
      simp only at hnext ⊢
      obtain ⟨h1, h2, h3, h4, h5⟩ := hnext
      refine ⟨h1, ?_, h3, h4, h5⟩
      rw [h2]
      simp only [List.length_cons, Nat.cast_add, Nat.cast_one]
      omega

/-! ## Lemmas on DeleteQuery -/

theorem negInt64_of_range {v : Int} (h1 : minInt64 < v) (h2 : v < 2 ^ 63) : negInt64 v = -v := by
  unfold negInt64 wrapInt64
  unfold minInt64 at h1
  omega

theorem negInt64_minInt64 : negInt64 minInt64 = minInt64 := by decide

theorem boundLimit_neg {n : Int} (hn : isInt64 n) : boundLimit (negInt64 n) = boundLimit n := by
  unfold isInt64 at hn
  unfold boundLimit negInt64 wrapInt64
  split <;> split <;> omega

theorem boundLimit_idem {v : Int} (hv : isInt64 v) : boundLimit (boundLimit v) = boundLimit v := by
  unfold isInt64 at hv
  unfold boundLimit negInt64 wrapInt64
  split
  · split <;> omega
  · rfl

theorem appendLIMIT_some (p : Ptr) (h : Heap) (o : Out) :
    appendLIMIT (some p) h o =
      (⟨o.buf ++ " LIMIT ?", o.args ++ [Value.int64 (boundLimit (h.load p))]⟩,
        if h.load p < 0 then h.store p (negInt64 (h.load p)) else h) := by
  unfold appendLIMIT boundLimit
  by_cases hneg : h.load p < 0
  · have hneg' : h.cells p < 0 := hneg
    simp [hneg', Out.WriteString, Heap.load, Heap.store]
  · simp [hneg, Out.WriteString]

theorem appendLIMIT_load (p : Ptr) (h : Heap) (o : Out) :
    (appendLIMIT (some p) h o).2.load p = boundLimit (h.load p) := by
  rw [appendLIMIT_some]
  unfold boundLimit
  by_cases hneg : h.load p < 0
  · have hneg' : h.cells p < 0 := hneg
    simp [hneg', Heap.load, Heap.store]
  · simp [hneg]

theorem AppendSQL_out (x : Deps) (h : Heap) (q : DeleteQuery) (o : Out) :
    (q.AppendSQL x h o).out = (appendLIMIT q.LimitValue h (q.beforeLIMIT x o)).1 := rfl

theorem AppendSQL_heap (x : Deps) (h : Heap) (q : DeleteQuery) (o : Out) :
    (q.AppendSQL x h o).heap = (appendLIMIT q.LimitValue h (q.beforeLIMIT x o)).2 := rfl

theorem ToSQL_eq (x : Deps) (h : Heap) (q : DeleteQuery) :
    (q.ToSQL x h).sql = (appendLIMIT q.LimitValue h (q.beforeLIMIT x ⟨"", []⟩)).1.buf ∧
    (q.ToSQL x h).args = (appendLIMIT q.LimitValue h (q.beforeLIMIT x ⟨"", []⟩)).1.args ∧
    (q.ToSQL x h).heap = (appendLIMIT q.LimitValue h (q.beforeLIMIT x ⟨"", []⟩)).2 :=
  ⟨rfl, rfl, rfl⟩

theorem beforeLIMIT_setLimit (x : Deps) (q : DeleteQuery) (l : Option Ptr) (o : Out) :
    DeleteQuery.beforeLIMIT x { q with LimitValue := l } o = q.beforeLIMIT x o := rfl

theorem appendLIMIT_heap (l : Option Ptr) (h : Heap) (o : Out) :
    (appendLIMIT l h o).2 =
      match l with
      | some p => if h.load p < 0 then h.store p (negInt64 (h.load p)) else h
      | none => h := by
  cases l with
  | none => rfl
  | some p => rw [appendLIMIT_some]

/-! ## Compilation of a DELETE and its stored limit -/

/-- C2. Limit sign correction: for every `int` `n`, the query built with
`Limit(-n)` compiles, through `ToSQL` and through `AppendSQL` on any buffer, to the
same SQL text and the same arguments as the query built with `Limit(n)`; the text
is that of the query without a limit followed by `" LIMIT ?"` and the bound
argument is `n`, negated when negative. Compilation has no error result. -/
theorem limit_sign_correction (x : Deps) (h : Heap) (q : DeleteQuery) (n : Int)
    (hn : isInt64 n) :
    ((q.Limit h (negInt64 n)).1.ToSQL x (q.Limit h (negInt64 n)).2).sql =
        ((q.Limit h n).1.ToSQL x (q.Limit h n).2).sql ∧
    ((q.Limit h (negInt64 n)).1.ToSQL x (q.Limit h (negInt64 n)).2).args =
        ((q.Limit h n).1.ToSQL x (q.Limit h n).2).args ∧
    (∀ o : Out, ((q.Limit h (negInt64 n)).1.AppendSQL x (q.Limit h (negInt64 n)).2 o).out =
        ((q.Limit h n).1.AppendSQL x (q.Limit h n).2 o).out) ∧
    ((q.Limit h n).1.ToSQL x (q.Limit h n).2).sql =
        (DeleteQuery.ToSQL x h { q with LimitValue := none }).sql ++ " LIMIT ?" ∧
    ((q.Limit h n).1.ToSQL x (q.Limit h n).2).args =
        (DeleteQuery.ToSQL x h { q with LimitValue := none }).args ++
          [Value.int64 (if n < 0 then negInt64 n else n)] := by
  have hload : ∀ v : Int,
      Heap.load ⟨fun a => if a = h.next then v else h.cells a, h.next + 1⟩ h.next = v := by
    intro v
    simp [Heap.load]
  have hb := boundLimit_neg hn
  refine ⟨?_, ?_, ?_, ?_, ?_⟩
  · simp only [DeleteQuery.Limit, (ToSQL_eq _ _ _).1, appendLIMIT_some, beforeLIMIT_setLimit]
  · simp only [DeleteQuery.Limit, (ToSQL_eq _ _ _).2.1, appendLIMIT_some, beforeLIMIT_setLimit,
      Heap.alloc, hload, hb]
  · intro o
    simp only [DeleteQuery.Limit, AppendSQL_out, appendLIMIT_some, beforeLIMIT_setLimit,
      Heap.alloc, hload, hb]
  · simp only [DeleteQuery.Limit, (ToSQL_eq _ _ _).1, appendLIMIT_some, beforeLIMIT_setLimit]
    rfl
  · simp only [DeleteQuery.Limit, (ToSQL_eq _ _ _).2.1, appendLIMIT_some, beforeLIMIT_setLimit,
      Heap.alloc, hload, boundLimit]
    rfl

/-- Witness of C2 at `n = 5` on `DeleteFrom(t)`: both queries bind the argument `5`. -/
theorem limit_sign_correction_witness :
    isInt64 5 ∧
    ((sampleDelete.Limit Heap.empty (negInt64 5)).1.ToSQL sampleDeps
        (sampleDelete.Limit Heap.empty (negInt64 5)).2).args =
      ((sampleDelete.Limit Heap.empty 5).1.ToSQL sampleDeps
        (sampleDelete.Limit Heap.empty 5).2).args ∧
    ((sampleDelete.Limit Heap.empty (negInt64 5)).1.ToSQL sampleDeps
        (sampleDelete.Limit Heap.empty (negInt64 5)).2).args = [Value.int64 5] :=
  ⟨by decide, (limit_sign_correction sampleDeps Heap.empty sampleDelete 5 (by decide)).2.1,
    by decide⟩

/-- C3. Compilation is repeatable: calling `ToSQL` twice in succession on the same
query, the second call running on the heap the first one left, returns the same
SQL string and the same argument list, also when the stored limit is negative
before the first call. -/
theorem compile_repeatable (x : Deps) (h : Heap) (q : DeleteQuery)
    (hlimit : ∀ p, q.LimitValue = some p → isInt64 (h.load p)) :
    (q.ToSQL x (q.ToSQL x h).heap).sql = (q.ToSQL x h).sql ∧
    (q.ToSQL x (q.ToSQL x h).heap).args = (q.ToSQL x h).args := by
  obtain ⟨h1, h2, h3⟩ := ToSQL_eq x h q
  obtain ⟨k1, k2, _⟩ := ToSQL_eq x (q.ToSQL x h).heap q
  rw [k1, k2, h1, h2, h3]
  cases hl : q.LimitValue with
  | none => exact ⟨rfl, rfl⟩
  | some p =>
    have hidem := boundLimit_idem (hlimit p hl)
    have hload := appendLIMIT_load p h (q.beforeLIMIT x ⟨"", []⟩)
    constructor
    · simp only [appendLIMIT_some]
    · rw [appendLIMIT_some p (appendLIMIT (some p) h _).2]
      rw [hload, hidem, appendLIMIT_some]

/-- Witness of C3 on `DeleteFrom(t).Limit(-5)`: the stored limit is `-5` before the
first call and both calls return `("DELETE FROM t LIMIT ?", [5])`. -/
theorem compile_repeatable_witness :
    (sampleDelete.Limit Heap.empty (-5)).1.storedLimit (sampleDelete.Limit Heap.empty (-5)).2 =
      some (-5) ∧
    ((sampleDelete.Limit Heap.empty (-5)).1.ToSQL sampleDeps
        (sampleDelete.Limit Heap.empty (-5)).2).sql = "DELETE FROM t LIMIT ?" ∧
    ((sampleDelete.Limit Heap.empty (-5)).1.ToSQL sampleDeps
        (sampleDelete.Limit Heap.empty (-5)).2).args = [Value.int64 5] ∧
    ((sampleDelete.Limit Heap.empty (-5)).1.ToSQL sampleDeps
        ((sampleDelete.Limit Heap.empty (-5)).1.ToSQL sampleDeps
          (sampleDelete.Limit Heap.empty (-5)).2).heap).args =
      ((sampleDelete.Limit Heap.empty (-5)).1.ToSQL sampleDeps
        (sampleDelete.Limit Heap.empty (-5)).2).args :=
  ⟨by decide, by decide, by decide,
    (compile_repeatable sampleDeps (sampleDelete.Limit Heap.empty (-5)).2
      (sampleDelete.Limit Heap.empty (-5)).1
      (by
        intro p hp
        have hp0 : p = 0 := by
          simp [DeleteQuery.Limit, Heap.alloc, Heap.empty] at hp
          exact hp.symm
        subst hp0
        decide)).2⟩

/-- C5, the code at the failing input. For the query built with `Limit` of the
smallest `int64`, `-9223372036854775808`, the caller reads that same negative
number behind `LimitValue` before and after compiling: Go's negation returns the
value itself, so the sign does not flip and the stored value is not the integer
`9223372036854775808`. For every query and every `n` the stored limit is `n`
before compiling and, after `ToSQL` or `AppendSQL` on any buffer, `n` negated by
Go when `n < 0` and `n` otherwise; for every `int64` other than the smallest that
is the integer `-n` when `n < 0`. -/
theorem stored_limit_keeps_sign_at_min_int64 (x : Deps) (h : Heap) (q : DeleteQuery) (n : Int)
    (o : Out) :
    (sampleDelete.Limit Heap.empty minInt64).1.storedLimit
        (sampleDelete.Limit Heap.empty minInt64).2 = some (-9223372036854775808) ∧
    (sampleDelete.Limit Heap.empty minInt64).1.storedLimit
        ((sampleDelete.Limit Heap.empty minInt64).1.ToSQL sampleDeps
          (sampleDelete.Limit Heap.empty minInt64).2).heap = some (-9223372036854775808) ∧
    (sampleDelete.Limit Heap.empty minInt64).1.storedLimit
        ((sampleDelete.Limit Heap.empty minInt64).1.AppendSQL sampleDeps
          (sampleDelete.Limit Heap.empty minInt64).2 ⟨"", []⟩).heap ≠ some (-minInt64) ∧
    (isInt64 minInt64 ∧ minInt64 < 0 ∧ negInt64 minInt64 = minInt64) ∧
    (q.Limit h n).1.storedLimit (q.Limit h n).2 = some n ∧
    (q.Limit h n).1.storedLimit ((q.Limit h n).1.ToSQL x (q.Limit h n).2).heap =
      some (if n < 0 then negInt64 n else n) ∧
    (q.Limit h n).1.storedLimit ((q.Limit h n).1.AppendSQL x (q.Limit h n).2 o).heap =
      some (if n < 0 then negInt64 n else n) ∧
    (¬ isInt64 n ∨ n = minInt64 ∨
      (if n < 0 then negInt64 n else n) = (if n < 0 then -n else n)) := by
  have hload : ∀ v : Int,
      Heap.load ⟨fun a => if a = h.next then v else h.cells a, h.next + 1⟩ h.next = v := by
    intro v
    simp [Heap.load]
  refine ⟨by decide, by decide, by decide, ⟨by decide, by decide, by decide⟩, ?_, ?_, ?_, ?_⟩
  · simp [DeleteQuery.Limit, DeleteQuery.storedLimit, Heap.alloc, hload]
  · simp only [DeleteQuery.Limit, DeleteQuery.storedLimit, (ToSQL_eq _ _ _).2.2, Heap.alloc,
      Option.map_some', appendLIMIT_load, hload, boundLimit]
  · simp only [DeleteQuery.Limit, DeleteQuery.storedLimit, AppendSQL_heap, Heap.alloc,
      Option.map_some', appendLIMIT_load, hload, boundLimit]
  · by_cases hn : isInt64 n
    · right
      by_cases hmin : n = minInt64
      · exact Or.inl hmin
      · right
        unfold isInt64 at hn
        unfold minInt64 at hmin
        unfold negInt64 wrapInt64
        split <;> omega
    · exact Or.inl hn

/-- C4, counterexample. Compiling `DeleteFrom(t).Limit(-5)` changes what the caller
reads behind `LimitValue` of its own query value: `-5` before `ToSQL`, `5` after. -/
theorem render_mutates_limit_counterexample :
    (sampleDelete.Limit Heap.empty (-5)).1.storedLimit (sampleDelete.Limit Heap.empty (-5)).2 =
      some (-5) ∧
    (sampleDelete.Limit Heap.empty (-5)).1.storedLimit
        ((sampleDelete.Limit Heap.empty (-5)).1.ToSQL sampleDeps
          (sampleDelete.Limit Heap.empty (-5)).2).heap = some 5 ∧
    (sampleDelete.Limit Heap.empty (-5)).1.storedLimit
        ((sampleDelete.Limit Heap.empty (-5)).1.ToSQL sampleDeps
          (sampleDelete.Limit Heap.empty (-5)).2).heap ≠
      (sampleDelete.Limit Heap.empty (-5)).1.storedLimit (sampleDelete.Limit Heap.empty (-5)).2 := by
  decide

/-- C4, amended. `AppendSQL` and `ToSQL` work on a copy of the receiver, so every
field of the caller's query value is as it was: the copy the method holds when it
returns differs from the caller's value in `WherePredicate.Toplevel` at most (set
when there are predicates), and it is not handed back. The `int64` behind
`LimitValue` is shared with the copy: what the caller reads there after the call
is the value from before when that was not negative, and its Go negation when it
was negative. -/
theorem render_receiver_after (x : Deps) (h : Heap) (q : DeleteQuery) (o : Out) :
    (q.AppendSQL x h o).q =
      { q with WherePredicate :=
          { q.WherePredicate with
            Toplevel := q.WherePredicate.Toplevel || decide (q.WherePredicate.Predicates.length > 0) } } ∧
    q.storedLimit (q.AppendSQL x h o).heap =
      (q.storedLimit h).map (fun v => if v < 0 then negInt64 v else v) ∧
    q.storedLimit (q.ToSQL x h).heap =
      (q.storedLimit h).map (fun v => if v < 0 then negInt64 v else v) ∧
    (∀ v : Int, q.storedLimit h ≠ some v ∨ v < 0 ∨
      (q.storedLimit (q.AppendSQL x h o).heap = some v ∧
        q.storedLimit (q.ToSQL x h).heap = some v)) := by
  have hstored : ∀ o' : Out, q.storedLimit (q.AppendSQL x h o').heap =
      (q.storedLimit h).map (fun v => if v < 0 then negInt64 v else v) := by
    intro o'
    rw [AppendSQL_heap]
    cases hl : q.LimitValue with
    | none => simp [DeleteQuery.storedLimit, hl]
    | some p =>
      simp only [DeleteQuery.storedLimit, hl, Option.map_some', appendLIMIT_load, boundLimit]
  have htosql : (q.ToSQL x h).heap = (q.AppendSQL x h o).heap := by
    rw [(ToSQL_eq x h q).2.2, AppendSQL_heap, appendLIMIT_heap, appendLIMIT_heap]
  refine ⟨?_, hstored o, ?_, ?_⟩
  · simp only [DeleteQuery.AppendSQL, appendWHERE]
    by_cases hp : q.WherePredicate.Predicates.length > 0
    · simp [hp]
    · simp [hp]
  · rw [htosql, hstored o]
  · intro v
    by_cases hv : q.storedLimit h = some v
    · by_cases hneg : v < 0
      · exact Or.inr (Or.inl hneg)
      · right
        right
        rw [htosql, hstored o, hv]
        simp [hneg]
    · exact Or.inl hv

/-- C10. Empty WHERE is omitted: the SQL and the arguments that `ToSQL` returns are
those of the clauses written before `// WHERE` (the query compiled without
predicates, ordering and limit), then the contribution of the WHERE clause, then
what `// ORDER BY` and `// LIMIT` write. With an empty predicate list that
contribution is no text and no argument; with a non-empty list it is `" WHERE "`
followed by the rendering of the predicates as a top-level list, once, with
exactly the arguments of that rendering. -/
theorem where_clause_omitted_when_empty (x : Deps) (h : Heap) (q : DeleteQuery) :
    (q.ToSQL x h).sql =
      (DeleteQuery.ToSQL x h
          { q with WherePredicate := VariadicPredicate.ofPredicates [], OrderByFields := [],
                   LimitValue := none }).sql ++
        (if q.WherePredicate.Predicates.length = 0 then ""
         else " WHERE " ++
          (VariadicPredicate.AppendSQLExclude { q.WherePredicate with Toplevel := true } []).text) ++
        (appendLIMIT q.LimitValue h (appendORDERBY x q.OrderByFields ⟨"", []⟩)).1.buf ∧
    (q.ToSQL x h).args =
      (DeleteQuery.ToSQL x h
          { q with WherePredicate := VariadicPredicate.ofPredicates [], OrderByFields := [],
                   LimitValue := none }).args ++
        (if q.WherePredicate.Predicates.length = 0 then []
         else
          (VariadicPredicate.AppendSQLExclude { q.WherePredicate with Toplevel := true } []).args) ++
        (appendLIMIT q.LimitValue h (appendORDERBY x q.OrderByFields ⟨"", []⟩)).1.args := by
  have hsplit : ∀ o : Out,
      (appendLIMIT q.LimitValue h (appendORDERBY x q.OrderByFields o)).1 =
        ⟨o.buf ++ (appendLIMIT q.LimitValue h (appendORDERBY x q.OrderByFields ⟨"", []⟩)).1.buf,
          o.args ++
            (appendLIMIT q.LimitValue h (appendORDERBY x q.OrderByFields ⟨"", []⟩)).1.args⟩ := by
    intro o
    cases q.LimitValue with
    | none =>
      simp only [appendLIMIT, appendORDERBY]
      split <;> simp [Out.WriteString, Out.call, String.append_assoc]
    | some p =>
      simp only [appendLIMIT_some, appendORDERBY]
      split <;> simp [Out.WriteString, Out.call, String.append_assoc]
  obtain ⟨h1, h2, _⟩ := ToSQL_eq x h q
  rw [h1, h2]
  simp only [(ToSQL_eq _ _ _).1, (ToSQL_eq _ _ _).2.1, DeleteQuery.beforeLIMIT]
  rw [hsplit]
  by_cases hp : q.WherePredicate.Predicates.length = 0
  · have hp' : ¬ q.WherePredicate.Predicates.length > 0 := by omega
    simp [hp, hp', appendWHERE, appendLIMIT, appendORDERBY, VariadicPredicate.ofPredicates]
  · have hp' : q.WherePredicate.Predicates.length > 0 := by omega
    simp [hp, hp', appendWHERE, appendLIMIT, appendORDERBY, VariadicPredicate.ofPredicates,
      Out.WriteString, Out.call, String.append_assoc]

/-! ## The two phases of Row -/

theorem runCall_value_read (r : Row) (rows : Rows) (h : r.rows = some rows) (c : Call)
    (hc : isFallback c = false) (d : Dest) (hd : sliceIndex r.dest r.index = .ok d) :
    (runCall r c).1 = (runCall ⟨some rows, 0, [], [d], []⟩ c).1 := by
  obtain ⟨rows', index, fields, dest, tmpdest⟩ := r
  simp only at h hd
  subst h
  have h0 : sliceIndex [d] 0 = .ok d := rfl
  cases c with
  | ScanInto sd f cl =>
    cases sd <;> first
      | (simp [isFallback] at hc; done)
      | (cases d <;> simp [runCall, Row.ScanInto, hd, h0, Except.map])
  | _ =>
    cases d <;>
      simp [runCall, Row.NullBool, Row.Bool, Row.BoolValid, Row.NullFloat64, Row.Float64,
        Row.Float64Valid, Row.NullInt64, Row.Int, Row.IntValid, Row.Int64, Row.Int64Valid,
        Row.NullString, Row.String, Row.StringValid, Row.NullTime, Row.Time, Row.TimeValid, hd,
        h0, Except.map]

/-- C8. Declare-phase invariant: with `rows == nil` every accessor call returns the
zero value of its result type, appends the field it declares to `fields` and
exactly one element to `dest`, and leaves `index` and `rows` as they are; after any
sequence of calls the declared fields are the fields of the calls in call order
and `dest` has grown by the number of calls, so from the empty Row
`len(fields) = len(dest)`. -/
theorem declare_phase_invariant (r : Row) (hdeclare : r.rows = none) (c : Call)
    (cs : List Call) :
    (runCall r c).1 = .ok c.zeroRet ∧
    (runCall r c).2.fields = r.fields ++ [c.declared] ∧
    (∃ d, (runCall r c).2.dest = r.dest ++ [d]) ∧
    (runCall r c).2.index = r.index ∧
    (runCall r c).2.rows = none ∧
    (runCalls r cs).1 = .ok () ∧
    (runCalls r cs).2.fields = r.fields ++ cs.map Call.declared ∧
    (runCalls r cs).2.dest.length = r.dest.length + cs.length ∧
    (runCalls r cs).2.index = r.index ∧
    (runCalls Row.empty cs).2.fields = cs.map Call.declared ∧
    (runCalls Row.empty cs).2.fields.length = (runCalls Row.empty cs).2.dest.length := by
  have hempty : Row.empty.rows = none := rfl
  rw [runCall_declare r hdeclare c, runCalls_declare cs r hdeclare,
    runCalls_declare cs Row.empty hempty]
  refine ⟨rfl, rfl, ⟨_, rfl⟩, rfl, hdeclare, rfl, rfl, ?_, rfl, ?_, ?_⟩
  · simp
  · simp [Row.empty]
  · simp [Row.empty]

/-- Witness of C8 on the empty Row with the callback `Bool`, `ScanInto(*int32)`. -/
theorem declare_phase_invariant_witness :
    Row.empty.rows = none ∧
    (runCall Row.empty (.Bool samplePredicate)).1 = .ok (.bool false) ∧
    (runCalls Row.empty [.Bool samplePredicate,
        .ScanInto .int32 (.desc sampleField) ⟨"main.go", 1⟩]).2.dest =
      [Dest.NullBool NullBool.zero, Dest.NullInt32 NullInt32.zero] ∧
    (runCalls Row.empty [.Bool samplePredicate,
        .ScanInto .int32 (.desc sampleField) ⟨"main.go", 1⟩]).2.fields.length =
      (runCalls Row.empty [.Bool samplePredicate,
        .ScanInto .int32 (.desc sampleField) ⟨"main.go", 1⟩]).2.dest.length :=
  ⟨rfl,
    (declare_phase_invariant Row.empty rfl (.Bool samplePredicate) []).1,
    by decide,
    (declare_phase_invariant Row.empty rfl (.Bool samplePredicate)
      [.Bool samplePredicate, .ScanInto .int32 (.desc sampleField) ⟨"main.go", 1⟩]).2.2.2.2.2.2.2.2.2.2⟩

/-- C9. Value-phase cursor step: with `rows != nil`, a call that returns has read
position `index`, which is in range, has advanced `index` by exactly one and has
left `fields`, `dest` and `rows` as they were; an accessor that reads a wrapper
returns what the same call returns on a row holding only `dest[index]`. A second
call that returns has read position `index + 1` and leaves the cursor at
`index + 2`: a typed accessor and its `Valid` companion consume two consecutive
positions. -/
theorem value_phase_cursor_step (r : Row) (rows : Rows) (hvalue : r.rows = some rows)
    (c₁ c₂ : Call) (ret₁ ret₂ : Ret)
    (hret₁ : (runCall r c₁).1 = .ok ret₁)
    (hret₂ : (runCall (runCall r c₁).2 c₂).1 = .ok ret₂) :
    (runCall r c₁).2.index = r.index + 1 ∧
    (runCall r c₁).2.fields = r.fields ∧
    (runCall r c₁).2.dest = r.dest ∧
    (runCall r c₁).2.rows = r.rows ∧
    (0 ≤ r.index ∧ r.index < (r.dest.length : Int)) ∧
    (isFallback c₁ = true ∨
      ∃ d, sliceIndex r.dest r.index = .ok d ∧
        (runCall ⟨some rows, 0, [], [d], []⟩ c₁).1 = .ok ret₁) ∧
    (runCall (runCall r c₁).2 c₂).2.index = r.index + 2 ∧
    (runCall (runCall r c₁).2 c₂).2.fields = r.fields ∧
    (runCall (runCall r c₁).2 c₂).2.dest = r.dest ∧
    r.index + 1 < (r.dest.length : Int) ∧
    (isFallback c₂ = true ∨
      ∃ d, sliceIndex r.dest (r.index + 1) = .ok d ∧
        (runCall ⟨some rows, 0, [], [d], []⟩ c₂).1 = .ok ret₂) := by
  obtain ⟨a1, a2, a3, a4, a5, a6⟩ := runCall_value_ok r rows hvalue c₁ ret₁ hret₁
  have hvalue₂ : (runCall r c₁).2.rows = some rows := by rw [a4, hvalue]
  obtain ⟨b1, b2, b3, _, _, b6⟩ := runCall_value_ok _ rows hvalue₂ c₂ ret₂ hret₂
  have hread : ∀ (s : Row) (c : Call) (ret : Ret), s.rows = some rows →
      (runCall s c).1 = .ok ret →
      (isFallback c = true ∨
        ∃ d, sliceIndex s.dest s.index = .ok d ∧
          (runCall ⟨some rows, 0, [], [d], []⟩ c).1 = .ok ret) := by
    intro s c ret hs hr
    cases hc : isFallback c with
    | true => exact Or.inl rfl
    | false =>
      right
      cases hd : sliceIndex s.dest s.index with
      | error e =>
        rw [(runCall_value_typed s rows hs c hc).1 e hd] at hr
        cases hr
      | ok d => exact ⟨d, rfl, by rw [← runCall_value_read s rows hs c hc d hd, hr]⟩
  have hread₂ := hread _ c₂ ret₂ hvalue₂ hret₂
  rw [a1, a3] at hread₂
  refine ⟨a1, a2, a3, a4, ⟨a5, a6⟩, hread r c₁ ret₁ hvalue hret₁, ?_, ?_, ?_, ?_, hread₂⟩
  · rw [b1, a1]
    omega
  · rw [b2, a2]
  · rw [b3, a3]
  · rw [a1, a3] at b6
    exact b6

/-- Witness of C9: `Bool` then `BoolValid` on a row holding two bool wrappers reads
the first wrapper, then the second one, and leaves the cursor at `2`. -/
theorem value_phase_cursor_step_witness :
    (runCall ⟨some sampleRows, 0, [], [.NullBool ⟨true, true⟩, .NullBool ⟨false, false⟩], []⟩
        (.Bool samplePredicate)).1 = .ok (.bool true) ∧
    (runCall (runCall ⟨some sampleRows, 0, [],
        [.NullBool ⟨true, true⟩, .NullBool ⟨false, false⟩], []⟩ (.Bool samplePredicate)).2
        (.BoolValid samplePredicate)).1 = .ok (.bool false) ∧
    (runCall (runCall ⟨some sampleRows, 0, [],
        [.NullBool ⟨true, true⟩, .NullBool ⟨false, false⟩], []⟩ (.Bool samplePredicate)).2
        (.BoolValid samplePredicate)).2.index = 0 + 2 :=
  ⟨rfl, rfl,
    (value_phase_cursor_step
      ⟨some sampleRows, 0, [], [.NullBool ⟨true, true⟩, .NullBool ⟨false, false⟩], []⟩
      sampleRows rfl (.Bool samplePredicate) (.BoolValid samplePredicate)
      (.bool true) (.bool false) rfl rfl).2.2.2.2.2.2.1⟩

/-- C7. Null wrappers are passed through intact: in the value phase, when the
wrapper `v` is at the cursor position, the `Null*` accessor of its type returns
exactly `v`, `ScanInto` into a `*sql.Null*` destination of its type stores exactly
`v`, and the `*Valid` accessors return exactly `v.Valid`. -/
theorem null_wrappers_pass_through (r : Row) (rows : Rows) (hvalue : r.rows = some rows)
    (d : Dest) (hd : sliceIndex r.dest r.index = .ok d)
    (p : Predicate) (f : FieldDesc) (field : Field) (caller : CallerInfo) :
    match d with
    | .NullBool v =>
        (r.NullBool p).1 = .ok v ∧ (r.BoolValid p).1 = .ok v.Valid ∧
        (r.ScanInto .NullBool field caller).1 = .ok (.NullBool v)
    | .NullFloat64 v =>
        (r.NullFloat64 f).1 = .ok v ∧ (r.Float64Valid f).1 = .ok v.Valid ∧
        (r.ScanInto .NullFloat64 field caller).1 = .ok (.NullFloat64 v)
    | .NullInt32 v =>
        (r.ScanInto .NullInt32 field caller).1 = .ok (.NullInt32 v)
    | .NullInt64 v =>
        (r.NullInt64 f).1 = .ok v ∧ (r.IntValid f).1 = .ok v.Valid ∧
        (r.Int64Valid f).1 = .ok v.Valid ∧
        (r.ScanInto .NullInt64 field caller).1 = .ok (.NullInt64 v)
    | .NullString v =>
        (r.NullString f).1 = .ok v ∧ (r.StringValid f).1 = .ok v.Valid ∧
        (r.ScanInto .NullString field caller).1 = .ok (.NullString v)
    | .NullTime v =>
        (r.NullTime f).1 = .ok v ∧ (r.TimeValid f).1 = .ok v.Valid ∧
        (r.ScanInto .NullTime field caller).1 = .ok (.NullTime v)
    | .caller _ => True := by
  obtain ⟨rows', index, fields, dest, tmpdest⟩ := r
  simp only at hvalue hd
  subst hvalue
  cases d <;>
    simp [Row.ScanInto, Row.NullBool, Row.BoolValid, Row.NullFloat64, Row.Float64Valid,
      Row.NullInt64, Row.IntValid, Row.Int64Valid, Row.NullString, Row.StringValid,
      Row.NullTime, Row.TimeValid, hd, Except.map]

/-- Witness of C7: an invalid `NullString` wrapper at the cursor comes back as it
is, with `Valid = false`. -/
theorem null_wrappers_pass_through_witness :
    (Row.NullString ⟨some sampleRows, 0, [], [.NullString ⟨false, ""⟩], []⟩ sampleField).1 =
      .ok ⟨false, ""⟩ ∧
    (Row.StringValid ⟨some sampleRows, 0, [], [.NullString ⟨false, ""⟩], []⟩ sampleField).1 =
      .ok false ∧
    (Row.ScanInto ⟨some sampleRows, 0, [], [.NullString ⟨false, ""⟩], []⟩ .NullString
      (.desc sampleField) ⟨"main.go", 1⟩).1 = .ok (.NullString ⟨false, ""⟩) :=
  null_wrappers_pass_through ⟨some sampleRows, 0, [], [.NullString ⟨false, ""⟩], []⟩
    sampleRows rfl (.NullString ⟨false, ""⟩) rfl samplePredicate sampleField
    (.desc sampleField) ⟨"main.go", 1⟩

theorem scanned_invalid_zero (d : Dest) (h : Scanned d) :
    match d with
    | .NullBool v => v.Valid = true ∨ v = NullBool.zero
    | .NullFloat64 v => v.Valid = true ∨ v = NullFloat64.zero
    | .NullInt32 v => v.Valid = true ∨ v = NullInt32.zero
    | .NullInt64 v => v.Valid = true ∨ v = NullInt64.zero
    | .NullString v => v.Valid = true ∨ v = NullString.zero
    | .NullTime v => v.Valid = true ∨ v = NullTime.zero
    | .caller _ => True := by
  induction h with
  | declared c =>
    cases c with
    | ScanInto dest field caller => cases dest <;> simp [Call.placeholder]
    | _ => simp [Call.placeholder]
  | bool n v _ _ =>
    rcases v with _ | _ | _ <;> simp [scanNullBool, NullBool.zero]
  | float64 n v _ _ =>
    rcases v with _ | _ | _ <;> simp [scanNullFloat64, NullFloat64.zero]
  | int32 n v _ _ =>
    rcases v with _ | _ | _ <;> simp [scanNullInt32, NullInt32.zero]
  | int64 n v _ _ =>
    rcases v with _ | _ | _ <;> simp [scanNullInt64, NullInt64.zero]
  | string n v _ _ =>
    rcases v with _ | _ | _ <;> simp [scanNullString, NullString.zero]
  | time n v _ _ =>
    rcases v with _ | _ | _ <;> simp [scanNullTime, NullTime.zero]

theorem declared_dest_scanned (cs : List Call) (d : Dest)
    (hd : d ∈ (runCalls Row.empty cs).2.dest) : Scanned d := by
  rw [runCalls_declare cs Row.empty rfl] at hd
  simp only [Row.empty, List.nil_append, List.mem_map] at hd
  obtain ⟨c, _, rfl⟩ := hd
  exact Scanned.declared c

/-- C6. Zero value on NULL: in the value phase, whenever the wrapper at the cursor
has `Valid = false`, the non-null accessors `Bool`, `Float64`, `Int`, `Int64`,
`String` and `Time`, and `ScanInto` into `*bool`, `*float64`, `*int`, `*int32`,
`*int64`, `*string` and `*time.Time`, yield the zero value of the requested type.
The wrapper is any that `dest` can hold: created by the declare phase and written
since then by `Scan` of database/sql only, any number of times. -/
theorem zero_value_on_null (r : Row) (rows : Rows) (hvalue : r.rows = some rows)
    (d : Dest) (hd : sliceIndex r.dest r.index = .ok d) (hscanned : Scanned d)
    (p : Predicate) (f : FieldDesc) (field : Field) (caller : CallerInfo) :
    match d with
    | .NullBool v => v.Valid = true ∨
        ((r.Bool p).1 = .ok false ∧ (r.ScanInto .bool field caller).1 = .ok (.bool false))
    | .NullFloat64 v => v.Valid = true ∨
        ((r.Float64 f).1 = .ok 0 ∧ (r.ScanInto .float64 field caller).1 = .ok (.float64 0))
    | .NullInt32 v => v.Valid = true ∨
        (r.ScanInto .int32 field caller).1 = .ok (.int32 0)
    | .NullInt64 v => v.Valid = true ∨
        ((r.Int f).1 = .ok 0 ∧ (r.Int64 f).1 = .ok 0 ∧
          (r.ScanInto .int field caller).1 = .ok (.int 0) ∧
          (r.ScanInto .int64 field caller).1 = .ok (.int64 0))
    | .NullString v => v.Valid = true ∨
        ((r.String f).1 = .ok "" ∧ (r.ScanInto .string field caller).1 = .ok (.string ""))
    | .NullTime v => v.Valid = true ∨
        ((r.Time f).1 = .ok Time.zero ∧
          (r.ScanInto .Time field caller).1 = .ok (.Time Time.zero))
    | .caller _ => True := by
  have hinv := scanned_invalid_zero d hscanned
  obtain ⟨rows', index, fields, dest, tmpdest⟩ := r
  simp only at hvalue hd
  subst hvalue
  cases d with
  | caller c => trivial
  | NullBool v =>
    rcases hinv with hv | hv
    · exact Or.inl hv
    · right
      subst hv
      simp [Row.ScanInto, Row.NullBool, Row.Bool, hd, Except.map, NullBool.zero]
  | NullFloat64 v =>
    rcases hinv with hv | hv
    · exact Or.inl hv
    · right
      subst hv
      simp [Row.ScanInto, Row.NullFloat64, Row.Float64, hd, Except.map, NullFloat64.zero]
  | NullInt32 v =>
    rcases hinv with hv | hv
    · exact Or.inl hv
    · right
      subst hv
      simp [Row.ScanInto, hd, NullInt32.zero]
  | NullInt64 v =>
    rcases hinv with hv | hv
    · exact Or.inl hv
    · right
      subst hv
      simp [Row.ScanInto, Row.NullInt64, Row.Int, Row.Int64, hd, Except.map, NullInt64.zero]
  | NullString v =>
    rcases hinv with hv | hv
    · exact Or.inl hv
    · right
      subst hv
      simp [Row.ScanInto, Row.NullString, Row.String, hd, Except.map, NullString.zero]
  | NullTime v =>
    rcases hinv with hv | hv
    · exact Or.inl hv
    · right
      subst hv
      simp [Row.ScanInto, Row.NullTime, Row.Time, hd, Except.map, NullTime.zero]

/-- Witness of C6: the wrapper declared by `Bool`, scanned with `true` for one row
and with NULL for the next, has `Valid = false`; `Bool` returns `false` and
`ScanInto` into a `*bool` stores `false`. -/
theorem zero_value_on_null_witness :
    (scanNullBool (scanNullBool NullBool.zero (.value (some true))) .null).Valid = false ∧
    (Row.Bool ⟨some sampleRows, 0, [],
        [.NullBool (scanNullBool (scanNullBool NullBool.zero (.value (some true))) .null)], []⟩
      samplePredicate).1 = .ok false ∧
    (Row.ScanInto ⟨some sampleRows, 0, [],
        [.NullBool (scanNullBool (scanNullBool NullBool.zero (.value (some true))) .null)], []⟩
      .bool (.desc sampleField) ⟨"main.go", 1⟩).1 = .ok (.bool false) :=
  ⟨rfl,
    (zero_value_on_null
      ⟨some sampleRows, 0, [],
        [.NullBool (scanNullBool (scanNullBool NullBool.zero (.value (some true))) .null)], []⟩
      sampleRows rfl
      (.NullBool (scanNullBool (scanNullBool NullBool.zero (.value (some true))) .null)) rfl
      (Scanned.bool _ _ (Scanned.bool _ _ (Scanned.declared (.Bool samplePredicate))))
      samplePredicate sampleField (.desc sampleField) ⟨"main.go", 1⟩).resolve_left (by decide)⟩

/-- C1. Two-pass materialization safety: for every finite sequence of accessor
calls, the declare phase on the empty Row returns and leaves `fields` and `dest`
both as long as the sequence; and the same sequence run in the value phase, with
`index = 0`, on that `dest` (its wrappers holding whatever the driver scanned into
them) returns without a panic, so no read of `dest` is out of range and no type
assertion fails, and ends with `index` equal to the number of calls, provided
every fallback rescan succeeds. -/
theorem two_pass_materialization (cs : List Call) (rows : Rows)
    (hscan : ∀ t, rows.Scan t = none) (filled : List Dest) (tmpdest : List TmpSlot)
    (hfilled : List.Forall₂ (fun a b => Dest.sameType a b = true)
      (runCalls Row.empty cs).2.dest filled) :
    (runCalls Row.empty cs).1 = .ok () ∧
    (runCalls Row.empty cs).2.fields.length = cs.length ∧
    (runCalls Row.empty cs).2.dest.length = cs.length ∧
    (runCalls ⟨some rows, 0, (runCalls Row.empty cs).2.fields, filled, tmpdest⟩ cs).1 = .ok () ∧
    (runCalls ⟨some rows, 0, (runCalls Row.empty cs).2.fields, filled, tmpdest⟩ cs).2.index =
      (cs.length : Int) := by
  have hdecl := runCalls_declare cs Row.empty rfl
  rw [hdecl] at hfilled
  simp only [Row.empty, List.nil_append] at hfilled
  have hall : List.Forall₂ (fun c d => Dest.sameType (Call.placeholder c) d = true) cs filled :=
    List.forall₂_map_left_iff.mp hfilled
  have hrun := runCalls_value cs rows hscan
    ⟨some rows, 0, (runCalls Row.empty cs).2.fields, filled, tmpdest⟩ [] filled [] rfl
    (by simp) rfl hall
  refine ⟨?_, ?_, ?_, hrun.1, ?_⟩
  · rw [hdecl]
  · rw [hdecl]
    simp [Row.empty]
  · rw [hdecl]
    simp [Row.empty]
  · rw [hrun.2.1]
    simp

/-- Witness of C1 on the callback `Int64`, `ScanInto(*custom)`, `BoolValid` with a
cursor whose rescan succeeds: the value phase returns and ends at `index = 3`. -/
theorem two_pass_materialization_witness :
    (∀ t, sampleRows.Scan t = none) ∧
    (runCalls ⟨some sampleRows, 0,
        (runCalls Row.empty [.Int64 sampleField,
          .ScanInto (.other 0) (.desc sampleField) ⟨"main.go", 1⟩,
          .BoolValid samplePredicate]).2.fields,
        [.NullInt64 ⟨true, 1⟩, .caller (.other 0), .NullBool ⟨false, false⟩], []⟩
      [.Int64 sampleField, .ScanInto (.other 0) (.desc sampleField) ⟨"main.go", 1⟩,
        .BoolValid samplePredicate]).2.index = 3 :=
  ⟨fun _ => rfl,
    (two_pass_materialization
      [.Int64 sampleField, .ScanInto (.other 0) (.desc sampleField) ⟨"main.go", 1⟩,
        .BoolValid samplePredicate]
      sampleRows (fun _ => rfl)
      [.NullInt64 ⟨true, 1⟩, .caller (.other 0), .NullBool ⟨false, false⟩] []
      (by
        rw [runCalls_declare _ Row.empty rfl]
        simp [Row.empty, Call.placeholder, Dest.sameType])).2.2.2.2⟩

/-! ## The blocks of AppendSQL as fragments -/

theorem Out.call_call (o : Out) (a b : Fragment) :
    (o.call a).call b = o.call (a.append b) := by
  simp [Out.call, Fragment.append, String.append_assoc]

theorem Out.call_empty (o : Out) : o.call Fragment.empty = o := by
  simp [Out.call, Fragment.empty]

theorem intercalate_go_append (p acc s : String) (l : List String) :
    String.intercalate.go (p ++ acc) s l = p ++ String.intercalate.go acc s l := by
  induction l generalizing acc with
  | nil => rfl
  | cons a l ih =>
    simp only [String.intercalate.go]
    rw [String.append_assoc, String.append_assoc, ih, String.append_assoc]

theorem rangeFromTables_pos (ts : List (Option BaseTable)) :
    ∀ (i : Nat) (o : Out), 0 < i →
      DeleteQuery.rangeFromTables ts i o =
        ⟨String.intercalate.go o.buf ", " (ts.map fun t => (specFromItem t).text),
          o.args ++ (ts.map fun t => (specFromItem t).args).flatten⟩ := by
  induction ts with
  | nil =>
    intro i o _
    simp [DeleteQuery.rangeFromTables, String.intercalate.go]
  | cons t ts ih =>
    intro i o hi
    cases t with
    | none =>
      simp only [DeleteQuery.rangeFromTables, hi, if_true]
      rw [ih (i + 1) _ (Nat.succ_pos i)]
      simp [Out.WriteString, specFromItem, String.intercalate.go]
    | some tb =>
      simp only [DeleteQuery.rangeFromTables, hi, if_true]
      rw [ih (i + 1) _ (Nat.succ_pos i)]
      by_cases ha : tb.GetAlias = ""
      · simp [Out.WriteString, Out.call, specFromItem, String.intercalate.go, ha]
      · simp [Out.WriteString, specFromItem, String.intercalate.go, ha]

theorem appendDELETEFROM_list (ts : List (Option BaseTable)) (o : Out) :
    appendDELETEFROM ts o =
      o.call
        (if ts.length = 0 then ⟨"DELETE FROM NULL", []⟩
         else
          ⟨"DELETE FROM " ++ ", ".intercalate (ts.map fun t => (specFromItem t).text),
            (ts.map fun t => (specFromItem t).args).flatten⟩) := by
  unfold appendDELETEFROM
  cases ts with
  | nil => simp [Out.WriteString, Out.call, String.append_assoc]
  | cons t ts =>
    have hfirst : DeleteQuery.rangeFromTables (t :: ts) 0 (o.WriteString "DELETE FROM ") =
        DeleteQuery.rangeFromTables ts 1 ((o.WriteString "DELETE FROM ").call (specFromItem t)) := by
      cases t with
      | none => simp [DeleteQuery.rangeFromTables, specFromItem, Out.call, Out.WriteString]
      | some tb =>
        by_cases ha : tb.GetAlias = ""
        · simp [DeleteQuery.rangeFromTables, specFromItem, ha]
        · simp [DeleteQuery.rangeFromTables, specFromItem, Out.call, Out.WriteString, ha]
    simp only [List.length_cons, Nat.succ_ne_zero, if_false, List.map_cons, List.flatten_cons,
      Nat.add_one_ne_zero]
    rw [hfirst, rangeFromTables_pos ts 1 _ Nat.one_pos]
    simp only [Out.call, Out.WriteString, String.intercalate]
    rw [String.append_assoc, intercalate_go_append, List.append_assoc]
    rw [intercalate_go_append]

theorem appendDELETEFROM_eq (q : DeleteQuery) (o : Out) :
    appendDELETEFROM q.FromTables o = o.call (specDELETEFROM q) :=
  appendDELETEFROM_list q.FromTables o

theorem appendWITH_eq (x : Deps) (q : DeleteQuery) (o : Out) :
    appendWITH x q.CTEs o = o.call (specWITH x q) := by
  unfold appendWITH specWITH
  by_cases hc : q.CTEs.length = 0
  · simp [hc, Out.call, Fragment.empty]
  · have hpos : q.CTEs.length > 0 := by omega
    simp [hc, hpos, Out.call, Out.WriteString, String.append_assoc]

theorem appendUSING_eq (q : DeleteQuery) (o : Out) :
    appendUSING q.UsingTable o = o.call (specUSING q) := by
  unfold appendUSING specUSING
  cases q.UsingTable with
  | none => simp [Out.call, Fragment.empty]
  | some t =>
    cases t with
    | query nested a n =>
      have e₁ : " USING (" = " USING " ++ "(" := by decide
      have e₂ : ") AS " = ")" ++ " AS " := by decide
      by_cases ha : a = ""
      · simp [Table.GetAlias, ha, Out.call, Out.WriteString, String.append_assoc]
        rw [e₁, String.append_assoc]
      · simp [Table.GetAlias, ha, Out.call, Out.WriteString, String.append_assoc]
        rw [e₁, e₂, String.append_assoc, String.append_assoc]
    | table d =>
      by_cases ha : d.GetAlias = ""
      · simp [Table.GetAlias, ha, Out.call, Out.WriteString, String.append_assoc]
      · simp [Table.GetAlias, ha, Out.call, Out.WriteString, String.append_assoc]

theorem appendJOIN_eq (x : Deps) (q : DeleteQuery) (o : Out) :
    appendJOIN x q.JoinTables o = o.call (specJOIN x q) := by
  unfold appendJOIN specJOIN
  by_cases hc : q.JoinTables.length = 0
  · simp [hc, Out.call, Fragment.empty]
  · have hpos : q.JoinTables.length > 0 := by omega
    simp [hc, hpos, Out.call, Out.WriteString, String.append_assoc]

theorem appendWHERE_eq (q : DeleteQuery) (o : Out) :
    (appendWHERE q.WherePredicate o).1 = o.call (specWHERE q) := by
  unfold appendWHERE specWHERE
  by_cases hc : q.WherePredicate.Predicates.length = 0
  · simp [hc, Out.call, Fragment.empty]
  · have hpos : q.WherePredicate.Predicates.length > 0 := by omega
    simp [hc, hpos, Out.call, Out.WriteString, String.append_assoc]

theorem appendORDERBY_eq (x : Deps) (q : DeleteQuery) (o : Out) :
    appendORDERBY x q.OrderByFields o = o.call (specORDERBY x q) := by
  unfold appendORDERBY specORDERBY
  by_cases hc : q.OrderByFields.length = 0
  · simp [hc, Out.call, Fragment.empty]
  · have hpos : q.OrderByFields.length > 0 := by omega
    simp [hc, hpos, Out.call, Out.WriteString, String.append_assoc]

theorem appendLIMIT_eq (h : Heap) (q : DeleteQuery) (o : Out) :
    (appendLIMIT q.LimitValue h o).1 = o.call (specLIMIT h q) := by
  unfold specLIMIT
  cases q.LimitValue with
  | none => simp [appendLIMIT, Out.call, Fragment.empty]
  | some p => simp [appendLIMIT_some, Out.call]

theorem Fragment.append_assoc (a b c : Fragment) :
    (a.append b).append c = a.append (b.append c) := by
  simp [Fragment.append, String.append_assoc]

theorem AppendSQL_eq_spec (x : Deps) (h : Heap) (q : DeleteQuery) (o : Out) :
    (q.AppendSQL x h o).out = o.call (specDELETE x h q) := by
  rw [AppendSQL_out, appendLIMIT_eq]
  unfold DeleteQuery.beforeLIMIT
  rw [appendORDERBY_eq, appendWHERE_eq, appendJOIN_eq, appendUSING_eq, appendDELETEFROM_eq,
    appendWITH_eq]
  simp only [Out.call_call, specDELETE, Fragment.append_assoc]

theorem ToSQL_eq_spec (x : Deps) (h : Heap) (q : DeleteQuery) :
    (q.ToSQL x h).sql = (specDELETE x h q).text ∧ (q.ToSQL x h).args = (specDELETE x h q).args := by
  have hout : (DeleteQuery.AppendSQL x h { q with LogSkip := incInt q.LogSkip } ⟨"", []⟩).out =
      (⟨"", []⟩ : Out).call (specDELETE x h q) :=
    AppendSQL_eq_spec x h { q with LogSkip := incInt q.LogSkip } ⟨"", []⟩
  constructor
  · show (DeleteQuery.AppendSQL x h { q with LogSkip := incInt q.LogSkip } ⟨"", []⟩).out.buf = _
    rw [hout]
    simp [Out.call]
  · show (DeleteQuery.AppendSQL x h { q with LogSkip := incInt q.LogSkip } ⟨"", []⟩).out.args = _
    rw [hout]
    simp [Out.call]

/-! ## The DELETE statement clause by clause -/

/-- C11, counterexample. A query with one CTE and no FromTables compiles to
`"WITH  DELETE FROM NULL"`: the text of the CTEs and a blank come first, so the SQL
does not begin with `DELETE FROM NULL`. -/
theorem delete_from_null_counterexample :
    (DeleteQuery.ToSQL sampleDeps Heap.empty
        { DeleteFrom "" [] with CTEs := [sampleCTE] }).sql = "WITH  DELETE FROM NULL" ∧
    (DeleteQuery.ToSQL sampleDeps Heap.empty
        { DeleteFrom "" [] with CTEs := [sampleCTE] }).sql.take 16 ≠ "DELETE FROM NULL" := by
  decide

/-- C11, amended. The head of the statement is `DELETE FROM ` followed by `NULL` when
there are no FromTables, and otherwise by the entries in order joined by `", "`,
a nil entry as the token `NULL`, a table by its alias when that is non-empty and
by its own rendering otherwise. The compiled SQL is the WITH fragment, the head,
and the later clauses; so without CTEs it begins with the head, which is
`DELETE FROM NULL` when FromTables is empty. Compiling has no failure result. -/
theorem delete_from_head (x : Deps) (h : Heap) (q : DeleteQuery) :
    (q.ToSQL x h).sql =
      (specWITH x q).text ++
        ("DELETE FROM " ++
          (if q.FromTables.length = 0 then "NULL"
           else ", ".intercalate (q.FromTables.map fun t => (specFromItem t).text))) ++
        (specAfterHead x h q).text ∧
    (q.ToSQL x h).args =
      (specWITH x q).args ++ (q.FromTables.map fun t => (specFromItem t).args).flatten ++
        (specAfterHead x h q).args ∧
    (q.CTEs.length ≠ 0 ∨
      (q.ToSQL x h).sql =
        "DELETE FROM " ++
          (if q.FromTables.length = 0 then "NULL"
           else ", ".intercalate (q.FromTables.map fun t => (specFromItem t).text)) ++
          (specAfterHead x h q).text) ∧
    (q.CTEs.length ≠ 0 ∨ q.FromTables.length ≠ 0 ∨
      (q.ToSQL x h).sql = "DELETE FROM NULL" ++ (specAfterHead x h q).text) ∧
    specFromItem none = ⟨"NULL", []⟩ := by
  obtain ⟨hsql, hargs⟩ := ToSQL_eq_spec x h q
  have htext : (specDELETEFROM q).text =
      "DELETE FROM " ++
        (if q.FromTables.length = 0 then "NULL"
         else ", ".intercalate (q.FromTables.map fun t => (specFromItem t).text)) := by
    unfold specDELETEFROM
    by_cases hf : q.FromTables.length = 0
    · simp [hf]
    · simp [hf]
  have hfargs : (specDELETEFROM q).args =
      (q.FromTables.map fun t => (specFromItem t).args).flatten := by
    unfold specDELETEFROM
    by_cases hf : q.FromTables.length = 0
    · have hnil : q.FromTables = [] := List.length_eq_zero.mp hf
      simp [hnil]
    · simp [hf]
  have hsql' : (q.ToSQL x h).sql =
      (specWITH x q).text ++ (specDELETEFROM q).text ++ (specAfterHead x h q).text := by
    rw [hsql]
    simp [specDELETE, specAfterHead, Fragment.append, String.append_assoc]
  have hargs' : (q.ToSQL x h).args =
      (specWITH x q).args ++ (specDELETEFROM q).args ++ (specAfterHead x h q).args := by
    rw [hargs]
    simp [specDELETE, specAfterHead, Fragment.append, List.append_assoc]
  refine ⟨?_, ?_, ?_, ?_, rfl⟩
  · rw [hsql', htext]
  · rw [hargs', hfargs]
  · by_cases hc : q.CTEs.length = 0
    · right
      rw [hsql', htext]
      simp [specWITH, hc, Fragment.empty]
    · exact Or.inl hc
  · by_cases hc : q.CTEs.length = 0
    · by_cases hf : q.FromTables.length = 0
      · right
        right
        rw [hsql', htext]
        simp [specWITH, hc, hf, Fragment.empty]
      · exact Or.inr (Or.inl hf)
    · exact Or.inl hc

theorem fromItems_args_nil (tables : List (Option BaseTable))
    (htables : ∀ t, some t ∈ tables → t.AppendSQL.args = []) :
    (tables.map fun t => (specFromItem t).args).flatten = [] := by
  induction tables with
  | nil => rfl
  | cons t ts ih =>
    have hrest := ih (fun u hu => htables u (List.mem_cons_of_mem _ hu))
    simp only [List.map_cons, List.flatten_cons, hrest, List.append_nil]
    cases t with
    | none => rfl
    | some tb =>
      have htb := htables tb (List.mem_cons_self _ _)
      by_cases ha : tb.GetAlias = ""
      · simp [specFromItem, ha, htb]
      · simp [specFromItem, ha]

/-- C12. End-to-end DELETE: for tables whose rendering binds no argument and one
predicate, `DeleteFrom(tables...).Where(p).ToSQL()` returns `DELETE FROM `, the
tables, ` WHERE ` and the rendering of the predicate, with exactly the arguments
of the predicate. -/
theorem end_to_end_delete (x : Deps) (h : Heap) (alias' : String)
    (tables : List (Option BaseTable)) (p : Predicate)
    (htables : ∀ t, some t ∈ tables → t.AppendSQL.args = []) :
    (((DeleteFrom alias' tables).Where [p]).ToSQL x h).sql =
      "DELETE FROM " ++
        (if tables.length = 0 then "NULL"
         else ", ".intercalate (tables.map fun t => (specFromItem t).text)) ++
        " WHERE " ++ (p.AppendSQLExclude []).text ∧
    (((DeleteFrom alias' tables).Where [p]).ToSQL x h).args = (p.AppendSQLExclude []).args := by
  obtain ⟨hsql, hargs⟩ := ToSQL_eq_spec x h ((DeleteFrom alias' tables).Where [p])
  have hflat := fromItems_args_nil tables htables
  have hwhere : specWHERE ((DeleteFrom alias' tables).Where [p]) =
      ⟨" WHERE " ++ (p.AppendSQLExclude []).text, (p.AppendSQLExclude []).args⟩ := by
    simp [specWHERE, DeleteFrom, DeleteQuery.Where, VariadicPredicate.ofPredicates,
      VariadicPredicate.AppendSQLExclude, String.intercalate, String.intercalate.go]
  have hfrom : specDELETEFROM ((DeleteFrom alias' tables).Where [p]) =
      ⟨"DELETE FROM " ++
          (if tables.length = 0 then "NULL"
           else ", ".intercalate (tables.map fun t => (specFromItem t).text)), []⟩ := by
    unfold specDELETEFROM
    by_cases hf : tables.length = 0
    · simp [DeleteFrom, DeleteQuery.Where, hf]
    · simp [DeleteFrom, DeleteQuery.Where, hf, hflat]
  have hrest : specWITH x ((DeleteFrom alias' tables).Where [p]) = Fragment.empty ∧
      specUSING ((DeleteFrom alias' tables).Where [p]) = Fragment.empty ∧
      specJOIN x ((DeleteFrom alias' tables).Where [p]) = Fragment.empty ∧
      specORDERBY x ((DeleteFrom alias' tables).Where [p]) = Fragment.empty ∧
      specLIMIT h ((DeleteFrom alias' tables).Where [p]) = Fragment.empty :=
    ⟨rfl, rfl, rfl, rfl, rfl⟩
  obtain ⟨r1, r2, r3, r4, r5⟩ := hrest
  rw [hsql, hargs]
  simp only [specDELETE, r1, r2, r3, r4, r5, hwhere, hfrom]
  simp [Fragment.append, Fragment.empty, String.append_assoc]

/-- Witness of C12: `DeleteFrom(t).Where(t.id = ?)` compiles to
`("DELETE FROM t WHERE t.id = ?", [1])`. -/
theorem end_to_end_delete_witness :
    ((sampleDelete.Where [samplePredicate]).ToSQL sampleDeps Heap.empty).sql =
      "DELETE FROM t WHERE t.id = ?" ∧
    ((sampleDelete.Where [samplePredicate]).ToSQL sampleDeps Heap.empty).args = [Value.int 1] ∧
    ((sampleDelete.Where [samplePredicate]).ToSQL sampleDeps Heap.empty).args =
      (samplePredicate.AppendSQLExclude []).args :=
  ⟨by decide, by decide,
    (end_to_end_delete sampleDeps Heap.empty "" [some sampleTable] samplePredicate
      (by
        intro t ht
        simp only [List.mem_singleton, Option.some.injEq] at ht
        subst ht
        rfl)).2⟩

theorem fragment_ne_empty (f : Fragment) (hlen : 0 < f.text.length) : f ≠ Fragment.empty := by
  intro he
  rw [he] at hlen
  exact absurd hlen (by decide)

/-- C13. Clause order: the SQL and the argument list that `AppendSQL` appends, and
that `ToSQL` returns, are the in-order concatenation of the fragments WITH,
`DELETE FROM` and tables, USING, JOIN, WHERE, ORDER BY and ` LIMIT ?`, each
optional fragment being empty exactly when its component is empty or nil; the
arguments follow the same order and the limit argument comes last. -/
theorem clause_order (x : Deps) (h : Heap) (q : DeleteQuery) (o : Out) :
    (q.AppendSQL x h o).out.buf =
      o.buf ++ ((specWITH x q).text ++ (specDELETEFROM q).text ++ (specUSING q).text ++
        (specJOIN x q).text ++ (specWHERE q).text ++ (specORDERBY x q).text ++
        (specLIMIT h q).text) ∧
    (q.AppendSQL x h o).out.args =
      o.args ++ ((specWITH x q).args ++ (specDELETEFROM q).args ++ (specUSING q).args ++
        (specJOIN x q).args ++ (specWHERE q).args ++ (specORDERBY x q).args ++
        (specLIMIT h q).args) ∧
    (q.ToSQL x h).sql =
      (specWITH x q).text ++ (specDELETEFROM q).text ++ (specUSING q).text ++
        (specJOIN x q).text ++ (specWHERE q).text ++ (specORDERBY x q).text ++
        (specLIMIT h q).text ∧
    (q.ToSQL x h).args =
      (specWITH x q).args ++ (specDELETEFROM q).args ++ (specUSING q).args ++
        (specJOIN x q).args ++ (specWHERE q).args ++ (specORDERBY x q).args ++
        (specLIMIT h q).args ∧
    ((specWITH x q = Fragment.empty ↔ q.CTEs = []) ∧
      (specUSING q = Fragment.empty ↔ q.UsingTable = none) ∧
      (specJOIN x q = Fragment.empty ↔ q.JoinTables = []) ∧
      (specWHERE q = Fragment.empty ↔ q.WherePredicate.Predicates = []) ∧
      (specORDERBY x q = Fragment.empty ↔ q.OrderByFields = []) ∧
      (specLIMIT h q = Fragment.empty ↔ q.LimitValue = none)) := by
  have hout := AppendSQL_eq_spec x h q o
  obtain ⟨hsql, hargs⟩ := ToSQL_eq_spec x h q
  refine ⟨?_, ?_, ?_, ?_, ?_⟩
  · rw [hout]
    simp [Out.call, specDELETE, Fragment.append, String.append_assoc]
  · rw [hout]
    simp [Out.call, specDELETE, Fragment.append, List.append_assoc]
  · rw [hsql]
    simp [specDELETE, Fragment.append, String.append_assoc]
  · rw [hargs]
    simp [specDELETE, Fragment.append, List.append_assoc]
  · refine ⟨?_, ?_, ?_, ?_, ?_, ?_⟩
    · constructor
      · intro he
        by_contra hc
        have hlen : q.CTEs.length ≠ 0 := fun e => hc (List.length_eq_zero.mp e)
        apply fragment_ne_empty _ ?_ he
        simp only [specWITH, hlen, if_false, String.length_append]
        have h1 : " ".length = 1 := by decide
        omega
      · intro hc
        simp [specWITH, hc]
    · constructor
      · intro he
        cases hu : q.UsingTable with
        | none => rfl
        | some t =>
          exfalso
          apply fragment_ne_empty _ ?_ he
          simp only [specUSING, hu, String.length_append]
          have h7 : " USING ".length = 7 := by decide
          omega
      · intro hc
        simp [specUSING, hc]
    · constructor
      · intro he
        by_contra hc
        have hlen : q.JoinTables.length ≠ 0 := fun e => hc (List.length_eq_zero.mp e)
        apply fragment_ne_empty _ ?_ he
        simp only [specJOIN, hlen, if_false, String.length_append]
        have h1 : " ".length = 1 := by decide
        omega
      · intro hc
        simp [specJOIN, hc]
    · constructor
      · intro he
        by_contra hc
        have hlen : q.WherePredicate.Predicates.length ≠ 0 :=
          fun e => hc (List.length_eq_zero.mp e)
        apply fragment_ne_empty _ ?_ he
        simp only [specWHERE, hlen, if_false, String.length_append]
        have h7 : " WHERE ".length = 7 := by decide
        omega
      · intro hc
        simp [specWHERE, hc]
    · constructor
      · intro he
        by_contra hc
        have hlen : q.OrderByFields.length ≠ 0 := fun e => hc (List.length_eq_zero.mp e)
        apply fragment_ne_empty _ ?_ he
        simp only [specORDERBY, hlen, if_false, String.length_append]
        have h10 : " ORDER BY ".length = 10 := by decide
        omega
      · intro hc
        simp [specORDERBY, hc]
    · constructor
      · intro he
        cases hl : q.LimitValue with
        | none => rfl
        | some p =>
          exfalso
          apply fragment_ne_empty _ ?_ he
          simp only [specLIMIT, hl]
          decide
      · intro hc
        simp [specLIMIT, hc]

/-- C14. Logging only at the outermost compile: `AppendSQL` with `Nested = true`
makes no call to the logger, and neither does it with a nil `Log`; with
`Nested = false` and a non-nil `Log` it makes exactly one call `Log.Output`, whose
message is built from the buffer and args as they are once the whole statement
has been written. `NestThis` returns the receiver with `Nested = true` and every
other field as it was, so the nested copy logs nothing and writes the same
statement. -/
theorem logging_only_outermost (x : Deps) (h : Heap) (q : DeleteQuery) (o : Out) :
    (match q.Nested, q.Log with
      | true, _ => (q.AppendSQL x h o).log = []
      | false, none => (q.AppendSQL x h o).log = []
      | false, some logger =>
        (q.AppendSQL x h o).log =
          [⟨wrapInt64 (q.LogSkip + (match logger with | .stdLogger => 2 | .custom _ => 1)),
            if Int.land Lstats q.LogFlag ≠ 0 then
              "\n----[ Executing query ]----\n" ++ (q.AppendSQL x h o).out.buf ++ " " ++
                x.Sprint (q.AppendSQL x h o).out.args ++ "\n----[ with bind values ]----\n" ++
                x.QuestionInterpolate (q.AppendSQL x h o).out.buf (q.AppendSQL x h o).out.args
            else if Int.land Linterpolate q.LogFlag ≠ 0 then
              "Executing query: " ++
                x.QuestionInterpolate (q.AppendSQL x h o).out.buf (q.AppendSQL x h o).out.args
            else
              "Executing query: " ++ (q.AppendSQL x h o).out.buf ++ " " ++
                x.Sprint (q.AppendSQL x h o).out.args⟩]) ∧
    (q.AppendSQL x h o).log.length ≤ 1 ∧
    q.NestThis.Nested = true ∧
    (q.NestThis.Alias = q.Alias ∧ q.NestThis.CTEs = q.CTEs ∧
      q.NestThis.FromTables = q.FromTables ∧ q.NestThis.UsingTable = q.UsingTable ∧
      q.NestThis.JoinTables = q.JoinTables ∧ q.NestThis.WherePredicate = q.WherePredicate ∧
      q.NestThis.OrderByFields = q.OrderByFields ∧ q.NestThis.LimitValue = q.LimitValue ∧
      q.NestThis.DB = q.DB ∧ q.NestThis.Log = q.Log ∧ q.NestThis.LogFlag = q.LogFlag ∧
      q.NestThis.LogSkip = q.LogSkip) ∧
    (q.NestThis.AppendSQL x h o).log = [] ∧
    (q.NestThis.AppendSQL x h o).out = (q.AppendSQL x h o).out := by
  have hlog : (q.AppendSQL x h o).log =
      appendLog x q.Nested q.Log q.LogFlag q.LogSkip (q.AppendSQL x h o).out := rfl
  refine ⟨?_, ?_, rfl, ⟨rfl, rfl, rfl, rfl, rfl, rfl, rfl, rfl, rfl, rfl, rfl, rfl⟩, rfl, rfl⟩
  · rw [hlog]
    cases hn : q.Nested with
    | true => simp [appendLog]
    | false =>
      cases hl : q.Log with
      | none => simp [appendLog]
      | some logger =>
        cases logger with
        | stdLogger => simp [appendLog]
        | custom tag => simp [appendLog]
  · rw [hlog]
    unfold appendLog
    cases q.Nested with
    | true => simp
    | false =>
      cases q.Log with
      | none => simp
      | some logger =>
        cases logger <;> simp

/-! ## Executing a DELETE -/

theorem driverCalls_append (a b : List Event) :
    driverCalls (a ++ b) = driverCalls a ++ driverCalls b := by
  induction a with
  | nil => rfl
  | cons e a ih =>
    cases e <;> simp [driverCalls, ih]

theorem driverCalls_log (l : List LogCall) : driverCalls (l.map Event.log) = [] := by
  induction l with
  | nil => rfl
  | cons c l ih => simp [driverCalls, ih]

theorem execOn_driverCalls (x : Deps) (env : ExecEnv) (h : Heap) (q : DeleteQuery)
    (ctx : Option Nat) (db : Nat) (flag : ExecFlag) :
    driverCalls (q.execOn x env h ctx db flag).events = [db] := by
  unfold DeleteQuery.execOn
  simp only
  split
  · simp [driverCalls_append, driverCalls_log, driverCalls]
  · split
    · split
      · split <;> simp [driverCalls_append, driverCalls_log, driverCalls]
      · simp [driverCalls_append, driverCalls_log, driverCalls]
    · simp [driverCalls_append, driverCalls_log, driverCalls]

theorem execOn_err (x : Deps) (env : ExecEnv) (h : Heap) (q : DeleteQuery)
    (ctx : Option Nat) (db : Nat) (flag : ExecFlag) (text : String) :
    (q.execOn x env h ctx db flag).err ≠ some (.new text) := by
  unfold DeleteQuery.execOn
  simp only
  split
  · simp
  · split
    · split
      · split <;> simp
      · simp
    · simp

/-- C15. Missing DB handle: `ExecContext`, and `Exec`, return `rowsAffected = 0` and
the error made by `errors.New("DB cannot be nil")` if and only if both the `db`
argument and `q.DB` are nil, and then make no call to the driver or the logger
and leave the heap as it is, the query not being compiled. With a nil `db`
argument and `q.DB` set, the one driver call goes to `q.DB`; with a non-nil `db`
argument it goes to that argument, whatever `q.DB` is. -/
theorem missing_db_handle (x : Deps) (env : ExecEnv) (h : Heap) (q : DeleteQuery)
    (ctx : Option Nat) (db : Option Nat) (flag : ExecFlag) :
    (((q.ExecContext x env h ctx db flag).rowsAffected = 0 ∧
        (q.ExecContext x env h ctx db flag).err = some (.new "DB cannot be nil")) ↔
      (db = none ∧ q.DB = none)) ∧
    (((q.Exec x env h db flag).rowsAffected = 0 ∧
        (q.Exec x env h db flag).err = some (.new "DB cannot be nil")) ↔
      (db = none ∧ q.DB = none)) ∧
    (match db, q.DB with
      | none, none =>
        (q.ExecContext x env h ctx db flag).events = [] ∧
        (q.ExecContext x env h ctx db flag).heap = h ∧
        (q.Exec x env h db flag).events = [] ∧ (q.Exec x env h db flag).heap = h
      | none, some d =>
        driverCalls (q.ExecContext x env h ctx db flag).events = [d] ∧
        driverCalls (q.Exec x env h db flag).events = [d]
      | some d, _ =>
        driverCalls (q.ExecContext x env h ctx db flag).events = [d] ∧
        driverCalls (q.Exec x env h db flag).events = [d]) := by
  cases db with
  | some d =>
    refine ⟨?_, ?_, ?_⟩
    · simp only [DeleteQuery.ExecContext]
      constructor
      · intro hr
        exact absurd hr.2 (execOn_err x env h q ctx d flag _)
      · intro hr
        cases hr.1
    · simp only [DeleteQuery.Exec, DeleteQuery.ExecContext]
      constructor
      · intro hr
        exact absurd hr.2 (execOn_err x env h _ none d flag _)
      · intro hr
        cases hr.1
    · simp only [DeleteQuery.Exec, DeleteQuery.ExecContext]
      exact ⟨execOn_driverCalls x env h q ctx d flag, execOn_driverCalls x env h _ none d flag⟩
  | none =>
    cases hq : q.DB with
    | none =>
      refine ⟨?_, ?_, ?_⟩
      · simp [DeleteQuery.ExecContext, hq]
      · simp [DeleteQuery.Exec, DeleteQuery.ExecContext, hq]
      · simp [DeleteQuery.Exec, DeleteQuery.ExecContext, hq]
    | some d =>
      refine ⟨?_, ?_, ?_⟩
      · simp only [DeleteQuery.ExecContext, hq]
        constructor
        · intro hr
          exact absurd hr.2 (execOn_err x env h q ctx d flag _)
        · intro hr
          cases hr.2
      · simp only [DeleteQuery.Exec, DeleteQuery.ExecContext, hq]
        constructor
        · intro hr
          exact absurd hr.2 (execOn_err x env h _ none d flag _)
        · intro hr
          cases hr.2
      · simp only [DeleteQuery.Exec, DeleteQuery.ExecContext, hq]
        exact ⟨execOn_driverCalls x env h q ctx d flag, execOn_driverCalls x env h _ none d flag⟩

theorem execOn_rows (x : Deps) (env : ExecEnv) (h : Heap) (q : DeleteQuery)
    (ctx : Option Nat) (d : Nat) (flag : ExecFlag) :
    (Event.rowsAffected d ∈ (q.execOn x env h ctx d flag).events ↔
      (driverAnswer env ctx d (q.ToSQL x h).sql (q.ToSQL x h).args).2 = none ∧
      (driverAnswer env ctx d (q.ToSQL x h).sql (q.ToSQL x h).args).1 ≠ none ∧
      Int.land ErowsAffected flag ≠ 0) ∧
    (match (driverAnswer env ctx d (q.ToSQL x h).sql (q.ToSQL x h).args).2,
        (driverAnswer env ctx d (q.ToSQL x h).sql (q.ToSQL x h).args).1 with
      | some e, _ =>
        (q.execOn x env h ctx d flag).err = some (.driver e) ∧
        (q.execOn x env h ctx d flag).rowsAffected = 0
      | none, none =>
        (q.execOn x env h ctx d flag).err = none ∧
        (q.execOn x env h ctx d flag).rowsAffected = 0
      | none, some res =>
        if Int.land ErowsAffected flag ≠ 0 then
          (q.execOn x env h ctx d flag).rowsAffected = res.RowsAffected.1 ∧
          (q.execOn x env h ctx d flag).err = res.RowsAffected.2.map Error.driver
        else
          (q.execOn x env h ctx d flag).rowsAffected = 0 ∧
          (q.execOn x env h ctx d flag).err = none) := by
  have hans : driverAnswer env ctx d (q.ToSQL x h).sql (q.ToSQL x h).args =
      (match ctx with
        | none => (env.db d).Exec
            (DeleteQuery.AppendSQL x h { q with LogSkip := incInt q.LogSkip } ⟨"", []⟩).out.buf
            (DeleteQuery.AppendSQL x h { q with LogSkip := incInt q.LogSkip } ⟨"", []⟩).out.args
        | some c => (env.db d).ExecContext c
            (DeleteQuery.AppendSQL x h { q with LogSkip := incInt q.LogSkip } ⟨"", []⟩).out.buf
            (DeleteQuery.AppendSQL x h { q with LogSkip := incInt q.LogSkip } ⟨"", []⟩).out.args) := rfl
  unfold DeleteQuery.execOn
  simp only
  rw [hans]
  generalize (match ctx with
    | none => (env.db d).Exec
        (DeleteQuery.AppendSQL x h { q with LogSkip := incInt q.LogSkip } ⟨"", []⟩).out.buf
        (DeleteQuery.AppendSQL x h { q with LogSkip := incInt q.LogSkip } ⟨"", []⟩).out.args
    | some c => (env.db d).ExecContext c
        (DeleteQuery.AppendSQL x h { q with LogSkip := incInt q.LogSkip } ⟨"", []⟩).out.buf
        (DeleteQuery.AppendSQL x h { q with LogSkip := incInt q.LogSkip } ⟨"", []⟩).out.args) = answer
  obtain ⟨res, err⟩ := answer
  cases err with
  | some e => simp
  | none =>
    cases res with
    | none => simp
    | some res =>
      by_cases hf : Int.land ErowsAffected flag = 0
      · simp [hf]
      · cases hre : res.RowsAffected.2 with
        | none => simp [hf, hre]
        | some e => simp [hf, hre]

/-- C16. Rows-affected is computed only on request: `ExecContext` calls
`RowsAffected` on the driver's result exactly when the driver call returned no
error and a non-nil result and the `ErowsAffected` bit is set in `flag`, and then
returns the count (and the error) that `RowsAffected` answered; otherwise it
returns `rowsAffected = 0`. An error of the driver's `Exec` or `ExecContext` is
returned as it is, with `rowsAffected = 0`. -/
theorem rows_affected_on_request (x : Deps) (env : ExecEnv) (h : Heap) (q : DeleteQuery)
    (ctx : Option Nat) (db : Option Nat) (flag : ExecFlag) :
    match (match db with | some d => some d | none => q.DB) with
    | none =>
      (q.ExecContext x env h ctx db flag).rowsAffected = 0 ∧
      (q.ExecContext x env h ctx db flag).events = []
    | some d =>
      (Event.rowsAffected d ∈ (q.ExecContext x env h ctx db flag).events ↔
        (driverAnswer env ctx d (q.ToSQL x h).sql (q.ToSQL x h).args).2 = none ∧
        (driverAnswer env ctx d (q.ToSQL x h).sql (q.ToSQL x h).args).1 ≠ none ∧
        Int.land ErowsAffected flag ≠ 0) ∧
      (match (driverAnswer env ctx d (q.ToSQL x h).sql (q.ToSQL x h).args).2,
          (driverAnswer env ctx d (q.ToSQL x h).sql (q.ToSQL x h).args).1 with
        | some e, _ =>
          (q.ExecContext x env h ctx db flag).err = some (.driver e) ∧
          (q.ExecContext x env h ctx db flag).rowsAffected = 0
        | none, none =>
          (q.ExecContext x env h ctx db flag).err = none ∧
          (q.ExecContext x env h ctx db flag).rowsAffected = 0
        | none, some res =>
          if Int.land ErowsAffected flag ≠ 0 then
            (q.ExecContext x env h ctx db flag).rowsAffected = res.RowsAffected.1 ∧
            (q.ExecContext x env h ctx db flag).err = res.RowsAffected.2.map Error.driver
          else
            (q.ExecContext x env h ctx db flag).rowsAffected = 0 ∧
            (q.ExecContext x env h ctx db flag).err = none) := by
  cases db with
  | some d =>
    simp only [DeleteQuery.ExecContext]
    exact execOn_rows x env h q ctx d flag
  | none =>
    cases hq : q.DB with
    | none => simp [DeleteQuery.ExecContext, hq]
    | some d =>
      simp only [DeleteQuery.ExecContext, hq]
      exact execOn_rows x env h q ctx d flag

/-! ## Rendering a BooleanField -/

theorem rangeExcluded_eq (q : String) (excluded : List String) :
    rangeExcluded q excluded = if q ∈ excluded then "" else q := by
  induction excluded with
  | nil => simp [rangeExcluded]
  | cons e rest ih =>
    by_cases he : q = e
    · simp [rangeExcluded, he]
    · simp only [rangeExcluded, he, if_false, ih, List.mem_cons, false_or]

theorem rangeExcluded_ne_empty (table : TableDesc) (excluded : List String) :
    rangeExcluded (if table.GetAlias = "" then table.GetName else table.GetAlias) excluded ≠ "" ↔
      (specQualifier table ≠ "" ∧ specQualifier table ∉ excluded) := by
  have hq : (if table.GetAlias = "" then table.GetName else table.GetAlias) =
      specQualifier table := by
    unfold specQualifier
    by_cases ha : table.GetAlias = "" <;> simp [ha]
  rw [hq, rangeExcluded_eq]
  by_cases hm : specQualifier table ∈ excluded
  · simp [hm]
  · simp [hm]

theorem orderingSteps_eq (f : BooleanField) (o : Out) :
    (match f.nullsfirst with
      | some true =>
        (match f.descending with
          | some true => o.WriteString " DESC"
          | some false => o.WriteString " ASC"
          | none => o).WriteString " NULLS FIRST"
      | some false =>
        (match f.descending with
          | some true => o.WriteString " DESC"
          | some false => o.WriteString " ASC"
          | none => o).WriteString " NULLS LAST"
      | none =>
        (match f.descending with
          | some true => o.WriteString " DESC"
          | some false => o.WriteString " ASC"
          | none => o)) = ⟨o.buf ++ specOrdering f, o.args⟩ := by
  unfold specOrdering
  cases f.descending with
  | none =>
    cases f.nullsfirst with
    | none => simp only [String.append_empty]
    | some b => cases b <;> simp only [Out.WriteString, String.empty_append]
  | some d =>
    cases d <;>
      (cases f.nullsfirst with
        | none => simp only [Out.WriteString, String.append_empty]
        | some b => cases b <;> simp only [Out.WriteString, String.append_assoc])

theorem render_literal (f : BooleanField) (v : Bool) (hv : f.value = some v) (o : Out)
    (excluded : List String) :
    f.AppendSQLExclude o excluded =
      (.ok (), ⟨o.buf ++ (specNot f ++ ("?" ++ specOrdering f)), o.args ++ [Value.bool v]⟩) := by
  unfold BooleanField.AppendSQLExclude
  simp only [hv]
  rw [orderingSteps_eq]
  unfold specNot
  cases f.negative <;> simp only [Out.WriteString, String.append_assoc, String.empty_append,
    if_true, if_false, Bool.false_eq_true]

theorem render_nil_table (f : BooleanField) (hv : f.value = none) (ht : f.table = none)
    (o : Out) (excluded : List String) :
    f.AppendSQLExclude o excluded = (.error .nilPointer, ⟨o.buf ++ specNot f, o.args⟩) := by
  unfold BooleanField.AppendSQLExclude
  simp only [hv, ht]
  unfold specNot
  cases f.negative <;> simp only [Out.WriteString, String.append_empty, if_true, if_false,
    Bool.false_eq_true]

theorem render_column (f : BooleanField) (table : TableDesc) (hv : f.value = none)
    (ht : f.table = some table) (o : Out) (excluded : List String) :
    f.AppendSQLExclude o excluded =
      (.ok (),
        ⟨o.buf ++ (specNot f ++ (specColumn table f.name excluded ++ specOrdering f)), o.args⟩) := by
  unfold BooleanField.AppendSQLExclude
  simp only [hv, ht]
  rw [orderingSteps_eq]
  have hne := rangeExcluded_ne_empty table excluded
  have hre : rangeExcluded (if table.GetAlias = "" then table.GetName else table.GetAlias)
      excluded = if specQualifier table ∈ excluded then "" else specQualifier table := by
    have hq : (if table.GetAlias = "" then table.GetName else table.GetAlias) =
        specQualifier table := by
      unfold specQualifier
      by_cases ha : table.GetAlias = "" <;> simp [ha]
    rw [hq, rangeExcluded_eq]
  unfold specNot specColumn quoteIdent
  by_cases hq : specQualifier table ≠ "" ∧ specQualifier table ∉ excluded
  · have hq' := hne.mpr hq
    have hval : rangeExcluded (if table.GetAlias = "" then table.GetName else table.GetAlias)
        excluded = specQualifier table := by
      rw [hre, if_neg hq.2]
    simp only [hq', hq, ne_eq, not_false_eq_true, if_true, and_self, hval]
    cases f.negative <;> cases ContainsAny (specQualifier table) " \t" <;>
      cases ContainsAny f.name " \t" <;>
      simp only [Out.WriteString, String.append_assoc, String.empty_append, if_true, if_false,
        Bool.false_eq_true] <;> rfl
  · have hq' : ¬ rangeExcluded (if table.GetAlias = "" then table.GetName else table.GetAlias)
        excluded ≠ "" := fun hc => hq (hne.mp hc)
    simp only [hq', hq, if_false]
    cases f.negative <;> cases ContainsAny f.name " \t" <;>
      simp only [Out.WriteString, String.append_assoc, String.empty_append, if_true, if_false,
        Bool.false_eq_true]

/-- C17. Literal rendering: for every bool `b`, `Bool(b)` renders through
`AppendSQLExclude` as the single token `?` and appends exactly one argument, the
value `b`, whatever the exclusion list; any field holding a literal appends
exactly that one argument, and a column field appends none. -/
theorem literal_rendering (b : Bool) (f : BooleanField) (o : Out) (excluded : List String) :
    (Bool' b).AppendSQLExclude o excluded =
      (.ok (), ⟨o.buf ++ "?", o.args ++ [Value.bool b]⟩) ∧
    (match f.value with
      | some v => (f.AppendSQLExclude o excluded).2.args = o.args ++ [Value.bool v]
      | none => (f.AppendSQLExclude o excluded).2.args = o.args) := by
  constructor
  · rw [render_literal (Bool' b) b rfl o excluded]
    simp only [specNot, specOrdering, Bool', String.append_empty, String.empty_append,
      if_false, Bool.false_eq_true]
  · cases hv : f.value with
    | some v =>
      simp only
      rw [render_literal f v hv o excluded]
    | none =>
      simp only
      cases ht : f.table with
      | none => rw [render_nil_table f hv ht o excluded]
      | some table => rw [render_column f table hv ht o excluded]

/-- C18. Table-qualifier suppression: for a column field, the qualifier is the alias
of the table when that is non-empty and the name of the table otherwise;
`AppendSQLExclude` writes the qualifier, a dot and the column name when the
qualifier is non-empty and does not occur in `excludedTableQualifiers`, and the
column name alone when the qualifier is empty or occurs in the list. Each
identifier is written as `quoteIdent` gives it, which is the identifier itself
when it holds neither a space nor a tab; the text stands after `NOT ` for a
negated field and before the ordering suffix. -/
theorem qualifier_suppression (f : BooleanField) (table : TableDesc)
    (hvalue : f.value = none) (htable : f.table = some table) (o : Out)
    (excluded : List String) :
    (f.AppendSQLExclude o excluded).1 = .ok () ∧
    (f.AppendSQLExclude o excluded).2.args = o.args ∧
    (f.AppendSQLExclude o excluded).2.buf =
      o.buf ++ (specNot f ++
        ((if specQualifier table ≠ "" ∧ specQualifier table ∉ excluded then
            quoteIdent (specQualifier table) ++ "." ++ quoteIdent f.name
          else quoteIdent f.name) ++ specOrdering f)) ∧
    specQualifier table = (if table.GetAlias ≠ "" then table.GetAlias else table.GetName) ∧
    (ContainsAny (specQualifier table) " \t" = true ∨
      quoteIdent (specQualifier table) = specQualifier table) ∧
    (ContainsAny f.name " \t" = true ∨ quoteIdent f.name = f.name) := by
  rw [render_column f table hvalue htable o excluded]
  refine ⟨rfl, rfl, rfl, rfl, ?_, ?_⟩
  · cases hc : ContainsAny (specQualifier table) " \t" with
    | true => exact Or.inl rfl
    | false => exact Or.inr (by simp [quoteIdent, hc])
  · cases hc : ContainsAny f.name " \t" with
    | true => exact Or.inl rfl
    | false => exact Or.inr (by simp [quoteIdent, hc])

/-- Witness of C18 on the column `is_created` of the table `public.users` aliased `u`:
`u.is_created` when `u` is not excluded, `is_created` when it is. -/
theorem qualifier_suppression_witness :
    ((NewBooleanField "is_created" (some sampleUsers)).AppendSQLExclude ⟨"", []⟩ []).2.buf =
      "u.is_created" ∧
    ((NewBooleanField "is_created" (some sampleUsers)).AppendSQLExclude ⟨"", []⟩ ["u"]).2.buf =
      "is_created" ∧
    ((NewBooleanField "is_created" (some sampleUsers)).AppendSQLExclude ⟨"", []⟩ ["u"]).1 =
      .ok () :=
  ⟨by decide, by decide,
    (qualifier_suppression (NewBooleanField "is_created" (some sampleUsers)) sampleUsers
      rfl rfl ⟨"", []⟩ ["u"]).1⟩

/-- C19, counterexample. A column and a table whose names each hold a newline, which
is a whitespace character, are written bare, qualifier, dot and name, without
double quotes. -/
theorem identifier_quoting_counterexample :
    ('\n').isWhitespace = true ∧
    ((NewBooleanField "a\nb" (some ⟨⟨"", []⟩, "", "my\ntable"⟩)).AppendSQLExclude
        ⟨"", []⟩ []).2.buf = "my\ntable.a\nb" ∧
    ((NewBooleanField "a\nb" (some ⟨⟨"", []⟩, "", "my\ntable"⟩)).AppendSQLExclude
        ⟨"", []⟩ []).2.buf ≠ "\"my\ntable\".\"a\nb\"" := by
  decide

/-- C19, amended. Identifier quoting: when a column field is rendered, a table
qualifier or column name that contains a space or a tab is wrapped in double
quotes, and a qualifier or name with neither is written bare, other whitespace
included. -/
theorem identifier_quoting (f : BooleanField) (table : TableDesc)
    (hvalue : f.value = none) (htable : f.table = some table) (o : Out)
    (excluded : List String) :
    (f.AppendSQLExclude o excluded).2.buf =
      o.buf ++ (specNot f ++
        ((if specQualifier table ≠ "" ∧ specQualifier table ∉ excluded then
            (if ' ' ∈ (specQualifier table).data ∨ '\t' ∈ (specQualifier table).data then
              "\"" ++ specQualifier table ++ "\""
             else specQualifier table) ++ "." ++
            (if ' ' ∈ f.name.data ∨ '\t' ∈ f.name.data then "\"" ++ f.name ++ "\""
             else f.name)
          else
            (if ' ' ∈ f.name.data ∨ '\t' ∈ f.name.data then "\"" ++ f.name ++ "\""
             else f.name)) ++ specOrdering f)) := by
  have hquote : ∀ s : String,
      quoteIdent s = (if ' ' ∈ s.data ∨ '\t' ∈ s.data then "\"" ++ s ++ "\"" else s) := by
    intro s
    have hany : ContainsAny s " \t" = true ↔ (' ' ∈ s.data ∨ '\t' ∈ s.data) := by
      unfold ContainsAny
      rw [List.any_eq_true]
      constructor
      · rintro ⟨c, hc, hin⟩
        have hcc : c = ' ' ∨ c = '\t' := by
          have hmem : c ∈ " \t".data := by simpa using hin
          have hdata : " \t".data = [' ', '\t'] := rfl
          rw [hdata] at hmem
          simpa using hmem
        rcases hcc with h1 | h1
        · exact Or.inl (h1 ▸ hc)
        · exact Or.inr (h1 ▸ hc)
      · rintro (h1 | h1)
        · exact ⟨' ', h1, by decide⟩
        · exact ⟨'\t', h1, by decide⟩
    unfold quoteIdent
    by_cases hc : ContainsAny s " \t" = true
    · rw [if_pos hc, if_pos (hany.mp hc)]
    · rw [if_neg hc, if_neg (fun h => hc (hany.mpr h))]
  rw [render_column f table hvalue htable o excluded]
  simp only [specColumn, hquote]

/-- Witness of C19 as amended: the column `is created` of `public.users` aliased `u`
is written `u."is created"`. -/
theorem identifier_quoting_witness :
    ((NewBooleanField "is created" (some sampleUsers)).AppendSQLExclude ⟨"", []⟩ []).2.buf =
      "u.\"is created\"" ∧
    ((NewBooleanField "is created" (some sampleUsers)).AppendSQLExclude ⟨"", []⟩ []).2.buf =
      "" ++ (specNot (NewBooleanField "is created" (some sampleUsers)) ++
        ((if specQualifier sampleUsers ≠ "" ∧ specQualifier sampleUsers ∉ ([] : List String) then
            (if ' ' ∈ (specQualifier sampleUsers).data ∨ '\t' ∈ (specQualifier sampleUsers).data
              then "\"" ++ specQualifier sampleUsers ++ "\""
             else specQualifier sampleUsers) ++ "." ++
            (if ' ' ∈ "is created".data ∨ '\t' ∈ "is created".data then
              "\"" ++ "is created" ++ "\""
             else "is created")
          else
            (if ' ' ∈ "is created".data ∨ '\t' ∈ "is created".data then
              "\"" ++ "is created" ++ "\""
             else "is created")) ++
          specOrdering (NewBooleanField "is created" (some sampleUsers)))) :=
  ⟨by decide,
    identifier_quoting (NewBooleanField "is created" (some sampleUsers)) sampleUsers rfl rfl
      ⟨"", []⟩ []⟩

/-- C20. Ordering modifiers: the rendering of a field is the rendering of the same
field without direction and nulls placement, followed by ` ASC` (after `Asc`) or
` DESC` (after `Desc`) and then by ` NULLS FIRST` (after `NullsFirst`) or
` NULLS LAST` (after `NullsLast`). Both suffixes may be present, the direction
comes first in whatever order the builder methods were called, and the modifiers
add no argument. -/
theorem ordering_modifiers (f : BooleanField) (o : Out) (excluded : List String) :
    (f.AppendSQLExclude o excluded).1 = (f.base.AppendSQLExclude o excluded).1 ∧
    (f.AppendSQLExclude o excluded).2.args = (f.base.AppendSQLExclude o excluded).2.args ∧
    (f.AppendSQLExclude o excluded).2.buf =
      (match (f.base.AppendSQLExclude o excluded).1 with
        | .ok _ => (f.base.AppendSQLExclude o excluded).2.buf ++ specOrdering f
        | .error _ => (f.base.AppendSQLExclude o excluded).2.buf) ∧
    (f.Asc.base = f.base ∧ f.Desc.base = f.base ∧ f.NullsFirst.base = f.base ∧
      f.NullsLast.base = f.base) ∧
    (specOrdering f.base.Asc = " ASC" ∧ specOrdering f.base.Desc = " DESC" ∧
      specOrdering f.base.NullsFirst = " NULLS FIRST" ∧
      specOrdering f.base.NullsLast = " NULLS LAST") ∧
    (specOrdering f.base.Asc.NullsFirst = " ASC" ++ " NULLS FIRST" ∧
      specOrdering f.base.NullsFirst.Asc = " ASC" ++ " NULLS FIRST" ∧
      specOrdering f.base.Asc.NullsLast = " ASC" ++ " NULLS LAST" ∧
      specOrdering f.base.NullsLast.Asc = " ASC" ++ " NULLS LAST" ∧
      specOrdering f.base.Desc.NullsFirst = " DESC" ++ " NULLS FIRST" ∧
      specOrdering f.base.NullsFirst.Desc = " DESC" ++ " NULLS FIRST" ∧
      specOrdering f.base.Desc.NullsLast = " DESC" ++ " NULLS LAST" ∧
      specOrdering f.base.NullsLast.Desc = " DESC" ++ " NULLS LAST") := by
  have hbase : specOrdering f.base = "" := rfl
  have hnot : specNot f.base = specNot f := rfl
  refine ⟨?_, ?_, ?_, ⟨rfl, rfl, rfl, rfl⟩, ⟨rfl, rfl, rfl, rfl⟩,
    ⟨rfl, rfl, rfl, rfl, rfl, rfl, rfl, rfl⟩⟩
  · cases hv : f.value with
    | some v =>
      rw [render_literal f v hv o excluded, render_literal f.base v hv o excluded]
    | none =>
      cases ht : f.table with
      | none => rw [render_nil_table f hv ht o excluded, render_nil_table f.base hv ht o excluded]
      | some table =>
        rw [render_column f table hv ht o excluded, render_column f.base table hv ht o excluded]
  · cases hv : f.value with
    | some v =>
      rw [render_literal f v hv o excluded, render_literal f.base v hv o excluded]
    | none =>
      cases ht : f.table with
      | none => rw [render_nil_table f hv ht o excluded, render_nil_table f.base hv ht o excluded]
      | some table =>
        rw [render_column f table hv ht o excluded, render_column f.base table hv ht o excluded]
  · cases hv : f.value with
    | some v =>
      rw [render_literal f v hv o excluded, render_literal f.base v hv o excluded]
      simp only [hbase, hnot, String.append_empty, String.append_assoc]
    | none =>
      cases ht : f.table with
      | none =>
        rw [render_nil_table f hv ht o excluded, render_nil_table f.base hv ht o excluded]
        simp only [hnot]
      | some table =>
        rw [render_column f table hv ht o excluded, render_column f.base table hv ht o excluded]
        have hname : f.base.name = f.name := rfl
        simp only [hbase, hnot, hname, String.append_empty, String.append_assoc]

/-! ## CTE handles -/

theorem secret_keys_distinct :
    secret ++ "alias" ≠ secret ∧ secret ++ "name" ≠ secret ∧
    secret ++ "name" ≠ secret ++ "alias" := by
  decide

theorem CTE_lookup (q : SelectQuery) (n : String) :
    (q.CTE n) secret = ⟨"", [Any.query (.select q)]⟩ ∧
    (q.CTE n) (secret ++ "alias") = ⟨"", [Any.string ""]⟩ ∧
    (q.CTE n) (secret ++ "name") = ⟨"", [Any.string n]⟩ := by
  obtain ⟨h1, h2, h3⟩ := secret_keys_distinct
  refine ⟨?_, ?_, ?_⟩
  · simp [SelectQuery.CTE]
  · simp [SelectQuery.CTE, h1]
  · simp [SelectQuery.CTE, h2, h3]

theorem As_lookup (h : CTE2) (a : String) :
    (h.As a) secret = ⟨"", [Any.ofQuery h.GetQuery]⟩ ∧
    (h.As a) (secret ++ "alias") = ⟨"", [Any.string a]⟩ ∧
    (h.As a) (secret ++ "name") = ⟨"", [Any.string h.GetName]⟩ := by
  obtain ⟨h1, h2, h3⟩ := secret_keys_distinct
  refine ⟨?_, ?_, ?_⟩
  · simp [CTE2.As]
  · simp [CTE2.As, h1]
  · simp [CTE2.As, h2, h3]

theorem As_meta (h : CTE2) (a : String) :
    (h.As a).GetAlias = a ∧ (h.As a).GetName = h.GetName ∧ (h.As a).GetQuery = h.GetQuery := by
  obtain ⟨l1, l2, l3⟩ := As_lookup h a
  refine ⟨?_, ?_, ?_⟩
  · simp only [CTE2.GetAlias, l2]
  · show CTE2.GetName (h.As a) = h.GetName
    simp only [CTE2.GetName, l3]
  · have hstored : ∀ v : Option Query,
        (match [Any.ofQuery v] with
          | Any.query q :: _ => some q
          | _ => none) = v := by
      intro v
      cases v <;> rfl
    have hdef : CTE2.GetQuery (h.As a) =
        (match ((h.As a) secret).Values with
          | Any.query q :: _ => some q
          | _ => none) := rfl
    rw [hdef, l1]
    exact hstored _

theorem CTE_meta (q : SelectQuery) (n : String) :
    (q.CTE n).GetName = n ∧ (q.CTE n).GetAlias = "" ∧ (q.CTE n).GetQuery = some (.select q) := by
  obtain ⟨l1, l2, l3⟩ := CTE_lookup q n
  refine ⟨?_, ?_, ?_⟩
  · simp only [CTE2.GetName, l3]
  · simp only [CTE2.GetAlias, l2]
  · simp only [CTE2.GetQuery, l1]

theorem As_column (h : CTE2) (a c : String) (hc : isColumn c) :
    (h.As a) c = ⟨h.GetName ++ "." ++ c, []⟩ := by
  obtain ⟨c1, c2, c3⟩ := hc
  simp [CTE2.As, c1, c2, c3]

theorem CTE_column (q : SelectQuery) (n c : String) (hc : isColumn c) :
    (q.CTE n) c = ⟨n ++ "." ++ c, []⟩ := by
  obtain ⟨c1, c2, c3⟩ := hc
  simp [SelectQuery.CTE, c1, c2, c3]

theorem Built_column (h : CTE2) (hb : CTE2.Built h) (c : String) (hc : isColumn c) :
    h c = ⟨h.GetName ++ "." ++ c, []⟩ := by
  cases hb with
  | cte q n => rw [CTE_column q n c hc, (CTE_meta q n).1]
  | as g a _ => rw [As_column g a c hc, (As_meta g a).2.1]

/-- C23. CTE metadata round trip: for every SelectQuery `q` and name `n`, the handle
`h = q.CTE(n)` has `h.GetName() = n`, `h.GetAlias() = ""` and `h.GetQuery() = q`. -/
theorem cte_metadata_round_trip (q : SelectQuery) (n : String) :
    (q.CTE n).GetName = n ∧ (q.CTE n).GetAlias = "" ∧
    (q.CTE n).GetQuery = some (Query.select q) :=
  CTE_meta q n

/-- C24. CTE column accessor: for every name `n` and column string `c` that is none
of the three sentinel keys, `q.CTE(n)(c)` is the CustomField with Format
`n + "." + c` and no Values; at a sentinel key the handle returns the metadata
field, holding the query, the empty alias or the name. -/
theorem cte_column_accessor (q : SelectQuery) (n c : String) (hc : isColumn c) :
    (q.CTE n) c = ⟨n ++ "." ++ c, []⟩ ∧
    (q.CTE n) secret = ⟨"", [Any.query (.select q)]⟩ ∧
    (q.CTE n) (secret ++ "alias") = ⟨"", [Any.string ""]⟩ ∧
    (q.CTE n) (secret ++ "name") = ⟨"", [Any.string n]⟩ :=
  ⟨CTE_column q n c hc, CTE_lookup q n⟩

/-- Witness of C24: `cte("user_id")` has Format `cte.user_id` and no Values. -/
theorem cte_column_accessor_witness :
    isColumn "user_id" ∧ (sampleSelect.CTE "cte") "user_id" = ⟨"cte.user_id", []⟩ :=
  ⟨by decide,
    by
      have hw := (cte_column_accessor sampleSelect "cte" "user_id" (by decide)).1
      rw [hw]
      decide⟩

/-- C25. Aliasing a CTE changes only the alias: for every handle `h` and alias `a`,
`h.As(a).GetAlias() = a`, `h.As(a).GetName() = h.GetName()`,
`h.As(a).GetQuery() = h.GetQuery()`, and a lookup of a column that is no sentinel
key returns on `h.As(a)` the same field as on `h`; and `h.As(a).As(b)` answers
every lookup as `h.As(b)` does. A handle is what `CTE` and `As` build. -/
theorem cte_alias_changes_only_alias (h : CTE2) (hbuilt : CTE2.Built h) (a b c : String)
    (hc : isColumn c) :
    (h.As a).GetAlias = a ∧ (h.As a).GetName = h.GetName ∧
    (h.As a).GetQuery = h.GetQuery ∧
    (h.As a) c = h c ∧
    (∀ k : String, ((h.As a).As b) k = (h.As b) k) := by
  obtain ⟨m1, m2, m3⟩ := As_meta h a
  refine ⟨m1, m2, m3, ?_, ?_⟩
  · rw [As_column h a c hc, Built_column h hbuilt c hc]
  · intro k
    simp only [CTE2.As, m2, m3]

/-- Witness of C25 on `cte.As("bruh")` for the CTE named `cte`. -/
theorem cte_alias_changes_only_alias_witness :
    CTE2.Built (sampleSelect.CTE "cte") ∧ isColumn "email" ∧
    ((sampleSelect.CTE "cte").As "bruh").GetAlias = "bruh" ∧
    ((sampleSelect.CTE "cte").As "bruh") "email" = (sampleSelect.CTE "cte") "email" :=
  ⟨CTE2.Built.cte sampleSelect "cte", by decide,
    (cte_alias_changes_only_alias (sampleSelect.CTE "cte") (CTE2.Built.cte sampleSelect "cte")
      "bruh" "x" "email" (by decide)).1,
    (cte_alias_changes_only_alias (sampleSelect.CTE "cte") (CTE2.Built.cte sampleSelect "cte")
      "bruh" "x" "email" (by decide)).2.2.2.1⟩

/-- C26, the code at the failing input. For `ate = cte.As("bruh")` over the CTE named
`cte`, the lookups `ate("user_id")`, `ate("displayname")` and `ate("email")` have
the Formats `cte.user_id`, `cte.displayname` and `cte.email`: `As` qualifies a
column by the name of the handle it aliases, not by the alias. -/
theorem aliased_cte_columns_use_name :
    ((sampleSelect.CTE "cte").As "bruh") "user_id" = ⟨"cte.user_id", []⟩ ∧
    ((sampleSelect.CTE "cte").As "bruh") "displayname" = ⟨"cte.displayname", []⟩ ∧
    ((sampleSelect.CTE "cte").As "bruh") "email" = ⟨"cte.email", []⟩ ∧
    ((sampleSelect.CTE "cte").As "bruh") "user_id" ≠ ⟨"bruh.user_id", []⟩ := by
  have hn : (sampleSelect.CTE "cte").GetName = "cte" := (CTE_meta sampleSelect "cte").1
  have h1 := As_column (sampleSelect.CTE "cte") "bruh" "user_id" (by decide)
  have h2 := As_column (sampleSelect.CTE "cte") "bruh" "displayname" (by decide)
  have h3 := As_column (sampleSelect.CTE "cte") "bruh" "email" (by decide)
  rw [hn] at h1 h2 h3
  rw [h1, h2, h3]
  decide

/-- C27. CTE as table reference: `CTE2.AppendSQL` writes exactly the alias of the
handle when that is non-empty, otherwise exactly its name, which is nothing when
both are empty, and appends no argument; so for `q.CTE(n)` it writes `n` and for
`h.As(a)` with a non-empty `a` it writes `a`. -/
theorem cte_table_reference (h : CTE2) (o : Out) (q : SelectQuery) (n a : String) :
    (h.AppendSQL o).args = o.args ∧
    (h.AppendSQL o).buf = o.buf ++ (if h.GetAlias ≠ "" then h.GetAlias else h.GetName) ∧
    ((q.CTE n).AppendSQL o).buf = o.buf ++ n ∧
    (a = "" ∨ ((h.As a).AppendSQL o).buf = o.buf ++ a) := by
  have hgen : ∀ g : CTE2, (g.AppendSQL o).args = o.args ∧
      (g.AppendSQL o).buf = o.buf ++ (if g.GetAlias ≠ "" then g.GetAlias else g.GetName) := by
    intro g
    unfold CTE2.AppendSQL
    by_cases ha : g.GetAlias = ""
    · by_cases hn : g.GetName = ""
      · simp [ha, hn]
      · simp [ha, hn, Out.WriteString]
    · simp [ha, Out.WriteString]
  refine ⟨(hgen h).1, (hgen h).2, ?_, ?_⟩
  · rw [(hgen (q.CTE n)).2, (CTE_meta q n).2.1, (CTE_meta q n).1]
    simp
  · by_cases ha : a = ""
    · exact Or.inl ha
    · right
      rw [(hgen (h.As a)).2, (As_meta h a).1]
      simp [ha]

/-! ## Negation and failure of a BooleanField -/

theorem render_append_only (f : BooleanField) (o : Out) (excluded : List String) :
    f.AppendSQLExclude o excluded =
      ((f.AppendSQLExclude ⟨"", []⟩ excluded).1,
        ⟨o.buf ++ (f.AppendSQLExclude ⟨"", []⟩ excluded).2.buf,
          o.args ++ (f.AppendSQLExclude ⟨"", []⟩ excluded).2.args⟩) := by
  cases hv : f.value with
  | some v =>
    rw [render_literal f v hv o excluded, render_literal f v hv ⟨"", []⟩ excluded]
    simp only [String.empty_append, List.nil_append]
  | none =>
    cases ht : f.table with
    | none =>
      rw [render_nil_table f hv ht o excluded, render_nil_table f hv ht ⟨"", []⟩ excluded]
      simp only [String.empty_append, List.append_nil]
    | some table =>
      rw [render_column f table hv ht o excluded, render_column f table hv ht ⟨"", []⟩ excluded]
      simp only [String.empty_append, List.append_nil]

/-- C21. Negation toggles: for a field `f` that is not negated, `f.Not()` renders as
`NOT ` followed by the rendering of `f`, with the arguments of `f` and the same
outcome; and for every field `g`, `g.Not().Not()` is `g`, so it renders as `g`
does. -/
theorem negation_toggles (f g : BooleanField) (hplain : f.negative = false) (o : Out)
    (excluded : List String) :
    f.Not.AppendSQLExclude o excluded = f.AppendSQLExclude (o.WriteString "NOT ") excluded ∧
    (f.Not.AppendSQLExclude o excluded).1 = (f.AppendSQLExclude ⟨"", []⟩ excluded).1 ∧
    (f.Not.AppendSQLExclude o excluded).2.buf =
      o.buf ++ ("NOT " ++ (f.AppendSQLExclude ⟨"", []⟩ excluded).2.buf) ∧
    (f.Not.AppendSQLExclude o excluded).2.args =
      o.args ++ (f.AppendSQLExclude ⟨"", []⟩ excluded).2.args ∧
    g.Not.Not = g ∧
    g.Not.Not.AppendSQLExclude o excluded = g.AppendSQLExclude o excluded := by
  have hstep : f.Not.AppendSQLExclude o excluded =
      f.AppendSQLExclude (o.WriteString "NOT ") excluded := by
    have hnot : specNot f.Not = "NOT " := by simp [specNot, BooleanField.Not, hplain]
    have hplain' : specNot f = "" := by simp [specNot, hplain]
    have hord : specOrdering f.Not = specOrdering f := rfl
    cases hv : f.value with
    | some v =>
      rw [render_literal f.Not v hv o excluded, render_literal f v hv _ excluded, hnot, hplain',
        hord]
      simp only [Out.WriteString, String.empty_append, String.append_assoc]
    | none =>
      cases ht : f.table with
      | none =>
        rw [render_nil_table f.Not hv ht o excluded, render_nil_table f hv ht _ excluded, hnot,
          hplain']
        simp only [Out.WriteString, String.append_empty]
      | some table =>
        have hname : f.Not.name = f.name := rfl
        rw [render_column f.Not table hv ht o excluded, render_column f table hv ht _ excluded,
          hnot, hplain', hord, hname]
        simp only [Out.WriteString, String.empty_append, String.append_assoc]
  have hinv : g.Not.Not = g := by
    cases g
    simp [BooleanField.Not]
  refine ⟨hstep, ?_, ?_, ?_, hinv, by rw [hinv]⟩
  · rw [hstep, render_append_only f (o.WriteString "NOT ") excluded]
  · rw [hstep, render_append_only f (o.WriteString "NOT ") excluded]
    simp only [Out.WriteString, String.append_assoc]
  · rw [hstep, render_append_only f (o.WriteString "NOT ") excluded]
    simp only [Out.WriteString]

/-- Witness of C21 on the column `u.is_created`: negated once it renders as
`NOT u.is_created`, negated twice as `u.is_created`. -/
theorem negation_toggles_witness :
    ((NewBooleanField "is_created" (some sampleUsers)).Not.AppendSQLExclude ⟨"", []⟩ []).2.buf =
      "NOT u.is_created" ∧
    ((NewBooleanField "is_created" (some sampleUsers)).Not.Not.AppendSQLExclude
        ⟨"", []⟩ []).2.buf = "u.is_created" ∧
    (NewBooleanField "is_created" (some sampleUsers)).Not.AppendSQLExclude ⟨"", []⟩ [] =
      (NewBooleanField "is_created" (some sampleUsers)).AppendSQLExclude
        ((⟨"", []⟩ : Out).WriteString "NOT ") [] :=
  ⟨by decide, by decide,
    (negation_toggles (NewBooleanField "is_created" (some sampleUsers))
      (NewBooleanField "is_created" (some sampleUsers)) rfl ⟨"", []⟩ []).1⟩

/-- C22, the code at the failing input. On the zero value `BooleanField{}`, and on
`NewBooleanField(name, nil)`, `AppendSQLExclude` does not return: the call
`f.table.GetAlias()` on the nil table panics. In general the method returns
exactly when the field holds a literal or a table. -/
theorem boolean_field_nil_table_panics (f : BooleanField) (name : String) (o : Out)
    (excluded : List String) :
    (BooleanField.zero.AppendSQLExclude o excluded).1 = .error .nilPointer ∧
    ((NewBooleanField name none).AppendSQLExclude o excluded).1 = .error .nilPointer ∧
    ((f.AppendSQLExclude o excluded).1 = .ok () ↔ (f.value ≠ none ∨ f.table ≠ none)) ∧
    ((f.AppendSQLExclude o excluded).1 = .error .nilPointer ↔
      (f.value = none ∧ f.table = none)) := by
  refine ⟨?_, ?_, ?_, ?_⟩
  · rw [render_nil_table BooleanField.zero rfl rfl o excluded]
  · rw [render_nil_table (NewBooleanField name none) rfl rfl o excluded]
  · cases hv : f.value with
    | some v =>
      rw [render_literal f v hv o excluded]
      simp
    | none =>
      cases ht : f.table with
      | none =>
        rw [render_nil_table f hv ht o excluded]
        simp
      | some table =>
        rw [render_column f table hv ht o excluded]
        simp
  · cases hv : f.value with
    | some v =>
      rw [render_literal f v hv o excluded]
      simp
    | none =>
      cases ht : f.table with
      | none =>
        rw [render_nil_table f hv ht o excluded]
        simp
      | some table =>
        rw [render_column f table hv ht o excluded]
        simp

/-! ## ScanInto: placeholders and the fallback rescan -/

/-- C28. Declare-phase placeholder type: with `rows == nil`, `ScanInto` appends to
`dest` a fresh `NullBool` for a `*bool` or `*sql.NullBool` destination,
`NullFloat64` for `*float64` / `*sql.NullFloat64`, `NullInt32` for `*int32` /
`*sql.NullInt32`, `NullInt64` for `*int` / `*int64` / `*sql.NullInt64`,
`NullString` for `*string` / `*sql.NullString`, `NullTime` for `*time.Time` /
`*sql.NullTime`, and the caller's destination itself for every other type. In
the value phase the branch for a supported destination type returns exactly when
the element at the cursor has the type of that placeholder, and fails its type
assertion on any other element. -/
theorem declare_placeholder_type (r v : Row) (hdeclare : r.rows = none) (rows : Rows)
    (hvalue : v.rows = some rows) (d : Dest) (hd : sliceIndex v.dest v.index = .ok d)
    (dest : ScanDest) (field : Field) (caller : CallerInfo) :
    (r.ScanInto dest field caller).2.dest =
      r.dest ++ [match dest with
        | .bool | .NullBool => Dest.NullBool ⟨false, false⟩
        | .float64 | .NullFloat64 => Dest.NullFloat64 ⟨false, 0⟩
        | .int32 | .NullInt32 => Dest.NullInt32 ⟨false, 0⟩
        | .int | .int64 | .NullInt64 => Dest.NullInt64 ⟨false, 0⟩
        | .string | .NullString => Dest.NullString ⟨false, ""⟩
        | .Time | .NullTime => Dest.NullTime ⟨false, ⟨0, 0, 0⟩⟩
        | .other tag => Dest.caller (.other tag)] ∧
    (match dest with
      | .other _ => True
      | _ =>
        ((∃ s, (v.ScanInto dest field caller).1 = .ok s) ↔
          Dest.sameType ((r.ScanInto dest field caller).2.dest.getLast?.getD d) d = true) ∧
        ((v.ScanInto dest field caller).1 = .error .typeAssertion ↔
          Dest.sameType ((r.ScanInto dest field caller).2.dest.getLast?.getD d) d = false)) := by
  obtain ⟨rrows, rindex, rfields, rdest, rtmp⟩ := r
  obtain ⟨vrows, vindex, vfields, vdest, vtmp⟩ := v
  simp only at hdeclare hvalue hd
  subst hdeclare
  subst hvalue
  constructor
  · cases dest <;> rfl
  · cases dest <;> cases d <;>
      simp [Row.ScanInto, hd, Dest.sameType, NullBool.zero, NullFloat64.zero, NullInt32.zero,
        NullInt64.zero, NullString.zero, NullTime.zero]

/-- Witness of C28: a `*int32` destination declares a `NullInt32` placeholder, and the
value phase on that placeholder, filled with `7`, stores `7`. -/
theorem declare_placeholder_type_witness :
    (Row.ScanInto Row.empty .int32 (.desc sampleField) ⟨"main.go", 1⟩).2.dest =
      [Dest.NullInt32 ⟨false, 0⟩] ∧
    (Row.ScanInto ⟨some sampleRows, 0, [], [.NullInt32 ⟨true, 7⟩], []⟩ .int32
      (.desc sampleField) ⟨"main.go", 1⟩).1 = .ok (.int32 7) :=
  ⟨(declare_placeholder_type Row.empty ⟨some sampleRows, 0, [], [.NullInt32 ⟨true, 7⟩], []⟩
      rfl sampleRows rfl (.NullInt32 ⟨true, 7⟩) rfl .int32 (.desc sampleField)
      ⟨"main.go", 1⟩).1,
    rfl⟩

theorem freshTmpdest_sinks (r : Row)
    (htmp : r.tmpdest.length ≠ r.dest.length ∨ ∀ s ∈ r.tmpdest, s = TmpSlot.nothing) :
    r.freshTmpdest = List.replicate r.dest.length TmpSlot.nothing := by
  unfold Row.freshTmpdest
  by_cases hlen : r.tmpdest.length = r.dest.length
  · rw [if_neg (by simpa using hlen)]
    rcases htmp with hne | hall
    · exact absurd hlen hne
    · rw [← hlen]
      exact List.eq_replicate_iff.mpr ⟨rfl, hall⟩
  · rw [if_pos hlen]

theorem set_set_replicate {α : Type} (n i : Nat) (x y : α) :
    ((List.replicate n x).set i y).set i x = List.replicate n x := by
  rw [List.set_set]
  apply List.ext_getElem
  · simp
  · intro j h1 h2
    simp only [List.getElem_set, List.getElem_replicate]
    split <;> rfl

theorem ScanInto_fallback (r : Row) (rows : Rows) (h : r.rows = some rows)
    (tag : Nat) (f : Field) (cl : CallerInfo) :
    r.ScanInto (.other tag) f cl =
      if r.index < 0 ∨ (r.dest.length : Int) ≤ r.index then
        (.error .indexOutOfRange, { r with tmpdest := r.freshTmpdest })
      else
        match rows.Scan (r.freshTmpdest.set r.index.toNat (TmpSlot.dest (.other tag))) with
        | some err =>
          (.error (.scanFailed cl.sourcefile cl.linenbr err),
            { r with tmpdest := r.freshTmpdest.set r.index.toNat (TmpSlot.dest (.other tag)) })
        | none =>
          (.ok .none,
            { r with
              tmpdest := (r.freshTmpdest.set r.index.toNat
                (TmpSlot.dest (.other tag))).set r.index.toNat TmpSlot.nothing
              index := r.index + 1 }) := by
  have hlen := freshTmpdest_length r
  obtain ⟨rows', index, fields, dest, tmpdest⟩ := r
  simp only at h
  subst h
  simp only [Row.ScanInto]
  simp only [Row.freshTmpdest] at hlen ⊢
  simp only [hlen]

/-- C29. Fallback rescan: in the value phase, with the cursor in range and a
temporary array that is of another length than `dest` or holds only discard sinks
(as it does at the start and after every call that returned), `ScanInto` with a
destination of an unsupported type calls `rows.Scan` on an array of length
`len(dest)` whose position `index` is the caller's destination and whose other
positions are discard sinks. If the rescan returns an error, `ScanInto` panics
with an error that carries it, and `index` and `dest` are as before; if it
succeeds, the temporary array is all discard sinks again, `dest` and `fields` are
unchanged and `index` has advanced by exactly one. -/
theorem fallback_rescan (r : Row) (rows : Rows) (hvalue : r.rows = some rows)
    (htmp : r.tmpdest.length ≠ r.dest.length ∨ ∀ s ∈ r.tmpdest, s = TmpSlot.nothing)
    (hindex : 0 ≤ r.index ∧ r.index < (r.dest.length : Int))
    (tag : Nat) (field : Field) (caller : CallerInfo) :
    ((List.replicate r.dest.length TmpSlot.nothing).set r.index.toNat
        (TmpSlot.dest (.other tag))).length = r.dest.length ∧
    ((List.replicate r.dest.length TmpSlot.nothing).set r.index.toNat
        (TmpSlot.dest (.other tag)))[r.index.toNat]? = some (TmpSlot.dest (.other tag)) ∧
    (∀ j : Nat, j = r.index.toNat ∨ r.dest.length ≤ j ∨
      ((List.replicate r.dest.length TmpSlot.nothing).set r.index.toNat
        (TmpSlot.dest (.other tag)))[j]? = some TmpSlot.nothing) ∧
    (match rows.Scan ((List.replicate r.dest.length TmpSlot.nothing).set r.index.toNat
        (TmpSlot.dest (.other tag))) with
      | some err =>
        (r.ScanInto (.other tag) field caller).1 =
          .error (.scanFailed caller.sourcefile caller.linenbr err) ∧
        (r.ScanInto (.other tag) field caller).2.index = r.index ∧
        (r.ScanInto (.other tag) field caller).2.dest = r.dest
      | none =>
        (r.ScanInto (.other tag) field caller).1 = .ok .none ∧
        (r.ScanInto (.other tag) field caller).2.index = r.index + 1 ∧
        (r.ScanInto (.other tag) field caller).2.dest = r.dest ∧
        (r.ScanInto (.other tag) field caller).2.fields = r.fields ∧
        (r.ScanInto (.other tag) field caller).2.tmpdest =
          List.replicate r.dest.length TmpSlot.nothing) := by
  have hfresh := freshTmpdest_sinks r htmp
  have hrange : ¬ (r.index < 0 ∨ (r.dest.length : Int) ≤ r.index) := by omega
  have hlt : r.index.toNat < r.dest.length := by omega
  refine ⟨by simp, ?_, ?_, ?_⟩
  · simp [List.getElem?_set, hlt]
  · intro j
    by_cases hj : j = r.index.toNat
    · exact Or.inl hj
    · by_cases hjl : r.dest.length ≤ j
      · exact Or.inr (Or.inl hjl)
      · right
        right
        have hjlt : j < r.dest.length := by omega
        have hne : r.index.toNat ≠ j := fun e => hj e.symm
        simp [List.getElem?_set, hne, hjlt]
  · rw [ScanInto_fallback r rows hvalue tag field caller, if_neg hrange, hfresh]
    split
    · rename_i err herr
      simp [herr]
    · rename_i herr
      simp [herr, set_set_replicate]

/-- Witness of C29 on a row with two declared destinations and the cursor at `1`: a
cursor that rejects the array `[sink, caller's destination]` makes `ScanInto`
panic with that error and leaves `index = 1`; a cursor that accepts it leaves
`index = 2`. -/
theorem fallback_rescan_witness :
    (Row.ScanInto ⟨some (rowsFailingOn [.nothing, .dest (.other 9)]), 1, [],
        [.NullInt64 ⟨true, 1⟩, .caller (.other 9)], []⟩ (.other 9) (.desc sampleField)
        ⟨"main.go", 7⟩).1 = .error (.scanFailed "main.go" 7 "driver: bad type") ∧
    (Row.ScanInto ⟨some (rowsFailingOn [.nothing, .dest (.other 9)]), 1, [],
        [.NullInt64 ⟨true, 1⟩, .caller (.other 9)], []⟩ (.other 9) (.desc sampleField)
        ⟨"main.go", 7⟩).2.index = 1 ∧
    (Row.ScanInto ⟨some sampleRows, 1, [],
        [.NullInt64 ⟨true, 1⟩, .caller (.other 9)], []⟩ (.other 9) (.desc sampleField)
        ⟨"main.go", 7⟩).2.index = 1 + 1 :=
  ⟨rfl, rfl,
    (fallback_rescan ⟨some sampleRows, 1, [], [.NullInt64 ⟨true, 1⟩, .caller (.other 9)], []⟩
      sampleRows rfl (Or.inl (by decide)) (by decide) 9 (.desc sampleField)
      ⟨"main.go", 7⟩).2.2.2.2.1⟩

theorem tmpdest_sinks_preserved (r : Row) (rows : Rows) (hvalue : r.rows = some rows)
    (c : Call) (ret : Ret) (hret : (runCall r c).1 = .ok ret)
    (htmp : r.tmpdest.length ≠ r.dest.length ∨ ∀ s ∈ r.tmpdest, s = TmpSlot.nothing) :
    (runCall r c).2.tmpdest.length ≠ (runCall r c).2.dest.length ∨
      ∀ s ∈ (runCall r c).2.tmpdest, s = TmpSlot.nothing := by
  cases hc : isFallback c with
  | false =>
    obtain ⟨herr, hok⟩ := runCall_value_typed r rows hvalue c hc
    cases hs : sliceIndex r.dest r.index with
    | error e =>
      rw [herr e hs] at hret
      cases hret
    | ok d =>
      cases hty : Dest.sameType c.placeholder d with
      | false =>
        rw [((hok d hs).1 hty)] at hret
        cases hret
      | true =>
        obtain ⟨ret', hr⟩ := (hok d hs).2 hty
        rw [hr]
        exact htmp
  | true =>
    cases c with
    | ScanInto d f cl =>
      cases d with
      | other tag =>
        rw [runCall_value_fallback r rows hvalue tag f cl] at hret ⊢
        split at hret
        · cases hret
        · rename_i hrange
          rw [if_neg hrange]
          split at hret
          · cases hret
          · rename_i hscan
            simp only [hscan]
            right
            rw [freshTmpdest_sinks r htmp, set_set_replicate]
            intro s hs
            exact (List.mem_replicate.mp hs).2
      | _ => simp [isFallback] at hc
    | _ => simp [isFallback] at hc

/-! ## Where -/

/-- C30. Where accumulates: `q.Where(ps...).Where(qs...)` is the query
`q.Where(ps ++ qs ...)`, with the same WHERE predicate sequence, and so compiles
to the same SQL and arguments; `Where` with no predicates returns `q`; and `Where`
changes no field other than `WherePredicate.Predicates`, to which it appends. -/
theorem where_accumulates (x : Deps) (h : Heap) (q : DeleteQuery) (ps qs : List Predicate) :
    ((q.Where ps).Where qs).WherePredicate.Predicates =
      (q.Where (ps ++ qs)).WherePredicate.Predicates ∧
    (q.Where ps).Where qs = q.Where (ps ++ qs) ∧
    (((q.Where ps).Where qs).ToSQL x h).sql = ((q.Where (ps ++ qs)).ToSQL x h).sql ∧
    (((q.Where ps).Where qs).ToSQL x h).args = ((q.Where (ps ++ qs)).ToSQL x h).args ∧
    q.Where [] = q ∧
    (q.Where ps).WherePredicate.Predicates = q.WherePredicate.Predicates ++ ps ∧
    ((q.Where ps).WherePredicate.Toplevel = q.WherePredicate.Toplevel ∧
      (q.Where ps).WherePredicate.Operator = q.WherePredicate.Operator ∧
      (q.Where ps).Nested = q.Nested ∧ (q.Where ps).Alias = q.Alias ∧
      (q.Where ps).CTEs = q.CTEs ∧ (q.Where ps).FromTables = q.FromTables ∧
      (q.Where ps).UsingTable = q.UsingTable ∧ (q.Where ps).JoinTables = q.JoinTables ∧
      (q.Where ps).OrderByFields = q.OrderByFields ∧ (q.Where ps).LimitValue = q.LimitValue ∧
      (q.Where ps).DB = q.DB ∧ (q.Where ps).Log = q.Log ∧ (q.Where ps).LogFlag = q.LogFlag ∧
      (q.Where ps).LogSkip = q.LogSkip) := by
  have heq : (q.Where ps).Where qs = q.Where (ps ++ qs) := by
    simp [DeleteQuery.Where, List.append_assoc]
  have hnil : q.Where [] = q := by
    simp [DeleteQuery.Where]
  refine ⟨by rw [heq], heq, by rw [heq], by rw [heq], hnil, rfl,
    ⟨rfl, rfl, rfl, rfl, rfl, rfl, rfl, rfl, rfl, rfl, rfl, rfl, rfl, rfl⟩⟩

/-! ## The bound LIMIT at the smallest int64 -/

/-- C31, the code at the failing input. For the query built with `Limit` of the
smallest `int64`, `-9223372036854775808`, Go's negation returns the value itself,
so `AppendSQL` and `ToSQL` bind that negative number as the LIMIT argument and
leave it stored. For every query and stored limit the bound argument is the
limit, negated when negative, and for every other `int64` it is not negative. -/
theorem bound_limit_negative_at_min_int64 (x : Deps) (h : Heap) (q : DeleteQuery) (n : Int)
    (o : Out) :
    ((sampleDelete.Limit Heap.empty minInt64).1.ToSQL sampleDeps
        (sampleDelete.Limit Heap.empty minInt64).2).args =
      [Value.int64 (-9223372036854775808)] ∧
    ((sampleDelete.Limit Heap.empty minInt64).1.ToSQL sampleDeps
        (sampleDelete.Limit Heap.empty minInt64).2).sql = "DELETE FROM t LIMIT ?" ∧
    (sampleDelete.Limit Heap.empty minInt64).1.storedLimit
        ((sampleDelete.Limit Heap.empty minInt64).1.ToSQL sampleDeps
          (sampleDelete.Limit Heap.empty minInt64).2).heap = some (-9223372036854775808) ∧
    (isInt64 minInt64 ∧ minInt64 = -9223372036854775808 ∧ negInt64 minInt64 = minInt64) ∧
    ((q.Limit h n).1.AppendSQL x (q.Limit h n).2 o).out.args =
      (q.beforeLIMIT x o).args ++ [Value.int64 (if n < 0 then negInt64 n else n)] ∧
    (¬ isInt64 n ∨ n = minInt64 ∨ 0 ≤ (if n < 0 then negInt64 n else n)) := by
  refine ⟨by decide, by decide, by decide, ⟨by decide, by decide, by decide⟩, ?_, ?_⟩
  · have hload : Heap.load ⟨fun a => if a = h.next then n else h.cells a, h.next + 1⟩ h.next = n := by
      simp [Heap.load]
    simp only [DeleteQuery.Limit, AppendSQL_out, appendLIMIT_some, beforeLIMIT_setLimit,
      Heap.alloc, hload, boundLimit]
  · by_cases hn : isInt64 n
    · right
      by_cases hmin : n = minInt64
      · exact Or.inl hmin
      · right
        unfold isInt64 at hn
        unfold minInt64 at hmin
        unfold negInt64 wrapInt64
        split <;> omega
    · exact Or.inl hn

end Sq
